import Mathlib

/-!
Verification development for the Rove context-aggregation pipeline
(`src/rove/search_agent.py` and `src/rove/context_builder.py`).

The Python code is shallowly embedded: strings are Lean `String`s (lists of
characters, ASCII-centric where Python is Unicode-aware), the regular
expressions used by the code are embedded as explicit character scanners with
Python's leftmost / greedy / non-overlapping `finditer` semantics, the
external collaborators (AI completion service, source capability providers,
persistent store, filesystem) are explicit oracle parameters or state
records, and exceptions are `Except` values.  `None`-able AI responses model
"the AI call raised" (timeout or error), matching the `try/except` blocks at
every AI call site.
-/

namespace Rove

/-! ### Python character classes (ASCII model) -/

/-- Python regex `\d` (ASCII model). -/
def pyDigit (c : Char) : Bool := '0' ≤ c && c ≤ '9'

/-- Python regex `\s` / `str.strip` whitespace: space, tab, newline, carriage
return, vertical tab, form feed (ASCII model). -/
def pyWs (c : Char) : Bool :=
  c = ' ' || c = '\t' || c = '\n' || c = '\r' || c = '\x0b' || c = '\x0c'

/-- Python regex `\w` (ASCII model): alphanumeric or underscore. -/
def pyWord (c : Char) : Bool := c.isAlphanum || c = '_'

/-- ASCII uppercase letter, Python regex `[A-Z]`. -/
def ucLetter (c : Char) : Bool := 'A' ≤ c && c ≤ 'Z'

/-- ASCII letter, used for `[A-Z]` under `re.IGNORECASE`. -/
def anyLetter (c : Char) : Bool := c.isAlpha

/-- Python `str.upper` on one character (ASCII model). -/
def pyUpperCh (c : Char) : Char :=
  if 'a' ≤ c && c ≤ 'z' then Char.ofNat (c.toNat - 32) else c

/-- Python `str.lower` on one character (ASCII model). -/
def pyLowerCh (c : Char) : Char :=
  if 'A' ≤ c && c ≤ 'Z' then Char.ofNat (c.toNat + 32) else c

/-! ### Basic string helpers (Python semantics, on `List Char`) -/

/-- Python `str.upper`. -/
def pyUpper (s : String) : String := ⟨s.data.map pyUpperCh⟩

/-- Python `str.lower`. -/
def pyLower (s : String) : String := ⟨s.data.map pyLowerCh⟩

/-- Python `len` on a string (code points). -/
def pyLen (s : String) : Nat := s.data.length

/-- Python string slice `s[:n]` (by code points). -/
def pyTake (s : String) (n : Nat) : String := ⟨s.data.take n⟩

/-- Boolean test that `pat` is a leading block of `l`. -/
def leadsWith : List Char → List Char → Bool
  | [], _ => true
  | _ :: _, [] => false
  | p :: ps, c :: cs => p = c && leadsWith ps cs

/-- Boolean substring containment on char lists (Python `in` on `str`). -/
def containsSeq (pat : List Char) : List Char → Bool
  | [] => leadsWith pat []
  | c :: cs => leadsWith pat (c :: cs) || containsSeq pat cs

/-- Python `needle in hay` for strings. -/
def strContains (hay needle : String) : Bool := containsSeq needle.data hay.data

/-- Python `str.strip()` (drop whitespace at both ends). -/
def pyStripL (l : List Char) : List Char := l.dropWhile pyWs

/-- Drop trailing characters satisfying `p`. -/
def dropTrail (p : Char → Bool) (l : List Char) : List Char :=
  (l.reverse.dropWhile p).reverse

/-- Python `str.strip()`. -/
def pyStrip (s : String) : String := ⟨dropTrail pyWs (pyStripL s.data)⟩

/-- Python `str.rstrip()`. -/
def pyRstrip (s : String) : String := ⟨dropTrail pyWs s.data⟩

/-- Python `str.rstrip(".")`. -/
def pyRstripDot (s : String) : String := ⟨dropTrail (· = '.') s.data⟩

/-- Python `"sep".join(xs)` on char lists. -/
def joinSep (sep : List Char) : List (List Char) → List Char
  | [] => []
  | [a] => a
  | a :: b :: rest => a ++ sep ++ joinSep sep (b :: rest)

/-- Python `"\n".join(lines)` for strings. -/
def joinLines (lines : List String) : String := ⟨joinSep ['\n'] (lines.map String.data)⟩

/-- Python `str.split()` (split on whitespace runs, no empties). -/
def pySplitWsAux : List Char → List Char → List (List Char)
  | acc, [] => if acc.isEmpty then [] else [acc.reverse]
  | acc, c :: cs =>
    if pyWs c then
      if acc.isEmpty then pySplitWsAux [] cs else acc.reverse :: pySplitWsAux [] cs
    else pySplitWsAux (c :: acc) cs

/-- Python `str.split()` for strings. -/
def pySplitWs (s : String) : List String := (pySplitWsAux [] s.data).map String.mk

/-- Python `str.split(",")`: split at every comma, keeping empty parts. -/
def pySplitCommaAux : List Char → List Char → List (List Char)
  | acc, [] => [acc.reverse]
  | acc, c :: cs =>
    if c = ',' then acc.reverse :: pySplitCommaAux [] cs
    else pySplitCommaAux (c :: acc) cs

/-- Python `str.split(",")` for strings. -/
def pySplitComma (s : String) : List String := (pySplitCommaAux [] s.data).map String.mk

/-- Python `str.replace(",", " ")`. -/
def commaToSpace (s : String) : String :=
  ⟨s.data.map (fun c => if c = ',' then ' ' else c)⟩

/-- Python `str.isalnum()` (ASCII model): nonempty and all alphanumeric. -/
def pyIsAlnum (s : String) : Bool := !s.data.isEmpty && s.data.all Char.isAlphanum

/-- Everything before the first `:` (Python `s.split(":")[0]`). -/
def beforeColon (s : String) : String := ⟨s.data.takeWhile (· ≠ ':')⟩

/-! ### Decimal rendering and parsing of naturals -/

/-- One decimal digit as a character. -/
def digitCh : Nat → Char
  | 0 => '0' | 1 => '1' | 2 => '2' | 3 => '3' | 4 => '4'
  | 5 => '5' | 6 => '6' | 7 => '7' | 8 => '8' | 9 => '9'
  | _ => '*'

/-- Decimal digits of a natural, fuel-based so that it is structurally
recursive (and hence kernel-computable). -/
def natCharsF : Nat → Nat → List Char
  | 0, _ => []
  | fuel + 1, n =>
    if n < 10 then [digitCh n]
    else natCharsF fuel (n / 10) ++ [digitCh (n % 10)]

/-- Decimal representation of a natural as characters. -/
def natChars (n : Nat) : List Char := natCharsF (n + 1) n

/-- Decimal representation of a natural (Python `str(n)` / f-string). -/
def natStr (n : Nat) : String := ⟨natChars n⟩

/-- Numeric value of a decimal digit run (Python `int` on digit strings). -/
def digitsVal (l : List Char) : Nat := l.foldl (fun a c => 10 * a + (c.toNat - 48)) 0

/-- Python `int(str)` (sign, ASCII digits, single underscores between digits;
anything else raises, modelled as `none`). -/
def pyInt (s : String) : Option Int :=
  let core : List Char → Option Nat := fun l =>
    let rec go : List Char → Bool → Option Nat → Option Nat
      | [], lastDigit, acc => if lastDigit then acc else none
      | c :: cs, lastDigit, acc =>
        if pyDigit c then
          go cs true (some (10 * acc.getD 0 + (c.toNat - 48)))
        else if c = '_' then
          if lastDigit then go cs false acc else none
        else none
    go l false none
  match s.data with
  | '-' :: rest => (core rest).map (fun n => -(n : Int))
  | '+' :: rest => (core rest).map (fun n => (n : Int))
  | l => (core l).map (fun n => (n : Int))

/-! ### Generic regex-scanner driver

Models Python `re.finditer`: try a match at each position left to right; on
success emit the match and resume after its end (non-overlapping), on failure
advance one character. -/

/-- Fuel-based `finditer` loop (structural recursion on the fuel; the match
length is positive, so fuel `l.length` always suffices). -/
def scanGenF {α : Type} (step : List Char → Option (α × {k : Nat // 0 < k})) :
    Nat → List Char → List α
  | 0, _ => []
  | _ + 1, [] => []
  | fuel + 1, c :: rest =>
    match step (c :: rest) with
    | some (v, k) => v :: scanGenF step fuel ((c :: rest).drop k.1)
    | none => scanGenF step fuel rest

/-- Generic `finditer` driver; `step` attempts a match at the head and
returns the extracted value plus the (positive) match length. -/
def scanGen {α : Type} (step : List Char → Option (α × {k : Nat // 0 < k}))
    (l : List Char) : List α :=
  scanGenF step l.length l

/-- Fuel-based driver tracking the previous character, for patterns with
`\b` word boundaries. -/
def scanGenBF {α : Type}
    (step : Option Char → List Char → Option (α × {k : Nat // 0 < k})) :
    Nat → Option Char → List Char → List α
  | 0, _, _ => []
  | _ + 1, _, [] => []
  | fuel + 1, prev, c :: rest =>
    match step prev (c :: rest) with
    | some (v, k) =>
      v :: scanGenBF step fuel ((c :: rest)[k.1 - 1]?) ((c :: rest).drop k.1)
    | none => scanGenBF step fuel (some c) rest

/-- `finditer` driver with `\b` word-boundary tracking. -/
def scanGenB {α : Type}
    (step : Option Char → List Char → Option (α × {k : Nat // 0 < k}))
    (prev : Option Char) (l : List Char) : List α :=
  scanGenBF step l.length prev l

/-! ### Scanners for `ContextBuilder._parse_existing_urls` -/

/-- One match of `\[(\d+)\]:` (used for reference numbers).  The two-char
test `take 2 = [']', ':']` is the `]` `:` literal tail of the pattern. -/
def tryRN : List Char → Option (Nat × {k : Nat // 0 < k})
  | [] => none
  | c :: rest =>
    if c = '[' then
      let ds := rest.takeWhile pyDigit
      if ds.isEmpty then none
      else if (rest.drop ds.length).take 2 = [']', ':'] then
        some (digitsVal ds, ⟨1 + ds.length + 2, by omega⟩)
      else none
    else none

/-- All matches of `\[(\d+)\]:` in a string, in order. -/
def scanRN (s : String) : List Nat := scanGen tryRN s.data

/-- Match `http://` or `https://` at the head (the regex `https?://`). -/
def schemeSplit : List Char → Option (List Char × List Char)
  | 'h' :: 't' :: 't' :: 'p' :: 's' :: ':' :: '/' :: '/' :: r =>
    some (['h', 't', 't', 'p', 's', ':', '/', '/'], r)
  | 'h' :: 't' :: 't' :: 'p' :: ':' :: '/' :: '/' :: r =>
    some (['h', 't', 't', 'p', ':', '/', '/'], r)
  | _ => none

/-- Character class `[^\s"]` of the reference-list URL capture. -/
def urlBodyCh (c : Char) : Bool := !pyWs c && c ≠ '"'

/-- One match of `\[\d+\]:\s+(https?://[^\s"]+)`, returning the captured
URL (`p.1`/`p.2` are the scheme and its remainder from `schemeSplit`). -/
def tryUrl : List Char → Option (String × {k : Nat // 0 < k})
  | [] => none
  | c :: rest =>
    if c = '[' then
      let ds := rest.takeWhile pyDigit
      if ds.isEmpty then none
      else if (rest.drop ds.length).take 2 = [']', ':'] then
        let r2 := (rest.drop ds.length).drop 2
        let ws := r2.takeWhile pyWs
        if ws.isEmpty then none
        else
          (schemeSplit (r2.drop ws.length)).bind fun p =>
            let body := p.2.takeWhile urlBodyCh
            if body.isEmpty then none
            else
              some (⟨p.1 ++ body⟩,
                ⟨1 + ds.length + 2 + ws.length + p.1.length + body.length, by omega⟩)
      else none
    else none

/-- All captures of the reference-list URL pattern. -/
def scanUrls (s : String) : List String := scanGen tryUrl s.data

/-- Character class `[^\s<>\[\]"\']` of the JIRA / GitHub URL patterns. -/
def linkCh (c : Char) : Bool := !pyWs c && !(['<', '>', '[', ']', '"', '\''].contains c)

/-- Try `/browse/[A-Z]+-\d+` at offset `L` of the class run. -/
def browseAt (run : List Char) (L : Nat) : Option (List Char × Nat) :=
  match run.drop L with
  | '/' :: 'b' :: 'r' :: 'o' :: 'w' :: 's' :: 'e' :: '/' :: r =>
    let caps := r.takeWhile ucLetter
    if caps.isEmpty then none
    else
      match r.drop caps.length with
      | '-' :: r2 =>
        let ds := r2.takeWhile pyDigit
        if ds.isEmpty then none
        else
          some (['/', 'b', 'r', 'o', 'w', 's', 'e', '/'] ++ caps ++ '-' :: ds,
            8 + caps.length + 1 + ds.length)
      | _ => none
  | _ => none

/-- Greedy search (largest split first) for the `/browse/` tail, modelling
backtracking of the greedy `[^\s<>\[\]"\']+`. -/
def findBrowse (run : List Char) : Nat → Option ({L : Nat // 0 < L} × List Char × Nat)
  | 0 => none
  | L + 1 =>
    match browseAt run (L + 1) with
    | some (tail, tlen) => some (⟨L + 1, by omega⟩, tail, tlen)
    | none => findBrowse run L

/-- One match of `https?://[^\s<>\[\]"\']+/browse/[A-Z]+-\d+`. -/
def tryJira (l : List Char) : Option (String × {k : Nat // 0 < k}) :=
  match schemeSplit l with
  | none => none
  | some (sch, r) =>
    let run := r.takeWhile linkCh
    match findBrowse run run.length with
    | none => none
    | some (L, tail, tlen) =>
      some (⟨sch ++ run.take L.1 ++ tail⟩,
        ⟨sch.length + L.1 + tlen, by have := L.2; omega⟩)

/-- All matches of the JIRA browse-URL pattern. -/
def scanJira (s : String) : List String := scanGen tryJira s.data

/-- Try `/pull/\d+` at offset `L` of the class run. -/
def pullAt (run : List Char) (L : Nat) : Option (List Char × Nat) :=
  match run.drop L with
  | '/' :: 'p' :: 'u' :: 'l' :: 'l' :: '/' :: r =>
    let ds := r.takeWhile pyDigit
    if ds.isEmpty then none
    else some (['/', 'p', 'u', 'l', 'l', '/'] ++ ds, 6 + ds.length)
  | _ => none

/-- Greedy search for the `/pull/` tail. -/
def findPull (run : List Char) : Nat → Option ({L : Nat // 0 < L} × List Char × Nat)
  | 0 => none
  | L + 1 =>
    match pullAt run (L + 1) with
    | some (tail, tlen) => some (⟨L + 1, by omega⟩, tail, tlen)
    | none => findPull run L

/-- One match of `https?://github\.com/[^\s<>\[\]"\']+/pull/\d+`. -/
def tryGh (l : List Char) : Option (String × {k : Nat // 0 < k}) :=
  match schemeSplit l with
  | none => none
  | some (sch, r) =>
    match r with
    | 'g' :: 'i' :: 't' :: 'h' :: 'u' :: 'b' :: '.' :: 'c' :: 'o' :: 'm' :: '/' :: r2 =>
      let run := r2.takeWhile linkCh
      match findPull run run.length with
      | none => none
      | some (L, tail, tlen) =>
        some (⟨sch ++ ['g', 'i', 't', 'h', 'u', 'b', '.', 'c', 'o', 'm', '/'] ++
            run.take L.1 ++ tail⟩,
          ⟨sch.length + 11 + L.1 + tlen, by omega⟩)
    | _ => none

/-- All matches of the GitHub pull-request URL pattern. -/
def scanGh (s : String) : List String := scanGen tryGh s.data

/-- One match of `### ([A-Z]+-\d+):`, returning the `__ticket__<ID>` marker. -/
def tryTicketHdr : List Char → Option (String × {k : Nat // 0 < k})
  | '#' :: '#' :: '#' :: ' ' :: r =>
    let caps := r.takeWhile ucLetter
    if caps.isEmpty then none
    else
      match r.drop caps.length with
      | '-' :: r2 =>
        let ds := r2.takeWhile pyDigit
        if ds.isEmpty then none
        else
          match r2.drop ds.length with
          | ':' :: _ =>
            some (⟨"__ticket__".data ++ caps ++ '-' :: ds⟩,
              ⟨4 + caps.length + 1 + ds.length + 1, by omega⟩)
          | _ => none
      | _ => none
  | _ => none

/-- All ticket-header markers in a string. -/
def scanTicketHdrs (s : String) : List String := scanGen tryTicketHdr s.data

/-- One match of the sources-table row pattern `\| (\w+) \| (\d+) \|`,
returning the lowercased source name and the count. -/
def tryTableRow : List Char → Option ((String × Nat) × {k : Nat // 0 < k})
  | '|' :: ' ' :: r =>
    let w := r.takeWhile pyWord
    if w.isEmpty then none
    else
      match r.drop w.length with
      | ' ' :: '|' :: ' ' :: r2 =>
        let ds := r2.takeWhile pyDigit
        if ds.isEmpty then none
        else
          match r2.drop ds.length with
          | ' ' :: '|' :: _ =>
            some ((⟨w.map pyLowerCh⟩, digitsVal ds),
              ⟨2 + w.length + 3 + ds.length + 2, by omega⟩)
          | _ => none
      | _ => none
  | _ => none

/-- All sources-table row matches in a string. -/
def scanTableRows (s : String) : List (String × Nat) := scanGen tryTableRow s.data

/-! ### Reference scanners for `SearchAgent._extract_references`

All three patterns are compiled with `re.IGNORECASE` and use `\b` word
boundaries, so the scanner tracks the previous character. -/

/-- `\b` holds before the current position. -/
def boundaryOk : Option Char → Bool
  | none => true
  | some c => !pyWord c

/-- `\b` fails after a match iff the next character is a word character. -/
def wordAfter : List Char → Bool
  | [] => false
  | c :: _ => pyWord c

/-- Case-insensitive literal match at the head (`pat` given lowercase). -/
def ciLeads : List Char → List Char → Bool
  | [], _ => true
  | _ :: _, [] => false
  | p :: ps, c :: cs => pyLowerCh c = p && ciLeads ps cs

/-- One match of `\b([A-Z]{2,10}-\d+)\b` (IGNORECASE). -/
def tryTicketRef (prev : Option Char) (l : List Char) :
    Option (String × {k : Nat // 0 < k}) :=
  if boundaryOk prev then
    let letters := l.takeWhile anyLetter
    if 2 ≤ letters.length && letters.length ≤ 10 then
      match l.drop letters.length with
      | '-' :: r =>
        let ds := r.takeWhile pyDigit
        if ds.isEmpty then none
        else if wordAfter (r.drop ds.length) then none
        else some (⟨letters ++ '-' :: ds⟩, ⟨letters.length + 1 + ds.length, by omega⟩)
      | _ => none
    else none
  else none

/-- After the PR / issue keyword: `\s*#?(\d+)\b`; returns digits and length. -/
def numTail (r : List Char) : Option (List Char × Nat) :=
  let ws := r.takeWhile pyWs
  let r1 := r.drop ws.length
  match r1 with
  | '#' :: r2 =>
    let ds := r2.takeWhile pyDigit
    if ds.isEmpty then none
    else if wordAfter (r2.drop ds.length) then none
    else some (ds, ws.length + 1 + ds.length)
  | _ =>
    let ds := r1.takeWhile pyDigit
    if ds.isEmpty then none
    else if wordAfter (r1.drop ds.length) then none
    else some (ds, ws.length + ds.length)

/-- One match of `\b(?:PR|pull)\s*#?(\d+)\b` (IGNORECASE). -/
def tryPrRef (prev : Option Char) (l : List Char) :
    Option (String × {k : Nat // 0 < k}) :=
  if boundaryOk prev then
    if ciLeads ['p', 'r'] l then
      match numTail (l.drop 2) with
      | some (ds, tlen) => some (⟨ds⟩, ⟨2 + tlen, by omega⟩)
      | none =>
        if ciLeads ['p', 'u', 'l', 'l'] l then
          match numTail (l.drop 4) with
          | some (ds, tlen) => some (⟨ds⟩, ⟨4 + tlen, by omega⟩)
          | none => none
        else none
    else if ciLeads ['p', 'u', 'l', 'l'] l then
      match numTail (l.drop 4) with
      | some (ds, tlen) => some (⟨ds⟩, ⟨4 + tlen, by omega⟩)
      | none => none
    else none
  else none

/-- One match of `\bissue\s*#?(\d+)\b` (IGNORECASE). -/
def tryIssueRef (prev : Option Char) (l : List Char) :
    Option (String × {k : Nat // 0 < k}) :=
  if boundaryOk prev then
    if ciLeads ['i', 's', 's', 'u', 'e'] l then
      match numTail (l.drop 5) with
      | some (ds, tlen) => some (⟨ds⟩, ⟨5 + tlen, by omega⟩)
      | none => none
    else none
  else none

/-- All ticket-id reference matches in a text. -/
def scanTicketRefs (s : String) : List String := scanGenB tryTicketRef none s.data

/-- All PR-number reference matches in a text. -/
def scanPrRefs (s : String) : List String := scanGenB tryPrRef none s.data

/-- All issue-number reference matches in a text. -/
def scanIssueRefs (s : String) : List String := scanGenB tryIssueRef none s.data

/-! ### Data model (`rove.plugins.base.ContextItem` and persistent store)

`ContextItem.timestamp` holds the `strftime("%b %d, %Y")` rendering of the
Python `datetime`, which is the only use the builder makes of it.  Of the
open `metadata` bag the pipeline reads exactly two keys: `"ticket_id"`
(embedded as `meta_ticket_id`, default `""`) and `"_comments"` (a transient
batch of attached items, embedded as the second component of the
`get_item_details` oracle result, since the code pops it immediately on
receipt). -/

structure ContextItem where
  source : String
  item_type : String
  title : String
  content : String
  url : String
  timestamp : String
  author : String
  meta_ticket_id : String
deriving DecidableEq, Repr

/-- Persisted `ContextFileRecord` (the fields the builder reads/writes). -/
structure FileRecord where
  filename : String
  keywords : List String
deriving DecidableEq, Repr

/-- Builder-visible world state: document records keyed by upper-cased ticket
id, artifact files keyed by filename (one output directory), and the set of
`(ticket, source)` fetch-history keys that have been upserted. -/
structure BuildState where
  db : List (String × FileRecord)
  fs : List (String × String)
  fetchHistory : List (String × String)
deriving DecidableEq, Repr

/-- Errors raised by `ContextBuilder.build` (`ValueError` in the source). -/
inductive BuildError
  | valueError (msg : String)
deriving DecidableEq, Repr

/-- AI-completion oracle for one `build` invocation plus the current date.
`none` models the AI call raising (timeout or error); the prompt text never
influences the embedded semantics, only the response does. -/
structure BuildEnv where
  keywordResponse : Option String
  dedupResponse : Option String
  groupResponse : Option String
  today : String
deriving Repr

/-- Association-list lookup (used for the store and the filesystem). -/
def alookup {β : Type} (l : List (String × β)) (k : String) : Option β :=
  (l.find? (fun p => p.1 == k)).map (·.2)

/-- Write/overwrite a file (keyed map update, insertion position kept). -/
def fsWrite (fs : List (String × String)) (name content : String) :
    List (String × String) :=
  match fs with
  | [] => [(name, content)]
  | (n, c) :: rest =>
    if n = name then (n, content) :: rest else (n, c) :: fsWrite rest name content

/-- `update_context_file`: replace filename/keywords of an existing record. -/
def dbUpdate (db : List (String × FileRecord)) (tid : String) (rec : FileRecord) :
    List (String × FileRecord) :=
  match db with
  | [] => []
  | (t, r) :: rest =>
    if t = tid then (t, rec) :: rest else (t, r) :: dbUpdate rest tid rec

/-- `update_fetch_history`: upsert of a `(ticket, source)` key (the stored
timestamp itself is not modelled). -/
def fhUpsert (fh : List (String × String)) (key : String × String) :
    List (String × String) :=
  if fh.contains key then fh else fh ++ [key]

/-- First-occurrence deduplication of source names (`set(...)` in the code;
Python set iteration order is unspecified, and the per-source upserts
commute, so first-occurrence order is a sound rendering). -/
def dedupStr : List String → List String
  | [] => []
  | s :: rest => s :: (dedupStr rest).filter (· ≠ s)

/-- Python truthiness of the optional `existing_content` string. -/
def truthy : Option String → Bool
  | some c => c ≠ ""
  | none => false

/-! ### `ContextBuilder._parse_existing_urls` and `_item_in_existing` -/

/-- `_parse_existing_urls`: union of the four pattern scans.  The Python
`set` is modelled as a list; only membership and non-emptiness are consumed
downstream, and both agree between the list and its set of elements. -/
def parseExistingUrls (content : String) : List String :=
  scanUrls content ++ scanJira content ++ scanGh content ++ scanTicketHdrs content

/-- `_item_in_existing`: direct URL match, else ticket-marker match. -/
def itemInExisting (item : ContextItem) (existing_urls : List String) : Bool :=
  existing_urls.contains item.url ||
    (item.item_type = "ticket" &&
      existing_urls.contains ("__ticket__" ++ item.meta_ticket_id))

/-! ### `ContextBuilder.deduplicate_items` -/

/-- First pass of `deduplicate_items`: URL-based dedup keeping first
occurrences. -/
def dedupByUrlAux (seen : List String) : List ContextItem → List ContextItem
  | [] => []
  | it :: rest =>
    if seen.contains it.url then dedupByUrlAux seen rest
    else it :: dedupByUrlAux (it.url :: seen) rest

/-- URL-based deduplication (first pass of `deduplicate_items`). -/
def dedupByUrl (items : List ContextItem) : List ContextItem := dedupByUrlAux [] items

/-- Sorted-set insertion for naturals (models Python `sorted(set)`). -/
def sortedInsertNat (x : Nat) : List Nat → List Nat
  | [] => [x]
  | y :: ys =>
    if x < y then x :: y :: ys
    else if x = y then y :: ys
    else y :: sortedInsertNat x ys

/-- Strictly-ascending sorted set of a list of naturals. -/
def sortedSet (l : List Nat) : List Nat := l.foldr sortedInsertNat []

/-- Index parsing shared verbatim by the dedup and relevance AI call sites:
split the response on commas/whitespace, parse each part as an `int` after
stripping trailing dots, keep indices in `[0, n)`, add index 0, and return
the sorted set. -/
def parseKeepIndices (txt : String) (n : Nat) : List Nat :=
  let raw := (pySplitWs (commaToSpace txt)).filterMap
    (fun part => pyInt (pyRstripDot (pyStrip part)))
  let valid := raw.filterMap
    (fun i => if 0 ≤ i ∧ i < (n : Int) then some i.toNat else none)
  sortedSet (valid ++ [0])

/-- `ContextBuilder.deduplicate_items`.  On AI failure it deliberately
returns the empty list (fail-closed). -/
def deduplicateItems (env : BuildEnv) (items : List ContextItem)
    (_existing_content : Option String) : List ContextItem :=
  if items.length ≤ 1 then items
  else
    let unique_items := dedupByUrl items
    if unique_items.length ≤ 3 then unique_items
    else
      match env.dedupResponse with
      | none => []
      | some txt =>
        (parseKeepIndices txt unique_items.length).filterMap
          (fun i => unique_items[i]?)

/-! ### `ContextBuilder._extract_keywords` -/

/-- `re.sub(r"[^a-z0-9]", "", s)`. -/
def keepLowerAlnum (s : String) : String :=
  ⟨s.data.filter (fun c => ('a' ≤ c && c ≤ 'z') || pyDigit c)⟩

/-- Python `" ".join`. -/
def joinSpace (xs : List String) : String := ⟨joinSep [' '] (xs.map String.data)⟩

/-- Python `"_".join`. -/
def joinUnderscore (xs : List String) : String := ⟨joinSep ['_'] (xs.map String.data)⟩

/-- Stop words of the keyword-extraction fallback. -/
def commonWords : List String :=
  ["about", "after", "before", "being", "could", "would", "should"]

/-- `ContextBuilder._extract_keywords` (AI parse, deterministic fallback). -/
def extractKeywords (env : BuildEnv) (items : List ContextItem) : List String :=
  let text_parts := (items.take 5).flatMap (fun it => [it.title, pyTake it.content 200])
  let combined := joinSpace text_parts
  match env.keywordResponse with
  | some txt =>
    (((pySplitComma txt).map (fun k => keepLowerAlnum (pyLower (pyStrip k)))).filter
      (fun k => k ≠ "" && 2 < pyLen k)).take 5
  | none =>
    let kws := (pySplitWs (pyLower combined)).filter
      (fun w => 4 < pyLen w && pyIsAlnum w)
    (kws.filter (fun w => !commonWords.contains w)).take 5

/-! ### `ContextBuilder._group_by_topic` -/

/-- `_type_to_topic`. -/
def typeToTopic : String → String
  | "ticket" => "Primary Ticket"
  | "comment" => "Discussion"
  | "message" => "Related Discussions"
  | "pr" => "Related Code"
  | "issue" => "Related Issues"
  | _ => "Other Context"

/-- Insertion-ordered dict append of one item under a topic. -/
def dictAppend (d : List (String × List ContextItem)) (k : String) (v : ContextItem) :
    List (String × List ContextItem) :=
  match d with
  | [] => [(k, [v])]
  | (k', vs) :: rest =>
    if k' = k then (k', vs ++ [v]) :: rest else (k', vs) :: dictAppend rest k v

/-- Deterministic type-based grouping (small sets and every AI fallback). -/
def typeGrouping (items : List ContextItem) : List (String × List ContextItem) :=
  items.foldl (fun gs it => dictAppend gs (typeToTopic it.item_type) it) []

/-- JSON whitespace. -/
def jsonWs (c : Char) : Bool := c = ' ' || c = '\t' || c = '\n' || c = '\r'

/-- Skip JSON whitespace. -/
def skipJws (l : List Char) : List Char := l.dropWhile jsonWs

/-- The `re.search(r"\x7b[^\x7d]+\x7d", response)` capture: first `{` with at
least one non-`}` character before the next `}`, braces included. -/
def jsonCapture : List Char → Option (List Char)
  | [] => none
  | c :: rest =>
    if c = '\x7b' then
      let mid := rest.takeWhile (· ≠ '\x7d')
      if mid.isEmpty then jsonCapture rest
      else
        match rest.drop mid.length with
        | [] => jsonCapture rest
        | _ :: _ => some ('\x7b' :: mid ++ ['\x7d'])
    else jsonCapture rest

/-- JSON string literal (escape sequences are treated as a parse failure;
the grouping call site treats every parse problem as an AI failure and falls
back to type grouping, so this errs only toward the deterministic branch). -/
def parseJsonStr : List Char → Option (String × List Char)
  | '"' :: r =>
    let body := r.takeWhile (fun c => c ≠ '"' && c ≠ '\\')
    match r.drop body.length with
    | '"' :: rest => some (⟨body⟩, rest)
    | _ => none
  | _ => none

/-- JSON unsigned integer (no leading zeros). -/
def parseJsonNat (l : List Char) : Option (Nat × List Char) :=
  let ds := l.takeWhile pyDigit
  if ds.isEmpty then none
  else if ds.head? = some '0' && ds.length ≠ 1 then none
  else some (digitsVal ds, l.drop ds.length)

/-- JSON integer; non-integer JSON values are treated as a parse failure
(the Python call site ends in the type-grouping fallback for them too, via
the surrounding `except Exception`). -/
def parseJsonInt : List Char → Option (Int × List Char)
  | '-' :: r => (parseJsonNat r).map (fun p => (-(p.1 : Int), p.2))
  | l => (parseJsonNat l).map (fun p => ((p.1 : Int), p.2))

/-- Elements of a JSON array of integers, after the opening `[`. -/
def parseIntListAux : Nat → List Char → List Int → Option (List Int × List Char)
  | 0, _, _ => none
  | fuel + 1, l, acc =>
    match skipJws l with
    | ']' :: rest => if acc.isEmpty then some ([], rest) else none
    | l1 =>
      match parseJsonInt l1 with
      | none => none
      | some (v, r1) =>
        match skipJws r1 with
        | ',' :: r2 => parseIntListAux fuel r2 (acc ++ [v])
        | ']' :: rest => some (acc ++ [v], rest)
        | _ => none

/-- Python-dict upsert: keep first-insertion position, take the last value
(the `json.loads` duplicate-key rule and plain dict assignment). -/
def dictSetLast {β : Type} (d : List (String × β)) (k : String) (v : β) :
    List (String × β) :=
  match d with
  | [] => [(k, v)]
  | (k', v') :: rest =>
    if k' = k then (k', v) :: rest else (k', v') :: dictSetLast rest k v

/-- Entries of the flat JSON object `{"topic": [ints], ...}`. -/
def parseObjAux : Nat → List Char → List (String × List Int) →
    Option (List (String × List Int))
  | 0, _, _ => none
  | fuel + 1, l, acc =>
    match parseJsonStr (skipJws l) with
    | none => none
    | some (k, r1) =>
      match skipJws r1 with
      | ':' :: r2 =>
        match skipJws r2 with
        | '[' :: r3 =>
          match parseIntListAux (r3.length + 1) r3 [] with
          | none => none
          | some (vs, r4) =>
            let acc1 := dictSetLast acc k vs
            match skipJws r4 with
            | ',' :: r5 => parseObjAux fuel r5 acc1
            | '\x7d' :: r6 => if (skipJws r6).isEmpty then some acc1 else none
            | _ => none
        | _ => none
      | _ => none

/-- `json.loads` of the brace capture, restricted to the flat
string-to-integer-array shape the call site can actually consume. -/
def extractJsonObject (txt : String) : Option (List (String × List Int)) :=
  match jsonCapture txt.data with
  | none => none
  | some cap =>
    match cap with
    | '\x7b' :: body =>
      match skipJws body with
      | ['\x7d'] => some []
      | _ => parseObjAux body.length body []
    | _ => none

/-- Python list indexing with negative wrap-around; `none` models an
`IndexError`. -/
def pyIndex (items : List ContextItem) (i : Int) : Option ContextItem :=
  if 0 ≤ i then items[i.toNat]?
  else if (-i) ≤ (items.length : Int) then items[(items.length - (-i).toNat)]?
  else none

/-- The comprehension `[items[i] for i in indices if i < len(items)]`;
`none` models an `IndexError` escaping to the fallback. -/
def pickIndices (items : List ContextItem) : List Int → Option (List ContextItem)
  | [] => some []
  | i :: is =>
    if i < (items.length : Int) then
      match pyIndex items i with
      | some it => (pickIndices items is).map (it :: ·)
      | none => none
    else pickIndices items is

/-- Build the grouped dict from the parsed JSON pairs. -/
def groupFromJson (items : List ContextItem) :
    List (String × List Int) → Option (List (String × List ContextItem)) :=
  let rec go : List (String × List Int) → List (String × List ContextItem) →
      Option (List (String × List ContextItem))
    | [], acc => some acc
    | (topic, idxs) :: rest, acc =>
      match pickIndices items idxs with
      | none => none
      | some vals => go rest (dictSetLast acc topic vals)
  (go · [])

/-- `ContextBuilder._group_by_topic`. -/
def groupByTopic (env : BuildEnv) (items : List ContextItem) :
    List (String × List ContextItem) :=
  if items.length ≤ 3 then typeGrouping items
  else
    match env.groupResponse with
    | none => typeGrouping items
    | some txt =>
      match extractJsonObject txt with
      | none => typeGrouping items
      | some pairs =>
        match groupFromJson items pairs with
        | some result => result
        | none => typeGrouping items

/-! ### Markdown rendering

`_generate_markdown` and `_append_to_existing` contain the same verbatim
per-item rendering block; it is factored here as `renderItem`. -/

/-- Python `content.split("\n")` (keeps empty parts). -/
def splitNlAux : List Char → List Char → List (List Char)
  | acc, [] => [acc.reverse]
  | acc, c :: cs =>
    if c = '\n' then acc.reverse :: splitNlAux [] cs else splitNlAux (c :: acc) cs

/-- Python `str.split("\n")` for strings. -/
def splitNl (s : String) : List String := (splitNlAux [] s.data).map String.mk

/-- The per-item lines: header with reference number, blank, content (raw
for long tickets/comments, blockquoted otherwise), blank, attribution,
blank. -/
def renderItem (it : ContextItem) (num : Nat) : List String :=
  let content := pyStrip it.content
  let contentLines := splitNl content
  let contentBlock :=
    if (it.item_type = "ticket" || it.item_type = "comment") && 200 < pyLen content then
      [content]
    else contentLines.map ("> " ++ ·)
  ["### " ++ it.title ++ " [" ++ natStr num ++ "]", ""] ++ contentBlock ++
    ["", "— *" ++ it.author ++ " via " ++ pyUpper it.source ++ ", " ++ it.timestamp ++ "*", ""]

/-- Render a run of items starting at reference number `n`; returns the
lines, the collected `(num, url, "source: title")` references, and the next
reference number. -/
def renderItemsSeq : List ContextItem → Nat →
    (List String × List (Nat × String × String) × Nat)
  | [], n => ([], [], n)
  | it :: rest, n =>
    let tail := renderItemsSeq rest (n + 1)
    (renderItem it n ++ tail.1, (n, it.url, it.source ++ ": " ++ it.title) :: tail.2.1,
      tail.2.2)

/-- Topic sections of `_generate_markdown`. -/
def renderTopicsGen : List (String × List ContextItem) → Nat →
    (List String × List (Nat × String × String) × Nat)
  | [], n => ([], [], n)
  | (topic, its) :: rest, n =>
    let one := renderItemsSeq its n
    let more := renderTopicsGen rest one.2.2
    (("## " ++ topic) :: "" :: one.1 ++ more.1, one.2.1 ++ more.2.1, more.2.2)

/-- Topic sections of `_append_to_existing` (existing sections get a
"New additions" subheading). -/
def renderTopicsApp (main : String) : List (String × List ContextItem) → Nat →
    (List String × List (Nat × String × String) × Nat)
  | [], n => ([], [], n)
  | (topic, its) :: rest, n =>
    let hdr :=
      if strContains main ("## " ++ topic) then
        ["", "### New additions to " ++ topic, ""]
      else ["", "## " ++ topic, ""]
    let one := renderItemsSeq its n
    let more := renderTopicsApp main rest one.2.2
    (hdr ++ one.1 ++ more.1, one.2.1 ++ more.2.1, more.2.2)

/-- Per-source item counts, insertion-ordered (`dict.get(s, 0) + 1`). -/
def dictIncr (d : List (String × Nat)) (k : String) : List (String × Nat) :=
  match d with
  | [] => [(k, 1)]
  | (k', v) :: rest =>
    if k' = k then (k', v + 1) :: rest else (k', v) :: dictIncr rest k

/-- Fold of `dictIncr` over the items' sources. -/
def countFold (d : List (String × Nat)) (items : List ContextItem) : List (String × Nat) :=
  items.foldl (fun acc it => dictIncr acc it.source) d

/-- Python `sorted(d.items())` on string-keyed pairs with unique keys. -/
def insertByKey (p : String × Nat) : List (String × Nat) → List (String × Nat)
  | [] => [p]
  | q :: qs => if p.1 ≤ q.1 then p :: q :: qs else q :: insertByKey p qs

/-- Sort pairs by key (Python `sorted`). -/
def sortPairs (l : List (String × Nat)) : List (String × Nat) :=
  l.foldr insertByKey []

/-- One sources-table row. -/
def tableRow (today : String) (p : String × Nat) : String :=
  "| " ++ pyUpper p.1 ++ " | " ++ natStr p.2 ++ " | " ++ today ++ " |"

/-- One reference-list line. -/
def refLine (r : Nat × String × String) : String :=
  "[" ++ natStr r.1 ++ "]: " ++ r.2.1 ++ " \"" ++ r.2.2 ++ "\""

/-- `ContextBuilder._generate_markdown`. -/
def generateMarkdown (ticket_id : String) (items : List ContextItem)
    (grouped : List (String × List ContextItem)) (today : String) : String :=
  let primary_title :=
    ((items.find? (fun it => it.item_type == "ticket" && strContains it.title ticket_id)).map
      (·.title)).getD ticket_id
  let body := renderTopicsGen grouped 1
  let counts := sortPairs (countFold [] items)
  let lines :=
    ["# Context: " ++ primary_title, ""] ++ body.1 ++
    ["---", "", "## Sources Consulted", "",
      "| Source | Items Found | Last Updated |",
      "|--------|-------------|--------------|"] ++
    counts.map (tableRow today) ++ [""] ++
    (if body.2.1.isEmpty then []
     else ["## References", ""] ++ body.2.1.map refLine ++ [""])
  joinLines lines

/-- The `\n---\n` separator pattern. -/
def sepPat : List Char := ['\n', '-', '-', '-', '\n']

/-- The `## References\n\n` header pattern of the footer regex. -/
def hdrPat : List Char := "## References\n\n".data

/-- First index at which `pat` occurs in `l` (Python `re.search` position). -/
def findSubAux (pat : List Char) : List Char → Nat → Option Nat
  | [], i => if pat.isEmpty then some i else none
  | c :: cs, i =>
    if leadsWith pat (c :: cs) then some i else findSubAux pat cs (i + 1)

/-- First occurrence index of a pattern. -/
def findSub (pat l : List Char) : Option Nat := findSubAux pat l 0

/-- The `next_ref_num` computation of `_append_to_existing`: one past the
maximum `\[(\d+)\]:` match in the existing document, or 1 if none parse. -/
def nextRefNum (existing_content : String) : Nat :=
  let existing_refs := scanRN existing_content
  if existing_refs.isEmpty then 1 else existing_refs.foldr max 0 + 1

/-- The old footer's sources table, re-parsed into a dict (last row wins per
source) and incremented once per item handed to `_append_to_existing`. -/
def appendCounts (footer : String) (new_items : List ContextItem) :
    List (String × Nat) :=
  countFold ((scanTableRows footer).foldl (fun d p => dictSetLast d p.1 p.2) []) new_items

/-- The rebuilt footer of `_append_to_existing` (everything appended after
the new topic sections when a `\n---\n` separator was found). -/
def appendFooter (footer today : String) (new_items : List ContextItem)
    (new_refs : List (Nat × String × String)) : String :=
  let baseLines :=
    ["", "---", "", "## Sources Consulted", "",
      "| Source | Items Found | Last Updated |",
      "|--------|-------------|--------------|"] ++
    (sortPairs (appendCounts footer new_items)).map (tableRow today) ++ [""]
  let refSec := findSub hdrPat footer.data
  let oldRefLines :=
    match refSec with
    | some p => ["## References", "", pyStrip ⟨footer.data.drop (p + hdrPat.length)⟩]
    | none => []
  let newRefLines :=
    if new_refs.isEmpty then []
    else
      (if refSec.isNone then ["## References", ""] else []) ++
        new_refs.map refLine ++ [""]
  joinLines (baseLines ++ oldRefLines ++ newRefLines)

/-- `ContextBuilder._append_to_existing`. -/
def appendToExisting (existing_content _ticket_id : String)
    (new_items : List ContextItem) (grouped : List (String × List ContextItem))
    (today : String) : String :=
  let sep := findSub sepPat existing_content.data
  let insert_pos := sep.getD existing_content.data.length
  let footer : String := ⟨existing_content.data.drop insert_pos⟩
  let main_content := pyRstrip ⟨existing_content.data.take insert_pos⟩
  let body := renderTopicsApp main_content grouped (nextRefNum existing_content)
  let result := main_content ++ joinLines body.1
  if footer = "" then result
  else result ++ appendFooter footer today new_items body.2.1

/-- `ContextBuilder.build`.  The output directory is fixed (the `output_dir`
parameter / project-root discovery only choose where the single artifact map
lives); `st.fs` is that directory. -/
def build (env : BuildEnv) (st : BuildState) (ticket_id0 : String)
    (items0 : List ContextItem) : Except BuildError (String × BuildState) :=
  if items0.isEmpty then .error (.valueError "No items to build context from")
  else
    let ticket_id := pyUpper ticket_id0
    let existing_record := alookup st.db ticket_id
    let step :=
      match existing_record with
      | some rec => (rec.filename, rec.keywords, alookup st.fs rec.filename)
      | none =>
        let kws := extractKeywords env items0
        (ticket_id ++ "_" ++ joinUnderscore (kws.take 4) ++ ".md", kws, none)
    let filename := step.1
    let keywords := step.2.1
    let existing_content := step.2.2
    let existing_urls :=
      match existing_content with
      | some c => parseExistingUrls c
      | none => []
    let items1 :=
      if !existing_urls.isEmpty then
        items0.filter (fun it => !itemInExisting it existing_urls)
      else items0
    if items1.isEmpty && truthy existing_content then .ok (filename, st)
    else
      let items2 := deduplicateItems env items1 existing_content
      if items2.isEmpty then
        if truthy existing_content then .ok (filename, st)
        else
          .error (.valueError
            "AI deduplication failed - no items to include. Check logs for details and try again.")
      else
        let grouped := groupByTopic env items2
        let markdown :=
          if truthy existing_content then
            appendToExisting (existing_content.getD "") ticket_id items2 grouped env.today
          else generateMarkdown ticket_id items2 grouped env.today
        let fs1 := fsWrite st.fs filename markdown
        let db1 :=
          match alookup st.db ticket_id with
          | some _ => dbUpdate st.db ticket_id ⟨filename, keywords⟩
          | none => st.db ++ [(ticket_id, ⟨filename, keywords⟩)]
        let sources := dedupStr (items2.map (·.source))
        let fh1 := sources.foldl (fun fh s => fhUpsert fh (ticket_id, s)) st.fetchHistory
        .ok (filename, ⟨db1, fs1, fh1⟩)

/-! ### Search agent (`rove.search_agent.SearchAgent`)

External collaborators become oracles: a `Client` records the answers the
capability provider would give during this one `search` invocation (the
`since`/`until` arguments of `client.search` are constant throughout one
invocation and are folded into the `searchQ` oracle; a raised exception is
`none`).  `get_item_details` returns the item together with the batch the
code immediately pops from `metadata["_comments"]`.  The plugin-discovery
cache of `_get_source_client` is behaviourally transparent for pure oracles
and is not modelled. -/

structure Client where
  is_authenticated : Bool
  authenticate : Bool
  get_item_details : String → Option (ContextItem × List ContextItem)
  supported_reference_types : List String
  searchQ : String → Option (List ContextItem)

/-- Configuration, plugin registry and AI oracles for one `search` run. -/
structure SearchEnv where
  plugins : List (String × Client)
  default_ticket_source : String
  keywordResponse : Option String
  relevanceResponse : Option String

/-- `AuthenticationError` surfaced by `search`. -/
inductive SearchError
  | authError (msg : String)
deriving DecidableEq, Repr

/-- `get_plugin` / `_get_source_client`. -/
def getPlugin (env : SearchEnv) (name : String) : Option Client :=
  alookup env.plugins name

/-- `list_plugins()`. -/
def listPlugins (env : SearchEnv) : List String := env.plugins.map (·.1)

/-- Key-based reference deduplication of `_extract_references`. -/
def dedupRefsAux (seen : List String) : List (String × String) → List (String × String)
  | [] => []
  | (t, i) :: rest =>
    let key := t ++ ":" ++ i
    if seen.contains key then dedupRefsAux seen rest
    else (t, i) :: dedupRefsAux (key :: seen) rest

/-- `SearchAgent._extract_references`: scan `title + " " + content` of each
item with the three hardcoded patterns, deduplicating by `type:id`. -/
def extractReferences (items : List ContextItem) : List (String × String) :=
  let perItem := fun (it : ContextItem) =>
    let text := it.title ++ " " ++ it.content
    (scanTicketRefs text).map (("ticket", ·)) ++
      (scanPrRefs text).map (("pr", ·)) ++
      (scanIssueRefs text).map (("issue", ·))
  dedupRefsAux [] (items.flatMap perItem)

/-- `SearchAgent._expand_reference`: first authenticated plugin that
declares the reference type and resolves the id; provider exceptions and
not-found both step to the next plugin. -/
def expandReference (env : SearchEnv) (ref_type ref_id : String) :
    Option (ContextItem × List ContextItem) :=
  let rec go : List (String × Client) → Option (ContextItem × List ContextItem)
    | [] => none
    | (_, client) :: rest =>
      if client.supported_reference_types.contains ref_type &&
          client.is_authenticated then
        match client.get_item_details ref_id with
        | some r => some r
        | none => go rest
      else go rest
  go env.plugins

/-- `SearchAgent._extract_keywords` (AI parse, title-word fallback). -/
def extractKeywordsSA (env : SearchEnv) (item : ContextItem) : List String :=
  match env.keywordResponse with
  | some txt => ((pySplitComma txt).map pyStrip).filter (· ≠ "")
  | none =>
    ((pySplitWs item.title).filter (fun w => 3 < pyLen w && pyIsAlnum w)).take 5

/-! ### `SearchAgent._filter_relevant` -/

/-- The ticket id reconstructed from the primary title
(`primary.title.split(":")[0].strip() if ":" in primary.title else ""`). -/
def derivedTicketId (primary : ContextItem) : String :=
  if strContains primary.title ":" then pyStrip (beforeColon primary.title) else ""

/-- Tier-A membership: the (derived) ticket id appears in the title or the
first 500 characters of content, case-insensitively. -/
def tierACond (tid : String) (it : ContextItem) : Bool :=
  tid ≠ "" && (strContains (pyUpper it.title) (pyUpper tid) ||
    strContains (pyUpper (pyTake it.content 500)) (pyUpper tid))

/-- Structured item types of tier B. -/
def structuredType (t : String) : Bool :=
  t = "pr" || t = "issue" || t = "ticket" || t = "comment"

/-- Order-preserving partition into tiers A / B / C. -/
def tierSplit (tid : String) :
    List ContextItem → List ContextItem × List ContextItem × List ContextItem
  | [] => ([], [], [])
  | it :: rest =>
    let r := tierSplit tid rest
    if tierACond tid it then (it :: r.1, r.2.1, r.2.2)
    else if structuredType it.item_type then (r.1, it :: r.2.1, r.2.2)
    else (r.1, r.2.1, it :: r.2.2)

/-- The candidate list sent to the AI: tiers A and B first, topped up with
tier C, capped at 50. -/
def itemsForAi (t1 t2 t3 : List ContextItem) : List ContextItem :=
  let base := t1 ++ t2
  if base.length < 50 then base ++ t3.take (50 - base.length)
  else base.take 50

/-- The AI-selected sublist: parsed kept indices (always including 0)
applied to the candidate list. -/
def aiPick (cand : List ContextItem) (txt : String) : List ContextItem :=
  (parseKeepIndices txt cand.length).filterMap (fun i => cand[i]?)

/-- The force-include loop: append each tier-A item not already present. -/
def addMissing (filtered : List ContextItem) : List ContextItem → List ContextItem
  | [] => filtered
  | it :: rest =>
    if filtered.contains it then addMissing filtered rest
    else addMissing (filtered ++ [it]) rest

/-- `SearchAgent._filter_relevant`. -/
def filterRelevant (env : SearchEnv) (items : List ContextItem)
    (primary : ContextItem) : List ContextItem :=
  if items.length ≤ 10 then items
  else
    let tid := derivedTicketId primary
    let tiers := tierSplit tid items
    let tier1_items := tiers.1
    let tier2_items := tiers.2.1
    let tier3_items := tiers.2.2
    let cand := itemsForAi tier1_items tier2_items tier3_items
    match env.relevanceResponse with
    | some txt =>
      let filtered := aiPick cand txt
      if filtered.length < 5 && !tier1_items.isEmpty then
        addMissing filtered tier1_items
      else filtered
    | none =>
      let fallback := (tier1_items ++ tier2_items).take 50
      if fallback.isEmpty then items.take 20 else fallback

/-! ### `SearchAgent.search` -/

/-- Accumulate items whose URL has not been seen. -/
def addUnseen (acc : List ContextItem × List String) (its : List ContextItem) :
    List ContextItem × List String :=
  its.foldl
    (fun a it => if a.2.contains it.url then a else (a.1 ++ [it], it.url :: a.2)) acc

/-- `SearchAgent.search` (all five phases). -/
def search (env : SearchEnv) (ticket_id0 : String) (source_override : Option String) :
    Except SearchError (List ContextItem) :=
  let primary_source := source_override.getD env.default_ticket_source
  let ticket_id := pyUpper ticket_id0
  match getPlugin env primary_source with
  | none => .ok []
  | some primary_client =>
    if !primary_client.is_authenticated && !primary_client.authenticate then
      .error (.authError ("Failed to authenticate with " ++ primary_source ++
        ". Run 'rove --add-source " ++ primary_source ++ "' to re-authenticate."))
    else
      match primary_client.get_item_details ticket_id with
      | none => .ok []
      | some (primary_item, comments) =>
        let all0 := primary_item :: comments
        let seen0 := (all0.map (·.url)).reverse
        let refs := (extractReferences all0).filter (fun r => pyUpper r.2 ≠ ticket_id)
        let step2 := refs.foldl
          (fun (acc : List ContextItem × List String) r =>
            match expandReference env r.1 r.2 with
            | none => acc
            | some (item, ref_comments) =>
              if acc.2.contains item.url then acc
              else addUnseen (acc.1 ++ [item], item.url :: acc.2) ref_comments)
          (all0, seen0)
        let keywords := extractKeywordsSA env primary_item
        let search_queries := ticket_id :: keywords.take 3
        let step4 := (listPlugins env).foldl
          (fun acc name =>
            if name = primary_source then acc
            else
              match getPlugin env name with
              | none => acc
              | some client =>
                if !client.is_authenticated then acc
                else
                  search_queries.foldl
                    (fun a q =>
                      match client.searchQ q with
                      | none => a
                      | some found => addUnseen a found) acc)
          step2
        let all4 := step4.1
        .ok (if 1 < all4.length then filterRelevant env all4 primary_item else all4)

/-! ### Basic lemmas: sorted index sets and selection -/

theorem mem_sortedInsertNat {y x : Nat} {l : List Nat} :
    y ∈ sortedInsertNat x l ↔ y = x ∨ y ∈ l := by
  induction l with
  | nil => simp [sortedInsertNat]
  | cons a as ih =>
    by_cases h1 : x < a
    · simp only [sortedInsertNat, if_pos h1, List.mem_cons]
    · by_cases h2 : x = a
      · subst h2
        have heq : sortedInsertNat x (x :: as) = x :: as := by
          unfold sortedInsertNat
          rw [if_neg h1, if_pos rfl]
        rw [heq, List.mem_cons]
        tauto
      · simp only [sortedInsertNat, if_neg h1, if_neg h2, List.mem_cons, ih]
        tauto

theorem pairwise_sortedInsertNat {x : Nat} {l : List Nat}
    (h : l.Pairwise (· < ·)) : (sortedInsertNat x l).Pairwise (· < ·) := by
  induction l with
  | nil => simp [sortedInsertNat]
  | cons a as ih =>
    rcases List.pairwise_cons.1 h with ⟨ha, has⟩
    by_cases h1 : x < a
    · simp only [sortedInsertNat, if_pos h1]
      refine List.pairwise_cons.2 ⟨?_, h⟩
      intro z hz
      rcases List.mem_cons.1 hz with rfl | hz
      · exact h1
      · exact lt_trans h1 (ha z hz)
    · by_cases h2 : x = a
      · subst h2
        have heq : sortedInsertNat x (x :: as) = x :: as := by
          unfold sortedInsertNat
          rw [if_neg h1, if_pos rfl]
        rw [heq]
        exact h
      · simp only [sortedInsertNat, if_neg h1, if_neg h2]
        refine List.pairwise_cons.2 ⟨?_, ih has⟩
        intro z hz
        rcases mem_sortedInsertNat.1 hz with rfl | hz
        · omega
        · exact ha z hz

theorem mem_sortedSet {x : Nat} {l : List Nat} : x ∈ sortedSet l ↔ x ∈ l := by
  induction l with
  | nil => simp [sortedSet]
  | cons a as ih =>
    simp only [sortedSet, List.foldr_cons, mem_sortedInsertNat, List.mem_cons]
    rw [sortedSet] at ih
    tauto

theorem pairwise_sortedSet (l : List Nat) : (sortedSet l).Pairwise (· < ·) := by
  induction l with
  | nil => simp [sortedSet]
  | cons a as ih => exact pairwise_sortedInsertNat ih

theorem head?_eq_zero_of_sorted {l : List Nat} (h : l.Pairwise (· < ·))
    (h0 : 0 ∈ l) : l.head? = some 0 := by
  cases l with
  | nil => simp at h0
  | cons a as =>
    rcases List.mem_cons.1 h0 with rfl | h0
    · rfl
    · have := (List.pairwise_cons.1 h).1 0 h0
      omega

theorem zero_mem_parseKeepIndices (txt : String) (n : Nat) :
    0 ∈ parseKeepIndices txt n := by
  unfold parseKeepIndices
  exact mem_sortedSet.2 (by simp)

theorem parseKeepIndices_pairwise (txt : String) (n : Nat) :
    (parseKeepIndices txt n).Pairwise (· < ·) := pairwise_sortedSet _

theorem parseKeepIndices_head (txt : String) (n : Nat) :
    (parseKeepIndices txt n).head? = some 0 :=
  head?_eq_zero_of_sorted (parseKeepIndices_pairwise txt n)
    (zero_mem_parseKeepIndices txt n)

theorem parseKeepIndices_lt (txt : String) (n : Nat) (hn : 0 < n) :
    ∀ i ∈ parseKeepIndices txt n, i < n := by
  intro i hi
  unfold parseKeepIndices at hi
  rcases List.mem_append.1 (mem_sortedSet.1 hi) with hv | h0
  · rcases List.mem_filterMap.1 hv with ⟨j, _, hj⟩
    by_cases hc : 0 ≤ j ∧ j < (n : Int)
    · rw [if_pos hc, Option.some_inj] at hj
      omega
    · rw [if_neg hc] at hj
      simp at hj
  · simp only [List.mem_singleton] at h0
    omega

/-- Selection by a strictly ascending index list is a sublist. -/
theorem filterMap_getElem_sublist {α : Type} (l : List α) (is : List Nat)
    (hp : is.Pairwise (· < ·)) :
    List.Sublist (is.filterMap (fun i => l[i]?)) l := by
  induction l generalizing is with
  | nil =>
    have : is.filterMap (fun i => ([] : List α)[i]?) = [] := by
      simp [List.filterMap_eq_nil_iff]
    rw [this]
  | cons x xs ih =>
    cases is with
    | nil => simp
    | cons i is1 =>
      rcases List.pairwise_cons.1 hp with ⟨hi, his⟩
      have hshift : ∀ (js : List Nat), (∀ j ∈ js, 1 ≤ j) →
          js.filterMap (fun j => (x :: xs)[j]?) =
            (js.map (fun j => j - 1)).filterMap (fun j => xs[j]?) := by
        intro js hjs
        induction js with
        | nil => simp
        | cons j js2 ihj =>
          have h1 : 1 ≤ j := hjs j (by simp)
          obtain ⟨j1, rfl⟩ : ∃ j1, j = j1 + 1 := ⟨j - 1, by omega⟩
          simp only [List.filterMap_cons, List.map_cons, List.getElem?_cons_succ,
            Nat.add_sub_cancel]
          cases h : xs[j1]? with
          | none => exact ihj (fun z hz => hjs z (by simp [hz]))
          | some v => rw [ihj (fun z hz => hjs z (by simp [hz]))]
      have hmap_pw : ∀ (js : List Nat), js.Pairwise (· < ·) →
          (js.map (fun j => j - 1)).Pairwise (· < ·) ∨ True := fun _ _ => Or.inr trivial
      cases i with
      | zero =>
        have h1 : ∀ j ∈ is1, 1 ≤ j := fun j hj => by have := hi j hj; omega
        simp only [List.filterMap_cons, List.getElem?_cons_zero]
        rw [hshift is1 h1]
        have hpw : (is1.map (fun j => j - 1)).Pairwise (· < ·) := by
          rw [List.pairwise_map]
          exact his.imp_of_mem (fun {a} {b} ha hb hab => by
            have := h1 a ha; have := h1 b hb; omega)
        exact List.Sublist.cons₂ x (ih _ hpw)
      | succ i0 =>
        have h1 : ∀ j ∈ (i0 + 1) :: is1, 1 ≤ j := by
          intro j hj
          rcases List.mem_cons.1 hj with rfl | hj
          · omega
          · have := hi j hj; omega
        rw [hshift _ h1]
        have hpw : (((i0 + 1) :: is1).map (fun j => j - 1)).Pairwise (· < ·) := by
          rw [List.pairwise_map]
          exact hp.imp_of_mem (fun {a} {b} ha hb hab => by
            have := h1 a ha; have := h1 b hb; omega)
        exact List.Sublist.cons x (ih _ hpw)

/-! ### Lemmas about `addMissing` (the tier-A force-include loop) -/

theorem mem_addMissing_left {x : ContextItem} {filtered t1 : List ContextItem}
    (h : x ∈ filtered) : x ∈ addMissing filtered t1 := by
  induction t1 generalizing filtered with
  | nil => exact h
  | cons it rest ih =>
    unfold addMissing
    by_cases hc : filtered.contains it
    · simp only [hc, if_true]; exact ih h
    · simp only [hc, if_false]
      exact ih (by simp [h])

theorem mem_addMissing_right {x : ContextItem} {filtered t1 : List ContextItem}
    (h : x ∈ t1) : x ∈ addMissing filtered t1 := by
  induction t1 generalizing filtered with
  | nil => simp at h
  | cons it rest ih =>
    unfold addMissing
    rcases List.mem_cons.1 h with rfl | h
    · by_cases hc : filtered.contains x
      · simp only [hc, if_true]
        exact mem_addMissing_left (by simpa using hc)
      · simp only [hc, if_false]
        exact mem_addMissing_left (by simp)
    · by_cases hc : filtered.contains it <;> simp only [hc, if_true, if_false] <;> exact ih h

theorem addMissing_eq_append (filtered t1 : List ContextItem) :
    ∃ extra, addMissing filtered t1 = filtered ++ extra ∧ List.Sublist extra t1 := by
  induction t1 generalizing filtered with
  | nil => exact ⟨[], by simp [addMissing]⟩
  | cons it rest ih =>
    unfold addMissing
    by_cases hc : filtered.contains it
    · simp only [hc, if_true]
      obtain ⟨e, he, hs⟩ := ih filtered
      exact ⟨e, he, List.Sublist.cons it hs⟩
    · simp only [hc, if_false]
      obtain ⟨e, he, hs⟩ := ih (filtered ++ [it])
      exact ⟨it :: e, by rw [he]; simp, List.Sublist.cons₂ it hs⟩

/-! ### Substring-containment lemmas -/

theorem leadsWith_iff {pat l : List Char} :
    leadsWith pat l = true ↔ ∃ t, l = pat ++ t := by
  induction pat generalizing l with
  | nil => simp [leadsWith]
  | cons p ps ih =>
    cases l with
    | nil => simp [leadsWith]
    | cons c cs =>
      simp only [leadsWith, Bool.and_eq_true, decide_eq_true_eq, ih]
      constructor
      · rintro ⟨rfl, t, rfl⟩; exact ⟨t, rfl⟩
      · rintro ⟨t, h⟩
        injection h with h1 h2
        exact ⟨h1.symm, t, h2⟩

theorem containsSeq_iff {pat l : List Char} :
    containsSeq pat l = true ↔ ∃ a b, l = a ++ pat ++ b := by
  induction l with
  | nil =>
    simp only [containsSeq, leadsWith_iff]
    constructor
    · rintro ⟨t, h⟩
      exact ⟨[], t, by simpa using h⟩
    · rintro ⟨a, b, h⟩
      refine ⟨b, ?_⟩
      have := h.symm
      rcases List.append_eq_nil.1 (List.append_eq_nil.1 this).1 with ⟨rfl, rfl⟩
      simpa using this
  | cons c cs ih =>
    simp only [containsSeq, Bool.or_eq_true, leadsWith_iff, ih]
    constructor
    · rintro (⟨t, h⟩ | ⟨a, b, h⟩)
      · exact ⟨[], t, by simpa using h⟩
      · exact ⟨c :: a, b, by simp [h]⟩
    · rintro ⟨a, b, h⟩
      cases a with
      | nil => exact Or.inl ⟨b, by simpa using h⟩
      | cons a0 as =>
        injection h with h1 h2
        exact Or.inr ⟨as, b, h2⟩

theorem strContains_of_parts (a pat b : List Char) :
    strContains ⟨a ++ pat ++ b⟩ ⟨pat⟩ = true := by
  unfold strContains
  exact containsSeq_iff.2 ⟨a, b, rfl⟩

/-- `dropWhile` is reached by `drop (takeWhile.length)`. -/
theorem drop_takeWhile_length (p : Char → Bool) (l : List Char) :
    l.drop (l.takeWhile p).length = l.dropWhile p := by
  induction l with
  | nil => rfl
  | cons c cs ih =>
    by_cases h : p c
    · simp [List.takeWhile_cons, List.dropWhile_cons, h, ih]
    · simp [List.takeWhile_cons, List.dropWhile_cons, h]

/-- The stripped string occurs inside the original. -/
theorem pyStrip_parts (s : String) : ∃ a b, s.data = a ++ (pyStrip s).data ++ b := by
  refine ⟨s.data.takeWhile pyWs,
    ((pyStripL s.data).reverse.takeWhile pyWs).reverse, ?_⟩
  show s.data = _ ++ (dropTrail pyWs (pyStripL s.data)) ++ _
  unfold dropTrail
  have h1 : s.data = s.data.takeWhile pyWs ++ pyStripL s.data := by
    unfold pyStripL
    exact (List.takeWhile_append_dropWhile pyWs s.data).symm
  have h2 : pyStripL s.data =
      ((pyStripL s.data).reverse.dropWhile pyWs).reverse ++
        ((pyStripL s.data).reverse.takeWhile pyWs).reverse := by
    conv_lhs => rw [← List.reverse_reverse (pyStripL s.data)]
    rw [← List.reverse_append, List.takeWhile_append_dropWhile]
  rw [List.append_assoc, ← h2, ← h1]

theorem beforeColon_parts (s : String) : ∃ b, s.data = (beforeColon s).data ++ b :=
  ⟨s.data.dropWhile (· ≠ ':'), (List.takeWhile_append_dropWhile _ s.data).symm⟩

/-! ### Tier lemmas (`_filter_relevant`) -/

theorem tierACond_self (primary : ContextItem)
    (h : derivedTicketId primary ≠ "") :
    tierACond (derivedTicketId primary) primary = true := by
  have hmain : strContains (pyUpper primary.title)
      (pyUpper (derivedTicketId primary)) = true := by
    unfold derivedTicketId at h ⊢
    by_cases hc : strContains primary.title ":"
    · simp only [hc, if_true] at h ⊢
      obtain ⟨b, hb⟩ := beforeColon_parts primary.title
      obtain ⟨a2, b2, hab⟩ := pyStrip_parts (beforeColon primary.title)
      have hsplit : primary.title.data =
          a2 ++ (pyStrip (beforeColon primary.title)).data ++ (b2 ++ b) := by
        rw [hb, hab]; simp
      unfold pyUpper strContains
      show containsSeq ((pyStrip (beforeColon primary.title)).data.map pyUpperCh)
        (primary.title.data.map pyUpperCh) = true
      rw [hsplit]
      exact containsSeq_iff.2
        ⟨a2.map pyUpperCh, (b2 ++ b).map pyUpperCh, by simp⟩
    · simp only [hc, if_false] at h
      exact absurd rfl h
  unfold tierACond
  rw [hmain]
  simp [h]

theorem tierACond_empty (it : ContextItem) : tierACond "" it = false := by
  simp [tierACond]

theorem tierSplit_cons_a {tid : String} {it : ContextItem} {rest : List ContextItem}
    (h : tierACond tid it = true) :
    tierSplit tid (it :: rest) =
      (it :: (tierSplit tid rest).1, (tierSplit tid rest).2.1, (tierSplit tid rest).2.2) := by
  simp [tierSplit, h]

theorem tierSplit_cons_b {tid : String} {it : ContextItem} {rest : List ContextItem}
    (h : tierACond tid it = false) (hs : structuredType it.item_type = true) :
    tierSplit tid (it :: rest) =
      ((tierSplit tid rest).1, it :: (tierSplit tid rest).2.1, (tierSplit tid rest).2.2) := by
  simp [tierSplit, h, hs]

theorem tierSplit_cons_c {tid : String} {it : ContextItem} {rest : List ContextItem}
    (h : tierACond tid it = false) (hs : structuredType it.item_type = false) :
    tierSplit tid (it :: rest) =
      ((tierSplit tid rest).1, (tierSplit tid rest).2.1, it :: (tierSplit tid rest).2.2) := by
  simp [tierSplit, h, hs]

theorem tierSplit_t1_nil (items : List ContextItem) :
    (tierSplit "" items).1 = [] := by
  induction items with
  | nil => rfl
  | cons it rest ih =>
    cases hs : structuredType it.item_type
    · rw [tierSplit_cons_c (tierACond_empty it) hs]
      exact ih
    · rw [tierSplit_cons_b (tierACond_empty it) hs]
      exact ih

theorem mem_tierSplit_t1 {tid : String} {it : ContextItem} {items : List ContextItem}
    (hmem : it ∈ items) (htier : tierACond tid it = true) :
    it ∈ (tierSplit tid items).1 := by
  induction items with
  | nil => simp at hmem
  | cons x rest ih =>
    rcases List.mem_cons.1 hmem with rfl | hmem
    · rw [tierSplit_cons_a htier]
      simp
    · cases h1 : tierACond tid x
      · cases h2 : structuredType x.item_type
        · rw [tierSplit_cons_c h1 h2]; exact ih hmem
        · rw [tierSplit_cons_b h1 h2]; exact ih hmem
      · rw [tierSplit_cons_a h1]
        exact List.mem_cons.2 (Or.inr (ih hmem))

theorem tierSplit_t3_of_nil {tid : String} {items : List ContextItem}
    (h1 : (tierSplit tid items).1 = []) (h2 : (tierSplit tid items).2.1 = []) :
    (tierSplit tid items).2.2 = items := by
  induction items with
  | nil => rfl
  | cons it rest ih =>
    cases ha : tierACond tid it
    · cases hb : structuredType it.item_type
      · rw [tierSplit_cons_c ha hb] at h1 h2 ⊢
        simp only at h1 h2 ⊢
        rw [ih h1 h2]
      · rw [tierSplit_cons_b ha hb] at h2
        simp at h2
    · rw [tierSplit_cons_a ha] at h1
      simp at h1

/-! ### Head-preservation lemmas for dedup and the AI pick -/

theorem dedupByUrl_head (items : List ContextItem) :
    (dedupByUrl items).head? = items.head? := by
  cases items with
  | nil => rfl
  | cons it rest => simp [dedupByUrl, dedupByUrlAux]

theorem dedupByUrl_ne_nil {items : List ContextItem} (h : items ≠ []) :
    dedupByUrl items ≠ [] := by
  cases items with
  | nil => exact absurd rfl h
  | cons it rest => simp [dedupByUrl, dedupByUrlAux]

theorem dedupByUrlAux_length (seen : List String) (l : List ContextItem) :
    (dedupByUrlAux seen l).length ≤ l.length := by
  induction l generalizing seen with
  | nil => simp [dedupByUrlAux]
  | cons it rest ih =>
    unfold dedupByUrlAux
    by_cases h : seen.contains it.url
    · simp only [h, if_true]
      exact Nat.le_succ_of_le (ih seen)
    · simp only [h, if_false, List.length_cons]
      exact Nat.succ_le_succ (ih _)

theorem keepIndices_pick_head (cand : List ContextItem) (txt : String)
    (hne : cand ≠ []) :
    ((parseKeepIndices txt cand.length).filterMap (fun i => cand[i]?)).head? =
      cand.head? := by
  obtain ⟨tl, htl⟩ : ∃ tl, parseKeepIndices txt cand.length = 0 :: tl := by
    have h0 := parseKeepIndices_head txt cand.length
    cases h : parseKeepIndices txt cand.length with
    | nil => rw [h] at h0; simp at h0
    | cons a as =>
      rw [h] at h0
      simp only [List.head?_cons, Option.some_inj] at h0
      exact ⟨as, by rw [h0]⟩
  rw [htl]
  cases cand with
  | nil => exact absurd rfl hne
  | cons c cs => simp [List.filterMap_cons]

theorem deduplicateItems_head (env : BuildEnv) (items : List ContextItem)
    (ec : Option String) (hd : env.dedupResponse.isSome) :
    (deduplicateItems env items ec).head? = items.head? := by
  unfold deduplicateItems
  by_cases h1 : items.length ≤ 1
  · simp [h1]
  · simp only [h1, if_false]
    by_cases h2 : (dedupByUrl items).length ≤ 3
    · simp only [h2, if_true]
      exact dedupByUrl_head items
    · obtain ⟨txt, htxt⟩ := Option.isSome_iff_exists.1 hd
      simp only [h2, if_false, htxt]
      have hne : dedupByUrl items ≠ [] := by
        intro hnil
        rw [hnil] at h2
        simp at h2
      rw [keepIndices_pick_head _ _ hne, dedupByUrl_head]

theorem aiPick_head (cand : List ContextItem) (txt : String) (hne : cand ≠ []) :
    (aiPick cand txt).head? = cand.head? :=
  keepIndices_pick_head cand txt hne

theorem aiPick_sublist (cand : List ContextItem) (txt : String) :
    List.Sublist (aiPick cand txt) cand :=
  filterMap_getElem_sublist cand _ (parseKeepIndices_pairwise txt cand.length)

theorem itemsForAi_head (t1 t2 t3 : List ContextItem) (it0 : ContextItem)
    (hbase : (t1 ++ t2).head? = some it0) :
    (itemsForAi t1 t2 t3).head? = some it0 := by
  unfold itemsForAi
  by_cases h : (t1 ++ t2).length < 50
  · simp only [h, if_true, List.head?_append, hbase]
    rfl
  · simp only [h, if_false, List.head?_take]
    rw [hbase]
    rfl

/-! ### Concrete items used by the counterexamples and witnesses -/

namespace Cex

/-- Concrete item builder. -/
def mk (src ty ti co u : String) : ContextItem := ⟨src, ty, ti, co, u, "Jan 01, 2024", "a", ""⟩

/-- A JIRA-style primary ticket whose title carries the ticket id. -/
def prim : ContextItem := mk "jira" "ticket" "T-1: main" "desc" "https://j.example/browse/T-1"

/-- A Slack-style primary item, as `SlackClient.get_item_details` returns it
(`item_type="message"`, title `"Message in channel"`, no colon). -/
def primMsg : ContextItem := mk "slack" "message" "Message in channel" "hello" "u0"

/-- Filler messages. -/
def m (n : Nat) : ContextItem := mk "slack" "message" ("m" ++ natStr n) "x" ("um" ++ natStr n)

/-- A pull-request item (tier B). -/
def pr1 : ContextItem := mk "github" "pr" "a pr" "code" "upr"

/-- A tier-A message: its content contains the exact ticket id `T-1`. -/
def msgA : ContextItem := mk "slack" "message" "mA" "ref T-1" "umA"

/-- Eleven gathered items with the ticket primary at index 0. -/
def items11 : List ContextItem :=
  [prim, m 1, pr1, m 2, m 3, m 4, m 5, m 6, m 7, m 8, m 9]

/-- Eleven gathered items with the Slack message primary at index 0. -/
def items11M : List ContextItem :=
  [primMsg, m 1, pr1, m 2, m 3, m 4, m 5, m 6, m 7, m 8, m 9]

/-- Eleven gathered items with a second tier-A item at index 1. -/
def items11A : List ContextItem :=
  [prim, msgA, pr1, m 2, m 3, m 4, m 5, m 6, m 7, m 8, m 9]

/-- Search env whose relevance oracle returns the given response text. -/
def envRel (r : String) : SearchEnv := ⟨[], "jira", none, some r⟩

end Cex

/-! ### Claim C3: primary retention -/

/-- C3 (amended): the builder AI deduplication keeps index 0 as the head of
its result for every AI response; and phase-5 relevance filtering keeps the
primary item (index 0) for every AI response, provided the primary yields a
nonempty derived ticket id (a `:` in its title) or has a structured item
type — which holds for every ticket/PR/issue primary but not for a Slack
message primary. -/
theorem c3_amended (benv : BuildEnv) (ec : Option String) (senv : SearchEnv)
    (ditems sitems : List ContextItem) (primary : ContextItem)
    (hd : benv.dedupResponse.isSome) (hr : senv.relevanceResponse.isSome)
    (hhead : sitems.head? = some primary)
    (hty : derivedTicketId primary ≠ "" ∨ structuredType primary.item_type = true) :
    (deduplicateItems benv ditems ec).head? = ditems.head? ∧
      primary ∈ filterRelevant senv sitems primary := by
  refine ⟨deduplicateItems_head benv ditems ec hd, ?_⟩
  obtain ⟨rest, rfl⟩ : ∃ rest, sitems = primary :: rest := by
    cases sitems with
    | nil => simp at hhead
    | cons a as =>
      simp only [List.head?_cons, Option.some_inj] at hhead
      exact ⟨as, by rw [hhead]⟩
  obtain ⟨txt, htxt⟩ := Option.isSome_iff_exists.1 hr
  have hcand : (itemsForAi (tierSplit (derivedTicketId primary) (primary :: rest)).1
      (tierSplit (derivedTicketId primary) (primary :: rest)).2.1
      (tierSplit (derivedTicketId primary) (primary :: rest)).2.2).head? = some primary := by
    by_cases htid : derivedTicketId primary = ""
    · rcases hty with hty | hty
      · exact absurd htid hty
      · rw [htid, tierSplit_cons_b (tierACond_empty primary) hty]
        apply itemsForAi_head
        rw [List.head?_append]
        simp [tierSplit_t1_nil]
    · rw [tierSplit_cons_a (tierACond_self primary htid)]
      apply itemsForAi_head
      rfl
  simp only [filterRelevant, htxt]
  by_cases hlen : (primary :: rest).length ≤ 10
  · simp only [hlen, if_true]
    simp
  · simp only [hlen, if_false]
    set ts := tierSplit (derivedTicketId primary) (primary :: rest) with hts
    set cand := itemsForAi ts.1 ts.2.1 ts.2.2 with hcd
    have hne : cand ≠ [] := by
      intro hnil
      rw [hnil] at hcand
      simp at hcand
    have hmemf : primary ∈ aiPick cand txt := by
      apply List.mem_of_mem_head?
      rw [aiPick_head cand txt hne, hcand]
      rfl
    by_cases hb : ((aiPick cand txt).length < 5 && !ts.1.isEmpty) = true
    · rw [if_pos hb]
      exact mem_addMissing_left hmemf
    · rw [if_neg hb]
      exact hmemf

/-- C3 counterexample: with eleven items whose index 0 is the Slack-message
primary (no `:` in its title, unstructured type), an AI relevance response
selecting only candidate 0 removes the primary from the filtered set. -/
theorem c3_counterexample :
    Cex.items11M.head? = some Cex.primMsg ∧
      Cex.primMsg ∉ filterRelevant (Cex.envRel "0") Cex.items11M Cex.primMsg := by
  constructor
  · rfl
  · decide

/-- C3 witness: the amended theorem applied at a ticket-titled primary. -/
theorem c3_witness :
    (deduplicateItems ⟨none, some "1", none, "d"⟩ Cex.items11 none).head? =
        Cex.items11.head? ∧
      Cex.prim ∈ filterRelevant (Cex.envRel "0") Cex.items11 Cex.prim :=
  c3_amended ⟨none, some "1", none, "d"⟩ none (Cex.envRel "0") Cex.items11
    Cex.items11 Cex.prim (by decide) (by decide) (by decide) (Or.inl (by decide))

/-! ### Claim C5: order preservation under relevance filtering -/

/-- C5 (amended): with at most 10 items phase-5 filtering is the identity;
with more, the result is a sublist of the tier-reordered candidate list
(tier A, then tier B, then tier C, capped at 50) followed by the tier-A
list (force-included tier-A items are appended at the end) — but not, in
general, a sublist of the input in input order. -/
theorem c5_amended (env : SearchEnv) (items : List ContextItem) (primary : ContextItem) :
    (items.length ≤ 10 → filterRelevant env items primary = items) ∧
    (10 < items.length →
      List.Sublist (filterRelevant env items primary)
        (itemsForAi (tierSplit (derivedTicketId primary) items).1
            (tierSplit (derivedTicketId primary) items).2.1
            (tierSplit (derivedTicketId primary) items).2.2 ++
          (tierSplit (derivedTicketId primary) items).1)) := by
  constructor
  · intro h
    simp [filterRelevant, h]
  · intro h
    have hlen : ¬ items.length ≤ 10 := by omega
    cases htxt : env.relevanceResponse with
    | some txt =>
      simp only [filterRelevant, hlen, if_false, htxt]
      set ts := tierSplit (derivedTicketId primary) items with hts
      set cand := itemsForAi ts.1 ts.2.1 ts.2.2 with hcd
      by_cases hb : ((aiPick cand txt).length < 5 && !ts.1.isEmpty) = true
      · rw [if_pos hb]
        obtain ⟨extra, hex, hsub⟩ := addMissing_eq_append (aiPick cand txt) ts.1
        rw [hex]
        exact List.Sublist.append (aiPick_sublist cand txt) hsub
      · rw [if_neg hb]
        exact (aiPick_sublist cand txt).trans (List.sublist_append_left cand ts.1)
    | none =>
      simp only [filterRelevant, hlen, if_false, htxt]
      set ts := tierSplit (derivedTicketId primary) items with hts
      set cand := itemsForAi ts.1 ts.2.1 ts.2.2 with hcd
      by_cases hemp : ((ts.1 ++ ts.2.1).take 50).isEmpty = true
      · rw [if_pos hemp]
        have hnil : ts.1 ++ ts.2.1 = [] := by
          rcases List.take_eq_nil_iff.1 (List.isEmpty_iff.1 hemp) with h50 | hn
          · omega
          · exact hn
        have h1 : ts.1 = [] := (List.append_eq_nil.1 hnil).1
        have h2 : ts.2.1 = [] := (List.append_eq_nil.1 hnil).2
        have h3 : ts.2.2 = items := tierSplit_t3_of_nil h1 h2
        have hc : cand = items.take 50 := by
          rw [hcd, h1, h2, h3]
          unfold itemsForAi
          simp
        rw [hc, h1, List.append_nil]
        have h2050 : List.take 20 items = List.take 20 (List.take 50 items) := by
          rw [List.take_take]
          norm_num
        rw [h2050]
        exact List.take_sublist 20 _
      · rw [if_neg hemp]
        by_cases hlt : (ts.1 ++ ts.2.1).length < 50
        · have htk : List.take 50 (ts.1 ++ ts.2.1) = ts.1 ++ ts.2.1 :=
            List.take_of_length_le (by omega)
          rw [htk]
          have hc : cand = (ts.1 ++ ts.2.1) ++ ts.2.2.take (50 - (ts.1 ++ ts.2.1).length) := by
            rw [hcd]
            simp only [itemsForAi]
            rw [if_pos hlt]
          rw [hc]
          exact (List.sublist_append_left _ _).trans (List.sublist_append_left _ _)
        · have hc : cand = (ts.1 ++ ts.2.1).take 50 := by
            rw [hcd]
            simp only [itemsForAi]
            rw [if_neg hlt]
          rw [← hc]
          exact List.sublist_append_left cand ts.1

/-- C5 counterexample: with eleven items, the tier reordering puts the PR
(tier B) ahead of an earlier-discovered message (tier C), so the filtered
output is not a subsequence of the input. -/
theorem c5_counterexample :
    ¬ List.Sublist (filterRelevant (Cex.envRel "0, 1, 2, 3, 4") Cex.items11 Cex.prim)
      Cex.items11 := by
  rw [← List.isSublist_iff_sublist]
  decide

/-- C5 witness: the amended theorem applied at a small and a large input. -/
theorem c5_witness :
    filterRelevant (Cex.envRel "0") [Cex.prim] Cex.prim = [Cex.prim] ∧
      List.Sublist (filterRelevant (Cex.envRel "0, 1, 2, 3, 4") Cex.items11 Cex.prim)
        (itemsForAi (tierSplit (derivedTicketId Cex.prim) Cex.items11).1
            (tierSplit (derivedTicketId Cex.prim) Cex.items11).2.1
            (tierSplit (derivedTicketId Cex.prim) Cex.items11).2.2 ++
          (tierSplit (derivedTicketId Cex.prim) Cex.items11).1) :=
  ⟨(c5_amended (Cex.envRel "0") [Cex.prim] Cex.prim).1 (by decide),
    (c5_amended (Cex.envRel "0, 1, 2, 3, 4") Cex.items11 Cex.prim).2 (by decide)⟩

/-! ### Claim C6: tier-A force-inclusion -/

/-- C6 (amended): a gathered item whose title or first 500 content
characters contain the (derived) ticket id is present in the filtered set
whenever the set is small (≤ 10, unfiltered) or the parsed AI selection has
fewer than 5 items, in which case all tier-A items are force-included. -/
theorem c6_amended (env : SearchEnv) (items : List ContextItem)
    (primary it : ContextItem) (txt : String)
    (henv : env.relevanceResponse = some txt) (hmem : it ∈ items)
    (htier : tierACond (derivedTicketId primary) it = true) :
    (items.length ≤ 10 → it ∈ filterRelevant env items primary) ∧
    (10 < items.length →
      (aiPick (itemsForAi (tierSplit (derivedTicketId primary) items).1
          (tierSplit (derivedTicketId primary) items).2.1
          (tierSplit (derivedTicketId primary) items).2.2) txt).length < 5 →
      it ∈ filterRelevant env items primary) := by
  constructor
  · intro h
    simpa [filterRelevant, h] using hmem
  · intro h hlt
    have hlen : ¬ items.length ≤ 10 := by omega
    simp only [filterRelevant, hlen, if_false, henv]
    have ht1 : it ∈ (tierSplit (derivedTicketId primary) items).1 :=
      mem_tierSplit_t1 hmem htier
    have hne : ¬ (tierSplit (derivedTicketId primary) items).1.isEmpty := by
      intro hemp
      rw [List.isEmpty_iff.1 hemp] at ht1
      simp at ht1
    rw [if_pos (by
      rw [Bool.and_eq_true]
      exact ⟨decide_eq_true hlt, by simpa using hne⟩)]
    exact mem_addMissing_right ht1

/-- C6 counterexample: an item whose content contains the exact ticket id is
dropped when the AI response keeps five candidates that omit it. -/
theorem c6_counterexample :
    tierACond (derivedTicketId Cex.prim) Cex.msgA = true ∧
      Cex.msgA ∈ Cex.items11A ∧
      Cex.msgA ∉ filterRelevant (Cex.envRel "0, 2, 3, 4, 5") Cex.items11A Cex.prim := by
  refine ⟨by decide, by decide, by decide⟩

/-- C6 witness: the amended theorem at a concrete input where the AI
selection is small, so the tier-A item is force-included. -/
theorem c6_witness :
    Cex.msgA ∈ filterRelevant (Cex.envRel "0") Cex.items11A Cex.prim :=
  (c6_amended (Cex.envRel "0") Cex.items11A Cex.prim Cex.msgA "0" rfl
    (by decide) (by decide)).2 (by decide) (by decide)

/-! ### Claim C8: search contract on primary failure -/

/-- C8: when the primary source resolves to a provider, a failed single
authentication attempt raises `AuthenticationError`, and an authenticated
lookup that finds nothing returns the empty list. -/
theorem c8 (env : SearchEnv) (tid : String) (override : Option String) (client : Client)
    (hp : getPlugin env (override.getD env.default_ticket_source) = some client) :
    (client.is_authenticated = false → client.authenticate = false →
      search env tid override = .error (.authError
        ("Failed to authenticate with " ++ override.getD env.default_ticket_source ++
          ". Run 'rove --add-source " ++ override.getD env.default_ticket_source ++
          "' to re-authenticate."))) ∧
    ((client.is_authenticated = true ∨ client.authenticate = true) →
      client.get_item_details (pyUpper tid) = none →
      search env tid override = .ok []) := by
  constructor
  · intro h1 h2
    simp [search, hp, h1, h2]
  · intro h1 h2
    rcases h1 with h1 | h1 <;> simp [search, hp, h1, h2]

/-- A provider answering the auth/lookup oracles as given. -/
def Cex.client (auth ok : Bool) (found : Bool) : Client :=
  ⟨auth, ok, fun _ => if found then some (Cex.prim, []) else none, ["ticket"],
    fun _ => some []⟩

/-- C8 witness: both contract cases at concrete providers. -/
theorem c8_witness :
    search ⟨[("jira", Cex.client false false false)], "jira", none, none⟩ "tb-1" none =
        .error (.authError
          "Failed to authenticate with jira. Run 'rove --add-source jira' to re-authenticate.") ∧
      search ⟨[("jira", Cex.client true true false)], "jira", none, none⟩ "tb-1" none =
        .ok [] := by
  constructor
  · exact (c8 ⟨[("jira", Cex.client false false false)], "jira", none, none⟩
      "tb-1" none (Cex.client false false false) rfl).1 rfl rfl
  · exact (c8 ⟨[("jira", Cex.client true true false)], "jira", none, none⟩
      "tb-1" none (Cex.client true true false) rfl).2 (Or.inl rfl) rfl

/-! ### Claim C10: missing capability provider -/

/-- C10: when the plugin factory lookup for the resolved primary source
fails, `search` returns the empty list without raising — the same value as
the primary-item-not-found outcome of C8. -/
theorem c10 (env : SearchEnv) (tid : String) (override : Option String)
    (hp : getPlugin env (override.getD env.default_ticket_source) = none) :
    search env tid override = .ok [] := by
  simp [search, hp]

/-- C10 witness: an empty registry. -/
theorem c10_witness : search ⟨[], "jira", none, none⟩ "TB-9" none = .ok [] :=
  c10 ⟨[], "jira", none, none⟩ "TB-9" none rfl

/-! ### Build path lemmas -/

theorem dedupByUrl_length_le (items : List ContextItem) :
    (dedupByUrl items).length ≤ items.length := dedupByUrlAux_length [] items

/-- Raising on empty items (the first line of `build`). -/
theorem build_empty (env : BuildEnv) (st : BuildState) (tid : String) :
    build env st tid [] = .error (.valueError "No items to build context from") := by
  simp [build]

/-- The idempotent no-op path: an existing record and non-empty document on
disk, and every offered item already present. -/
theorem build_noop (env : BuildEnv) (st : BuildState) (tid : String)
    (items : List ContextItem) (rec : FileRecord) (c : String)
    (hdb : alookup st.db (pyUpper tid) = some rec)
    (hfs : alookup st.fs rec.filename = some c) (hc : c ≠ "")
    (hne : items ≠ [])
    (hall : items.filter (fun it => !itemInExisting it (parseExistingUrls c)) = [])
    (hurls : (parseExistingUrls c).isEmpty = false) :
    build env st tid items = .ok (rec.filename, st) := by
  have hne' : items.isEmpty = false := by
    cases items
    · exact absurd rfl hne
    · rfl
  simp [build, hne', hdb, hfs, hurls, hall, truthy, hc]

/-- The fail-closed dedup path with an existing non-empty document: the AI
dedup call raising yields a no-op success. -/
theorem build_dedup_noop (env : BuildEnv) (st : BuildState) (tid : String)
    (items : List ContextItem) (rec : FileRecord) (c : String)
    (hdb : alookup st.db (pyUpper tid) = some rec)
    (hfs : alookup st.fs rec.filename = some c) (hc : c ≠ "")
    (hai : env.dedupResponse = none)
    (hbig : 3 < (dedupByUrl (if (parseExistingUrls c).isEmpty = false then
        items.filter (fun it => !itemInExisting it (parseExistingUrls c))
      else items)).length) :
    build env st tid items = .ok (rec.filename, st) := by
  cases hu : (parseExistingUrls c).isEmpty with
  | false =>
    rw [hu, if_pos rfl] at hbig
    have hlen : 4 ≤ (items.filter (fun it => !itemInExisting it (parseExistingUrls c))).length :=
      le_trans (by omega) (dedupByUrl_length_le _)
    have hlen0 : 4 ≤ items.length := le_trans hlen (by
      simpa using List.length_filter_le _ items)
    have hne' : items.isEmpty = false := by
      cases items
      · simp at hlen0
      · rfl
    have hne1 : (items.filter (fun it => !itemInExisting it (parseExistingUrls c))).isEmpty = false := by
      cases hl : items.filter (fun it => !itemInExisting it (parseExistingUrls c))
      · rw [hl] at hlen
        simp at hlen
      · rfl
    have h1 : ¬ (items.filter (fun it => !itemInExisting it (parseExistingUrls c))).length ≤ 1 := by
      omega
    have h3 : ¬ (dedupByUrl (items.filter (fun it => !itemInExisting it (parseExistingUrls c)))).length ≤ 3 := by
      omega
    simp [build, hne', hdb, hfs, hu, hne1, deduplicateItems, h1, h3, hai, truthy, hc]
  | true =>
    rw [hu] at hbig
    simp only [Bool.true_eq_false, if_false] at hbig
    have hlen0 : 4 ≤ items.length := le_trans (by omega) (dedupByUrl_length_le _)
    have hne' : items.isEmpty = false := by
      cases items
      · simp at hlen0
      · rfl
    have h1 : ¬ items.length ≤ 1 := by omega
    have h3 : ¬ (dedupByUrl items).length ≤ 3 := by omega
    simp [build, hne', hdb, hfs, hu, deduplicateItems, h1, h3, hai, truthy, hc]

/-- The fail-closed dedup path with no prior record: the AI dedup call
raising makes `build` raise the descriptive error. -/
theorem build_dedup_error (env : BuildEnv) (st : BuildState) (tid : String)
    (items : List ContextItem)
    (hdb : alookup st.db (pyUpper tid) = none)
    (hai : env.dedupResponse = none)
    (hbig : 3 < (dedupByUrl items).length) :
    build env st tid items = .error (.valueError
      "AI deduplication failed - no items to include. Check logs for details and try again.") := by
  have hlen : 4 ≤ items.length :=
    le_trans (by omega) (dedupByUrl_length_le items)
  have hne' : items.isEmpty = false := by
    cases items
    · simp at hlen
    · rfl
  have h1 : ¬ items.length ≤ 1 := by omega
  have h3 : ¬ (dedupByUrl items).length ≤ 3 := by omega
  simp [build, hne', hdb, deduplicateItems, h1, h3, hai, truthy]

/-! ### Claim C2: fail-closed deduplication -/

/-- C2: when the dedup AI call raises (and is actually consulted: more than
3 URL-distinct surviving items), `build` raises the descriptive error if no
prior record exists, and succeeds as a complete no-op (same filename,
untouched state) when a record and a non-empty document exist. -/
theorem c2_thm (env : BuildEnv) (st : BuildState) (tid : String)
    (items : List ContextItem) :
    (alookup st.db (pyUpper tid) = none → env.dedupResponse = none →
      3 < (dedupByUrl items).length →
      build env st tid items = .error (.valueError
        "AI deduplication failed - no items to include. Check logs for details and try again.")) ∧
    (∀ (rec : FileRecord) (c : String),
      alookup st.db (pyUpper tid) = some rec →
      alookup st.fs rec.filename = some c → c ≠ "" →
      env.dedupResponse = none →
      3 < (dedupByUrl (if (parseExistingUrls c).isEmpty = false then
          items.filter (fun it => !itemInExisting it (parseExistingUrls c))
        else items)).length →
      build env st tid items = .ok (rec.filename, st)) := by
  constructor
  · intro h1 h2 h3
    exact build_dedup_error env st tid items h1 h2 h3
  · intro rec c h1 h2 h3 h4 h5
    exact build_dedup_noop env st tid items rec c h1 h2 h3 h4 h5

namespace Cex

/-- Four URL-distinct offered items. -/
def items4 : List ContextItem :=
  [mk "slack" "message" "w" "x" "https://u1", mk "slack" "message" "w" "x" "https://u2",
   mk "slack" "message" "w" "x" "https://u3", mk "slack" "message" "w" "x" "https://u4"]

/-- Build env whose dedup AI raises. -/
def envN : BuildEnv := ⟨none, none, none, "2024-06-01"⟩

/-- A fresh state (no record, no file). -/
def st0 : BuildState := ⟨[], [], []⟩

/-- Existing record for ticket `T-2`. -/
def recR : FileRecord := ⟨"f.md", []⟩

/-- A (non-empty) existing document without parseable URLs. -/
def docB : String := "# Context: X"

/-- State with record and document for `T-2`. -/
def stB : BuildState := ⟨[("T-2", recR)], [("f.md", docB)], []⟩

/-- An existing document holding one referenced item (`https://a`) and a
SLACK sources-table row with count 1. -/
def docC : String :=
  "# Context: old\n\n## Related Discussions\n\n### old [1]\n\n> o\n\n— *a via SLACK, Jan 01, 2024*\n\n---\n\n## Sources Consulted\n\n| Source | Items Found | Last Updated |\n|--------|-------------|--------------|\n| SLACK | 1 | 2024-01-01 |\n\n## References\n\n[1]: https://a \"slack: old\"\n"

/-- An item already present in `docC` (same URL). -/
def itemA : ContextItem := mk "slack" "message" "oldoffer" "x" "https://a"

/-- A new item not present in `docC`. -/
def itemB : ContextItem := mk "slack" "message" "new" "y" "https://b"

/-- State with record and the `docC` document for `T-2`. -/
def stC9 : BuildState := ⟨[("T-2", recR)], [("f.md", docC)], []⟩

end Cex

/-- C2 witness: both dedup-failure outcomes at concrete inputs. -/
theorem c2_witness :
    build Cex.envN Cex.st0 "t-2" Cex.items4 = .error (.valueError
        "AI deduplication failed - no items to include. Check logs for details and try again.") ∧
      build Cex.envN Cex.stB "t-2" Cex.items4 = .ok ("f.md", Cex.stB) := by
  constructor
  · exact (c2_thm Cex.envN Cex.st0 "t-2" Cex.items4).1 rfl rfl (by decide)
  · exact (c2_thm Cex.envN Cex.stB "t-2" Cex.items4).2 Cex.recR Cex.docB rfl rfl
      (by decide) rfl (by decide)

/-! ### Claim C9: empty-input failure and no-op success -/

/-- C9 counterexample: with a prior record and document present and an empty
(hence vacuously all-already-present) item list, `build` raises instead of
returning the existing filename. -/
theorem c9_counterexample :
    alookup Cex.stB.db "T-2" = some Cex.recR ∧
      alookup Cex.stB.fs Cex.recR.filename = some Cex.docB ∧ Cex.docB ≠ "" ∧
      (∀ it ∈ ([] : List ContextItem),
        itemInExisting it (parseExistingUrls Cex.docB) = true) ∧
      build Cex.envN Cex.stB "t-2" [] = .error (.valueError
        "No items to build context from") ∧
      ¬ ∃ st', build Cex.envN Cex.stB "t-2" [] = .ok (Cex.recR.filename, st') := by
  refine ⟨rfl, rfl, by decide, by simp, build_empty _ _ _, ?_⟩
  rintro ⟨st', h⟩
  rw [build_empty] at h
  exact absurd h (by simp)

/-- C9 (amended): `build` raises on an empty item list regardless of any
prior record; and when a record and non-empty document exist and the
offered list is non-empty with every item already present, it succeeds as a
no-op returning the existing filename. -/
theorem c9_amended (env : BuildEnv) (st : BuildState) (tid : String)
    (items : List ContextItem) (rec : FileRecord) (c : String) :
    (items = [] → build env st tid items = .error (.valueError
      "No items to build context from")) ∧
    (alookup st.db (pyUpper tid) = some rec → alookup st.fs rec.filename = some c →
      c ≠ "" → items ≠ [] →
      (∀ it ∈ items, itemInExisting it (parseExistingUrls c) = true) →
      build env st tid items = .ok (rec.filename, st)) := by
  constructor
  · rintro rfl
    exact build_empty env st tid
  · intro h1 h2 h3 h4 h5
    have hfilter : items.filter (fun it => !itemInExisting it (parseExistingUrls c)) = [] := by
      rw [List.filter_eq_nil_iff]
      intro it hit
      rw [h5 it hit]
      simp
    have hurls : (parseExistingUrls c).isEmpty = false := by
      obtain ⟨it0, hit0⟩ := List.exists_mem_of_ne_nil items h4
      have := h5 it0 hit0
      cases hu : parseExistingUrls c with
      | nil =>
        rw [hu] at this
        simp [itemInExisting] at this
      | cons a as => rfl
    exact build_noop env st tid items rec c h1 h2 h3 h4 hfilter hurls

set_option maxRecDepth 40000 in
/-- C9 witness: the amended theorem at concrete inputs (the raise on a fresh
empty build, and the no-op when the one offered item is already present). -/
theorem c9_witness :
    build Cex.envN Cex.st0 "t-2" [] = .error (.valueError
        "No items to build context from") ∧
      build Cex.envN Cex.stC9 "t-2" [Cex.itemA] = .ok ("f.md", Cex.stC9) :=
  ⟨(c9_amended Cex.envN Cex.st0 "t-2" [] Cex.recR "x").1 rfl,
    (c9_amended Cex.envN Cex.stC9 "t-2" [Cex.itemA] Cex.recR Cex.docC).2 rfl rfl
      (by decide) (by decide) (by decide)⟩

/-! ### Claim C7: sources-table recount on append -/

/-- Lookup of a per-source count (0 when absent). -/
def cGet (d : List (String × Nat)) (s : String) : Nat := (alookup d s).getD 0

theorem alookup_cons {β : Type} (k : String) (v : β) (rest : List (String × β)) (s : String) :
    alookup ((k, v) :: rest) s = if k = s then some v else alookup rest s := by
  by_cases h : k = s
  · subst h
    simp [alookup, List.find?_cons]
  · simp [alookup, List.find?_cons, h]

theorem cGet_nil (s : String) : cGet [] s = 0 := rfl

theorem cGet_cons (k : String) (v : Nat) (rest : List (String × Nat)) (s : String) :
    cGet ((k, v) :: rest) s = if k = s then v else cGet rest s := by
  unfold cGet
  rw [alookup_cons]
  by_cases h : k = s <;> simp [h]

theorem cGet_dictIncr (d : List (String × Nat)) (k s : String) :
    cGet (dictIncr d k) s = cGet d s + (if k = s then 1 else 0) := by
  induction d with
  | nil =>
    show cGet [(k, 1)] s = cGet [] s + _
    rw [cGet_cons]
    by_cases h : k = s <;> simp [h, cGet_nil]
  | cons p rest ih =>
    obtain ⟨k1, v1⟩ := p
    by_cases h : k1 = k
    · subst h
      rw [show dictIncr ((k1, v1) :: rest) k1 = (k1, v1 + 1) :: rest by
        unfold dictIncr
        rw [if_pos rfl]]
      rw [cGet_cons, cGet_cons]
      by_cases h2 : k1 = s <;> simp [h2]
    · rw [show dictIncr ((k1, v1) :: rest) k = (k1, v1) :: dictIncr rest k by
        simp [dictIncr, h]]
      rw [cGet_cons, cGet_cons]
      by_cases h2 : k1 = s
      · subst h2
        have hk : ¬ k = k1 := fun hh => h hh.symm
        simp [hk]
      · rw [if_neg h2, if_neg h2]
        exact ih

theorem cGet_countFold (d : List (String × Nat)) (items : List ContextItem) (s : String) :
    cGet (countFold d items) s =
      cGet d s + (items.filter (fun it => it.source == s)).length := by
  induction items generalizing d with
  | nil => simp [countFold]
  | cons it rest ih =>
    show cGet (countFold (dictIncr d it.source) rest) s = _
    rw [ih, cGet_dictIncr]
    by_cases h : it.source = s
    · have hb : (it.source == s) = true := by simpa using h
      simp only [List.filter_cons, hb, if_pos h, if_true, List.length_cons]
      omega
    · have hb : (it.source == s) = false := by simpa using h
      simp only [List.filter_cons, hb, if_neg h, Bool.false_eq_true, if_false]
      omega

/-- The per-source recount arithmetic of `_append_to_existing`: the new
table entry for every source equals the old parsed entry plus the number of
items of that source among the items handed to the append (which `build`
calls with the post-filter, post-dedup list). -/
theorem c7_appendCounts (footer : String) (new_items : List ContextItem) (s : String) :
    cGet (appendCounts footer new_items) s =
      cGet ((scanTableRows footer).foldl (fun d p => dictSetLast d p.1 p.2) []) s +
        (new_items.filter (fun it => it.source == s)).length := by
  unfold appendCounts
  exact cGet_countFold _ new_items s

/-- The already-present filter of `build` (step 2). -/
def survItems (c : String) (items : List ContextItem) : List ContextItem :=
  if (parseExistingUrls c).isEmpty = false then
    items.filter (fun it => !itemInExisting it (parseExistingUrls c))
  else items

theorem alookup_fsWrite (fs : List (String × String)) (name content : String) :
    alookup (fsWrite fs name content) name = some content := by
  induction fs with
  | nil => simp [fsWrite, alookup]
  | cons p rest ih =>
    obtain ⟨n, c⟩ := p
    unfold fsWrite
    by_cases h : n = name
    · subst h
      simp [alookup_cons]
    · rw [if_neg h]
      rw [alookup_cons, if_neg h]
      exact ih

/-- The produced filename of a `build` outcome. -/
def builtName : Except BuildError (String × BuildState) → Option String
  | .ok (fn, _) => some fn
  | .error _ => none

/-- The document written under the produced filename of a `build` outcome. -/
def builtDoc : Except BuildError (String × BuildState) → Option String
  | .ok (fn, st) => alookup st.fs fn
  | .error _ => none

/-- The append path of `build`: with a record and a non-empty document, and
a non-empty deduplicated new-item list, `build` succeeds with the existing
filename and writes exactly `_append_to_existing` applied to the
post-filter post-dedup items. -/
theorem build_append (env : BuildEnv) (st : BuildState) (tid : String)
    (items : List ContextItem) (rec : FileRecord) (c : String)
    (hdb : alookup st.db (pyUpper tid) = some rec)
    (hfs : alookup st.fs rec.filename = some c) (hc : c ≠ "")
    (hne2 : deduplicateItems env (survItems c items) (some c) ≠ []) :
    builtName (build env st tid items) = some rec.filename ∧
      builtDoc (build env st tid items) = some (appendToExisting c (pyUpper tid)
        (deduplicateItems env (survItems c items) (some c))
        (groupByTopic env (deduplicateItems env (survItems c items) (some c)))
        env.today) := by
  have hs_ne : survItems c items ≠ [] := by
    intro h
    rw [h] at hne2
    exact hne2 (by simp [deduplicateItems])
  have hitems_ne : items ≠ [] := by
    intro h
    apply hs_ne
    rw [h]
    unfold survItems
    cases (parseExistingUrls c).isEmpty <;> simp
  have hne' : items.isEmpty = false := by
    cases items
    · exact absurd rfl hitems_ne
    · rfl
  cases hu : (parseExistingUrls c).isEmpty with
  | false =>
    rw [show survItems c items =
        items.filter (fun it => !itemInExisting it (parseExistingUrls c)) by
      unfold survItems
      rw [hu]
      simp] at hne2 hs_ne ⊢
    have hs1 : (items.filter (fun it => !itemInExisting it (parseExistingUrls c))).isEmpty = false := by
      cases hsv : items.filter (fun it => !itemInExisting it (parseExistingUrls c))
      · exact absurd hsv hs_ne
      · rfl
    have hs2 : (deduplicateItems env
        (items.filter (fun it => !itemInExisting it (parseExistingUrls c))) (some c)).isEmpty = false := by
      cases hsv : deduplicateItems env
          (items.filter (fun it => !itemInExisting it (parseExistingUrls c))) (some c)
      · exact absurd hsv hne2
      · rfl
    constructor
    · simp [builtName, build, hne', hdb, hfs, hu, hs1, hs2, truthy, hc]
    · simp [builtDoc, build, hne', hdb, hfs, hu, hs1, hs2, truthy, hc, alookup_fsWrite]
  | true =>
    rw [show survItems c items = items by
      unfold survItems
      rw [hu]
      simp] at hne2 hs_ne ⊢
    have hs2 : (deduplicateItems env items (some c)).isEmpty = false := by
      cases hsv : deduplicateItems env items (some c)
      · exact absurd hsv hne2
      · rfl
    constructor
    · simp [builtName, build, hne', hdb, hfs, hu, hs2, truthy, hc]
    · simp [builtDoc, build, hne', hdb, hfs, hu, hs2, truthy, hc, alookup_fsWrite]

namespace Cex

/-- The two offered items of the C7 scenario: one already present, one new. -/
def itemsAB : List ContextItem := [itemA, itemB]

end Cex

/-- C7 (amended): on an append, the sources table is re-parsed from the old
footer and each source is incremented once per item of that source among
the items actually handed to `_append_to_existing` — the post-filter,
post-dedup list, not all items passed to `build` — and the rebuilt rows
carry `env.today` (see `appendFooter`/`tableRow`). -/
theorem c7_amended (env : BuildEnv) (st : BuildState) (tid : String)
    (items : List ContextItem) (rec : FileRecord) (c : String)
    (footer : String) (its : List ContextItem) (s : String)
    (hdb : alookup st.db (pyUpper tid) = some rec)
    (hfs : alookup st.fs rec.filename = some c) (hc : c ≠ "")
    (hne2 : deduplicateItems env (survItems c items) (some c) ≠ []) :
    (builtName (build env st tid items) = some rec.filename ∧
      builtDoc (build env st tid items) = some (appendToExisting c (pyUpper tid)
        (deduplicateItems env (survItems c items) (some c))
        (groupByTopic env (deduplicateItems env (survItems c items) (some c)))
        env.today)) ∧
      cGet (appendCounts footer its) s =
        cGet ((scanTableRows footer).foldl (fun d p => dictSetLast d p.1 p.2) []) s +
          (its.filter (fun it => it.source == s)).length :=
  ⟨build_append env st tid items rec c hdb hfs hc hne2, c7_appendCounts footer its s⟩

set_option maxRecDepth 200000 in
/-- C7 counterexample: the old table counts SLACK once, both offered items
are SLACK items, yet the rebuilt table shows 2 (old count plus the one
newly persisted item), not 3 (old count plus all items passed to `build`),
because the already-present item is filtered before the recount. -/
theorem c7_counterexample :
    scanTableRows Cex.docC = [("slack", 1)] ∧
      (Cex.itemsAB.filter (fun it => it.source == "slack")).length = 2 ∧
      (builtDoc (build Cex.envN Cex.stC9 "t-2" Cex.itemsAB)).map scanTableRows =
        some [("slack", 2)] ∧
      (builtDoc (build Cex.envN Cex.stC9 "t-2" Cex.itemsAB)).map scanTableRows ≠
        some [("slack", 1 + 2)] := by
  refine ⟨by decide, by decide, by decide, by decide⟩

set_option maxRecDepth 200000 in
/-- C7 witness: the amended theorem applied at the concrete append
scenario. -/
theorem c7_witness :
    builtName (build Cex.envN Cex.stC9 "t-2" Cex.itemsAB) = some "f.md" ∧
      cGet (appendCounts Cex.docC [Cex.itemB]) "slack" =
        cGet ((scanTableRows Cex.docC).foldl (fun d p => dictSetLast d p.1 p.2) []) "slack" +
          ([Cex.itemB].filter (fun it => it.source == "slack")).length :=
  ⟨(c7_amended Cex.envN Cex.stC9 "t-2" Cex.itemsAB Cex.recR Cex.docC Cex.docC
      [Cex.itemB] "slack" rfl rfl (by decide) (by decide)).1.1,
    (c7_amended Cex.envN Cex.stC9 "t-2" Cex.itemsAB Cex.recR Cex.docC Cex.docC
      [Cex.itemB] "slack" rfl rfl (by decide) (by decide)).2⟩

/-! ### Claim C1: idempotence of build — counterexample -/

namespace Cex

/-- A single item whose URL is empty (not an `https?://` URL). -/
def itM : ContextItem := mk "slack" "message" "M" "hello" ""

/-- Build env with deterministic AI responses. -/
def envK : BuildEnv := ⟨some "alpha, beta", some "0", some "x", "2024-06-01"⟩

/-- First build from a fresh state. -/
def c1run1 : Except BuildError (String × BuildState) := build envK st0 "T-1" [itM]

/-- State after the first build. -/
def c1st1 : BuildState :=
  match c1run1 with
  | .ok (_, st) => st
  | .error _ => st0

/-- Second build with the identical item list. -/
def c1run2 : Except BuildError (String × BuildState) := build envK c1st1 "T-1" [itM]

end Cex

set_option maxRecDepth 200000 in
/-- C1 counterexample: two successive builds with the identical one-item
list from a fresh state both return the same filename, but the second call
appends the item again (its empty URL does not round-trip through the
reference-list parse), so the rendered artifact changes. -/
theorem c1_counterexample :
    builtName Cex.c1run1 = some "T-1_alpha_beta.md" ∧
      builtName Cex.c1run2 = some "T-1_alpha_beta.md" ∧
      builtDoc Cex.c1run2 ≠ builtDoc Cex.c1run1 := by
  refine ⟨by decide, by decide, by decide⟩

/-! ### Decimal-digit lemmas -/

theorem digitCh_isDigit (n : Nat) (h : n < 10) : pyDigit (digitCh n) = true := by
  interval_cases n <;> decide

theorem digitCh_val (n : Nat) (h : n < 10) : (digitCh n).toNat - 48 = n := by
  interval_cases n <;> decide

theorem natCharsF_stable (n : Nat) :
    ∀ fuel1 fuel2, n < fuel1 → n < fuel2 → natCharsF fuel1 n = natCharsF fuel2 n := by
  induction n using Nat.strong_induction_on with
  | _ n ih =>
    intro fuel1 fuel2 h1 h2
    obtain ⟨f1, rfl⟩ : ∃ f1, fuel1 = f1 + 1 := ⟨fuel1 - 1, by omega⟩
    obtain ⟨f2, rfl⟩ : ∃ f2, fuel2 = f2 + 1 := ⟨fuel2 - 1, by omega⟩
    by_cases h10 : n < 10
    · simp [natCharsF, h10]
    · have hd : n / 10 < n := Nat.div_lt_self (by omega) (by omega)
      simp only [natCharsF, h10, if_false]
      rw [ih (n / 10) hd f1 f2 (by omega) (by omega)]

theorem natChars_unfold (n : Nat) :
    natChars n = if n < 10 then [digitCh n]
      else natChars (n / 10) ++ [digitCh (n % 10)] := by
  unfold natChars
  by_cases h : n < 10
  · simp [natCharsF, h]
  · have hd : n / 10 < n := Nat.div_lt_self (by omega) (by omega)
    simp only [natCharsF, h, if_false]
    rw [natCharsF_stable (n / 10) n (n / 10 + 1) (by omega) (by omega)]
    rfl

theorem natChars_all_digit (n : Nat) : ∀ c ∈ natChars n, pyDigit c = true := by
  induction n using Nat.strong_induction_on with
  | _ n ih =>
    rw [natChars_unfold]
    by_cases h : n < 10
    · simp only [h, if_true, List.mem_singleton]
      rintro c rfl
      exact digitCh_isDigit n h
    · simp only [h, if_false]
      intro c hc
      rcases List.mem_append.1 hc with h1 | h2
      · exact ih (n / 10) (Nat.div_lt_self (by omega) (by omega)) c h1
      · rw [List.mem_singleton] at h2
        subst h2
        exact digitCh_isDigit _ (Nat.mod_lt _ (by omega))

theorem natChars_ne_nil (n : Nat) : natChars n ≠ [] := by
  rw [natChars_unfold]
  by_cases h : n < 10 <;> simp [h]

theorem digitsVal_append_digit (a : List Char) (c : Char) :
    digitsVal (a ++ [c]) = 10 * digitsVal a + (c.toNat - 48) := by
  simp [digitsVal, List.foldl_append]

theorem digitsVal_natChars (n : Nat) : digitsVal (natChars n) = n := by
  induction n using Nat.strong_induction_on with
  | _ n ih =>
    rw [natChars_unfold]
    by_cases h : n < 10
    · simp only [h, if_true]
      show 10 * 0 + ((digitCh n).toNat - 48) = n
      rw [digitCh_val n h]
      omega
    · simp only [h, if_false]
      rw [digitsVal_append_digit, ih (n / 10) (Nat.div_lt_self (by omega) (by omega)),
        digitCh_val _ (Nat.mod_lt _ (by omega))]
      omega

/-! ### takeWhile run lemmas -/

theorem takeWhile_run_stop (p : Char → Bool) (a : List Char) (c : Char) (t : List Char)
    (ha : ∀ x ∈ a, p x = true) (hc : p c = false) :
    (a ++ c :: t).takeWhile p = a ∧ (a ++ c :: t).drop a.length = c :: t := by
  constructor
  · induction a with
    | nil => simp [List.takeWhile_cons, hc]
    | cons x xs ih =>
      have hx : p x = true := ha x (by simp)
      simp only [List.cons_append, List.takeWhile_cons, hx, if_true]
      rw [ih (fun z hz => ha z (by simp [hz]))]
  · rw [List.drop_append_of_le_length (le_refl a.length)]
    simp

/-! ### Scheme lemmas -/

/-- Characters of `http://`. -/
def httpList : List Char := ['h', 't', 't', 'p', ':', '/', '/']

/-- Characters of `https://`. -/
def httpsList : List Char := ['h', 't', 't', 'p', 's', ':', '/', '/']

theorem schemeSplit_shape {l : List Char} {sch r : List Char}
    (h : schemeSplit l = some (sch, r)) :
    (sch = httpsList ∨ sch = httpList) ∧ l = sch ++ r := by
  unfold schemeSplit at h
  split at h
  · rename_i r1
    injection h with h1
    injection h1 with h1 h2
    subst h1
    subst h2
    exact ⟨Or.inl rfl, rfl⟩
  · rename_i r1
    injection h with h1
    injection h1 with h1 h2
    subst h1
    subst h2
    exact ⟨Or.inr rfl, rfl⟩
  · exact absurd h (by simp)

theorem schemeSplit_extend {u z : List Char} {sch r : List Char}
    (h : schemeSplit u = some (sch, r)) :
    schemeSplit (u ++ z) = some (sch, r ++ z) := by
  obtain ⟨hs, rfl⟩ := schemeSplit_shape h
  rcases hs with rfl | rfl <;> rfl

/-! ### URL pattern and `tryUrl` characterisation -/

/-- A well-formed absolute `http(s)` URL as the reference-list parser can
recover it: scheme followed by at least one character, all of them outside
whitespace and `"`. -/
def goodUrl (u : String) : Bool :=
  match schemeSplit u.data with
  | some (_, r) => !r.isEmpty && r.all urlBodyCh
  | none => false

theorem goodUrl_shape {u : String} (h : goodUrl u = true) :
    ∃ sch r, schemeSplit u.data = some (sch, r) ∧
      (sch = httpsList ∨ sch = httpList) ∧ u.data = sch ++ r ∧ r ≠ [] ∧
      (∀ c ∈ r, urlBodyCh c = true) := by
  unfold goodUrl at h
  split at h
  · rename_i sch r heq
    obtain ⟨hs, hdata⟩ := schemeSplit_shape heq
    rw [Bool.and_eq_true] at h
    refine ⟨sch, r, heq, hs, hdata, ?_, ?_⟩
    · exact List.isEmpty_eq_false.1 (by simpa using h.1)
    · intro c hc
      exact (List.all_eq_true.1 h.2) c hc
  · exact absurd h (by simp)

/-- The rendered reference-line head `[n]: <url> ` (with the trailing space
separating the URL from the quoted title). -/
def urlPat (n : Nat) (u : String) : List Char :=
  '[' :: natChars n ++ [']', ':', ' '] ++ u.data ++ [' ']

theorem tryUrl_pat (n : Nat) (u : String) (t : List Char) (hu : goodUrl u = true) :
    ∃ k, tryUrl (urlPat n u ++ t) = some (u, k) := by
  obtain ⟨sch, r, hss, hs, hdata, hrne, hrall⟩ := goodUrl_shape hu
  have hhead : ∃ u1, u.data = 'h' :: u1 := by
    rcases hs with rfl | rfl
    · exact ⟨['t', 't', 'p', 's', ':', '/', '/'] ++ r, by rw [hdata]; rfl⟩
    · exact ⟨['t', 't', 'p', ':', '/', '/'] ++ r, by rw [hdata]; rfl⟩
  obtain ⟨u1, hu1⟩ := hhead
  have hshape : urlPat n u ++ t =
      '[' :: (natChars n ++ ']' :: ':' :: ' ' :: (u.data ++ ' ' :: t)) := by
    unfold urlPat
    simp
  rw [hshape]
  have hds := takeWhile_run_stop pyDigit (natChars n) ']'
    (':' :: ' ' :: (u.data ++ ' ' :: t)) (natChars_all_digit n) (by decide)
  have hws := takeWhile_run_stop pyWs [' '] 'h' (u1 ++ ' ' :: t)
    (by intro x hx; rw [List.mem_singleton] at hx; subst hx; decide) (by decide)
  have harr : ' ' :: (u.data ++ ' ' :: t) = [' '] ++ 'h' :: (u1 ++ ' ' :: t) := by
    rw [hu1]
    simp
  have hsch2 : schemeSplit ('h' :: (u1 ++ ' ' :: t)) = some (sch, r ++ ' ' :: t) := by
    have h2 := @schemeSplit_extend u.data (' ' :: t) sch r hss
    rw [hu1] at h2
    simpa using h2
  have hbody := takeWhile_run_stop urlBodyCh r ' ' t hrall (by decide)
  simp only [tryUrl, if_true, hds.1, hds.2,
    List.isEmpty_eq_false.2 (natChars_ne_nil n), Bool.false_eq_true, if_false,
    show (']' :: ':' :: ' ' :: (u.data ++ ' ' :: t)).take 2 = [']', ':'] from rfl,
    show (']' :: ':' :: ' ' :: (u.data ++ ' ' :: t)).drop 2 =
      ' ' :: (u.data ++ ' ' :: t) from rfl,
    eq_self_iff_true]
  simp only [harr, hws.1, hws.2, List.isEmpty_cons, Bool.false_eq_true, if_false, hsch2,
    Option.some_bind, hbody.1, List.isEmpty_eq_false.2 hrne]
  exact ⟨_, by rw [← hdata]⟩

/-! ### Scanner step lemmas and completeness for the URL pattern -/

theorem scanGenF_cons_some {α : Type} (step : List Char → Option (α × {k : Nat // 0 < k}))
    (fuel : Nat) {l : List Char} {v : α} {k : {k : Nat // 0 < k}}
    (hl : l ≠ []) (h : step l = some (v, k)) :
    scanGenF step (fuel + 1) l = v :: scanGenF step fuel (l.drop k.1) := by
  cases l with
  | nil => exact absurd rfl hl
  | cons c rest => simp only [scanGenF, h]

theorem scanGenF_cons_none {α : Type} (step : List Char → Option (α × {k : Nat // 0 < k}))
    (fuel : Nat) {c : Char} {rest : List Char}
    (h : step (c :: rest) = none) :
    scanGenF step (fuel + 1) (c :: rest) = scanGenF step fuel rest := by
  simp only [scanGenF, h]

/-- Decomposition of a successful `tryUrl` match into its five regions. -/
theorem tryUrl_some_shape {l : List Char} {v : String} {k : {k : Nat // 0 < k}}
    (h : tryUrl l = some (v, k)) :
    ∃ ds ws sch body tail,
      l = ('[' :: (ds ++ [']', ':'])) ++ ((ws ++ (sch ++ body)) ++ tail) ∧
      (∀ c ∈ ds, pyDigit c = true) ∧ ds ≠ [] ∧
      (∀ c ∈ ws, pyWs c = true) ∧ ws ≠ [] ∧
      (sch = httpsList ∨ sch = httpList) ∧
      (∀ c ∈ body, urlBodyCh c = true) ∧ body ≠ [] ∧
      k.1 = 1 + ds.length + 2 + ws.length + sch.length + body.length := by
  cases l with
  | nil => exact absurd h (by simp [tryUrl])
  | cons c rest =>
    simp only [tryUrl, drop_takeWhile_length] at h
    split at h
    · split at h
      · exact absurd h (by simp)
      · split at h
        · rename_i hc hdsne htk
          cases hss : schemeSplit (((rest.dropWhile pyDigit).drop 2).dropWhile pyWs) with
          | none =>
            rw [hss] at h
            exact absurd h (by simp)
          | some p =>
            rw [hss] at h
            simp only [Option.some_bind] at h
            split at h
            · exact absurd h (by simp)
            · split at h
              · exact absurd h (by simp)
              · rename_i hwsne hbodyne
                obtain ⟨sch0, r5⟩ := p
                injection h with h1
                have h1k := congrArg Prod.snd h1
                obtain ⟨hschs, hsplit⟩ := schemeSplit_shape hss
                subst hc
                refine ⟨rest.takeWhile pyDigit,
                  ((rest.dropWhile pyDigit).drop 2).takeWhile pyWs,
                  sch0, r5.takeWhile urlBodyCh, r5.dropWhile urlBodyCh,
                  ?_, ?_, ?_, ?_, ?_, hschs, ?_, ?_, ?_⟩
                · have e2 : rest.dropWhile pyDigit =
                      [']', ':'] ++ ((rest.dropWhile pyDigit).drop 2) := by
                    conv_lhs => rw [← List.take_append_drop 2 (rest.dropWhile pyDigit)]
                    rw [htk]
                  have e3 : (rest.dropWhile pyDigit).drop 2 =
                      (((rest.dropWhile pyDigit).drop 2).takeWhile pyWs) ++ (sch0 ++ r5) := by
                    conv_lhs =>
                      rw [← List.takeWhile_append_dropWhile pyWs
                        ((rest.dropWhile pyDigit).drop 2)]
                    rw [hsplit]
                  have e5 : r5 = r5.takeWhile urlBodyCh ++ r5.dropWhile urlBodyCh :=
                    (List.takeWhile_append_dropWhile urlBodyCh r5).symm
                  rw [List.cons_append]
                  congr 1
                  calc rest = rest.takeWhile pyDigit ++ rest.dropWhile pyDigit :=
                        (List.takeWhile_append_dropWhile pyDigit rest).symm
                    _ = rest.takeWhile pyDigit ++
                          ([']', ':'] ++ ((rest.dropWhile pyDigit).drop 2)) := by
                        rw [← e2]
                    _ = rest.takeWhile pyDigit ++ ([']', ':'] ++
                          ((((rest.dropWhile pyDigit).drop 2).takeWhile pyWs) ++
                            (sch0 ++ r5))) := by
                        rw [← e3]
                    _ = rest.takeWhile pyDigit ++ ([']', ':'] ++
                          ((((rest.dropWhile pyDigit).drop 2).takeWhile pyWs) ++
                            (sch0 ++ (r5.takeWhile urlBodyCh ++ r5.dropWhile urlBodyCh)))) := by
                        rw [← e5]
                    _ = (rest.takeWhile pyDigit ++ [']', ':']) ++
                          (((((rest.dropWhile pyDigit).drop 2).takeWhile pyWs) ++
                            (sch0 ++ r5.takeWhile urlBodyCh)) ++ r5.dropWhile urlBodyCh) := by
                        simp [List.append_assoc]
                · exact fun c hc => List.mem_takeWhile_imp hc
                · simpa using hdsne
                · exact fun c hc => List.mem_takeWhile_imp hc
                · simpa using hwsne
                · exact fun c hc => List.mem_takeWhile_imp hc
                · simpa using hbodyne
                · exact (congrArg Subtype.val h1k).symm
        · exact absurd h (by simp)
    · exact absurd h (by simp)
/-- Locating an adjacent pair inside an append: it lies in the left part, in
the right part, or straddles the boundary. -/
theorem adj_in_append {x y : Char} (A : List Char) :
    ∀ (B p q : List Char), A ++ B = p ++ x :: y :: q →
      (∃ p1 q1, A = p1 ++ x :: y :: q1) ∨ (∃ p1 q1, B = p1 ++ x :: y :: q1) ∨
      (∃ A1, A = A1 ++ [x] ∧ ∃ B1, B = y :: B1) := by
  induction A with
  | nil =>
    intro B p q h
    simp only [List.nil_append] at h
    exact Or.inr (Or.inl ⟨p, q, h⟩)
  | cons a A' ih =>
    intro B p q h
    cases p with
    | nil =>
      simp only [List.cons_append, List.nil_append] at h
      injection h with h1 h2
      subst h1
      cases A' with
      | nil =>
        simp only [List.nil_append] at h2
        exact Or.inr (Or.inr ⟨[], by simp, q, h2.symm ▸ rfl⟩)
      | cons a2 A2 =>
        simp only [List.cons_append] at h2
        injection h2 with h3 h4
        subst h3
        exact Or.inl ⟨[], A2, by simp⟩
    | cons ph p' =>
      simp only [List.cons_append] at h
      injection h with h1 h2
      subst h1
      rcases ih B p' q h2 with ⟨p1, q1, hA⟩ | hB | ⟨A1, hA, B1, hB⟩
      · exact Or.inl ⟨a :: p1, q1, by rw [hA]; rfl⟩
      · exact Or.inr (Or.inl hB)
      · exact Or.inr (Or.inr ⟨a :: A1, by rw [hA]; rfl, B1, hB⟩)

/-- A successful `tryUrl` match never has a `(`\n`, `[`)` pair of adjacent
characters strictly inside the matched region: `\n` can appear only in the
whitespace run, which is followed by more whitespace or the scheme's `h`. -/
theorem tryUrl_no_nl_bracket {l p q : List Char} {v : String} {k : {k : Nat // 0 < k}}
    (h : tryUrl l = some (v, k)) (hl : l = p ++ '\n' :: '[' :: q)
    (hp : p.length + 2 ≤ k.1) : False := by
  obtain ⟨ds, ws, sch, body, tail, hdec, hds, _hdsne, hws, _hwsne, hsch, hbody, hbodyne, hk⟩ :=
    tryUrl_some_shape h
  have hlenm : (('[' :: (ds ++ [']', ':'])) ++ (ws ++ (sch ++ body))).length = k.1 := by
    simp [hk]
    omega
  have hnlA : ∀ c ∈ ('[' :: (ds ++ [']', ':'])), c ≠ '\n' := by
    intro c hc
    simp only [List.mem_cons, List.mem_append] at hc
    rcases hc with rfl | hc | hc
    · decide
    · intro he
      subst he
      exact absurd (hds _ hc) (by decide)
    · rcases hc with rfl | hc
      · decide
      · rcases hc with rfl | hc
        · decide
        · exact absurd hc (List.not_mem_nil _)
  -- the match region is an initial block of `l` of length `k.1`
  have hm : ('[' :: (ds ++ [']', ':'])) ++ (ws ++ (sch ++ body)) =
      p ++ '\n' :: '[' :: (q.take (k.1 - p.length - 2)) := by
    have h1 : l.take k.1 = ('[' :: (ds ++ [']', ':'])) ++ (ws ++ (sch ++ body)) := by
      rw [hdec]
      rw [show ('[' :: (ds ++ [']', ':'])) ++ ((ws ++ (sch ++ body)) ++ tail) =
        (('[' :: (ds ++ [']', ':'])) ++ (ws ++ (sch ++ body))) ++ tail by simp]
      rw [← hlenm, List.take_left]
    have h2 : l.take k.1 = p ++ '\n' :: '[' :: (q.take (k.1 - p.length - 2)) := by
      rw [hl, List.take_append_eq_append_take]
      obtain ⟨j, hj⟩ : ∃ j, k.1 - p.length = j + 2 := ⟨k.1 - p.length - 2, by omega⟩
      rw [List.take_of_length_le (by omega), hj, List.take_succ_cons, List.take_succ_cons]
      have : j = k.1 - p.length - 2 := by omega
      rw [this]
      rw [show (k.1 - p.length - 2 + 2 - 2 : Nat) = k.1 - p.length - 2 by omega]
    rw [← h1, h2]
  rcases adj_in_append ('[' :: (ds ++ [']', ':'])) (ws ++ (sch ++ body)) p
      (q.take (k.1 - p.length - 2)) hm with ⟨p1, q1, hA⟩ | ⟨p1, q1, hB⟩ | ⟨A1, hA, B1, hB⟩
  · have : ('\n' : Char) ∈ ('[' :: (ds ++ [']', ':'])) := by
      rw [hA]
      exact List.mem_append_right _ (List.mem_cons_self _ _)
    exact absurd rfl (hnlA _ this)
  · rcases adj_in_append ws (sch ++ body) p1 q1 hB with ⟨p2, q2, hW⟩ | ⟨p2, q2, hS⟩ |
        ⟨W1, hW, S1, hS⟩
    · have : ('[' : Char) ∈ ws := by
        rw [hW]
        exact List.mem_append_right _ (List.mem_cons_of_mem _ (List.mem_cons_self _ _))
      exact absurd (hws _ this) (by decide)
    · have : ('\n' : Char) ∈ sch ++ body := by
        rw [hS]
        exact List.mem_append_right _ (List.mem_cons_self _ _)
      rcases List.mem_append.1 this with h3 | h3
      · rcases hsch with rfl | rfl
        · exact absurd h3 (by decide)
        · exact absurd h3 (by decide)
      · exact absurd (hbody _ h3) (by decide)
    · rcases hsch with rfl | rfl
      · rw [show httpsList ++ body = 'h' :: (['t', 't', 'p', 's', ':', '/', '/'] ++ body)
          from rfl] at hS
        injection hS with h3 _
        exact absurd h3 (by decide)
      · rw [show httpList ++ body = 'h' :: (['t', 't', 'p', ':', '/', '/'] ++ body)
          from rfl] at hS
        injection hS with h3 _
        exact absurd h3 (by decide)
  · have : ('\n' : Char) ∈ ('[' :: (ds ++ [']', ':'])) := by
      rw [hA]
      exact List.mem_append_right _ (List.mem_cons_self _ _)
    exact absurd rfl (hnlA _ this)

/-- Completeness of the URL scanner: a reference-line pattern sitting at a
line start (document start or right after a newline) is always found,
whatever surrounds it, because no successful match can absorb the `\n[`
boundary. -/
theorem scanGenF_urls_mem (fuel : Nat) :
    ∀ (a : List Char) (n : Nat) (u : String) (b : List Char),
      goodUrl u = true →
      (a = [] ∨ ∃ a0, a = a0 ++ ['\n']) →
      a.length < fuel →
      u ∈ scanGenF tryUrl fuel (a ++ (urlPat n u ++ b)) := by
  induction fuel with
  | zero =>
    intro a n u b _ _ hlen
    omega
  | succ fuel ih =>
    intro a n u b hu hls hlen
    cases a with
    | nil =>
      simp only [List.nil_append]
      obtain ⟨k, hk⟩ := tryUrl_pat n u b hu
      rw [scanGenF_cons_some tryUrl fuel (by simp [urlPat]) hk]
      exact List.mem_cons_self _ _
    | cons c a1 =>
      have hls2 : ∃ a0, c :: a1 = a0 ++ ['\n'] := by
        rcases hls with h0 | h0
        · exact absurd h0 (by simp)
        · exact h0
      obtain ⟨a0, ha0⟩ := hls2
      have hls1 : a1 = [] ∨ ∃ a2, a1 = a2 ++ ['\n'] := by
        cases a0 with
        | nil =>
          injection ha0 with h1 h2
          exact Or.inl h2
        | cons d a3 =>
          rw [List.cons_append] at ha0
          injection ha0 with h1 h2
          exact Or.inr ⟨a3, h2⟩
      cases hstep : tryUrl ((c :: a1) ++ (urlPat n u ++ b)) with
      | none =>
        rw [List.cons_append] at hstep ⊢
        rw [scanGenF_cons_none tryUrl fuel hstep]
        exact ih a1 n u b hu hls1 (by simp at hlen; omega)
      | some vk =>
        obtain ⟨v, k⟩ := vk
        have hkle : k.1 ≤ a1.length + 1 := by
          by_contra hgt
          push_neg at hgt
          have hl2 : (c :: a1) ++ (urlPat n u ++ b) =
              a0 ++ '\n' :: '[' :: ((natChars n ++ [']', ':', ' '] ++ u.data ++ [' ']) ++ b) := by
            rw [ha0]
            simp [urlPat]
          have hlen0 : a1.length = a0.length := by
            have := congrArg List.length ha0
            simpa using this
          exact tryUrl_no_nl_bracket hstep hl2 (by omega)
        rw [scanGenF_cons_some tryUrl fuel (by simp) hstep]
        apply List.mem_cons_of_mem
        have hdrop : ((c :: a1) ++ (urlPat n u ++ b)).drop k.1 =
            ((c :: a1).drop k.1) ++ (urlPat n u ++ b) :=
          List.drop_append_of_le_length (by simpa using hkle)
        rw [hdrop]
        apply ih ((c :: a1).drop k.1) n u b hu
        · rcases le_or_lt k.1 a0.length with hle | hlt
          · right
            refine ⟨a0.drop k.1, ?_⟩
            rw [ha0]
            exact List.drop_append_of_le_length hle
          · left
            have hlen0 : a1.length = a0.length := by
              have := congrArg List.length ha0
              simpa using this
            have : (c :: a1).length ≤ k.1 := by
              simp only [List.length_cons]
              omega
            exact List.drop_eq_nil_of_le this
        · have hk1 := k.2
          simp only [List.length_drop, List.length_cons]
          simp only [List.length_cons] at hlen
          omega

/-- Top-level completeness for `scanUrls`. -/
theorem scanUrls_complete {doc : String} {a : List Char} {n : Nat} {u : String}
    {b : List Char} (hu : goodUrl u = true)
    (hdoc : doc.data = a ++ (urlPat n u ++ b))
    (hls : a = [] ∨ ∃ a0, a = a0 ++ ['\n']) :
    u ∈ scanUrls doc := by
  unfold scanUrls scanGen
  rw [hdoc]
  apply scanGenF_urls_mem _ a n u b hu hls
  simp [urlPat]

/-! ### Reference-line layout inside the generated document -/

theorem strData_append (a b : String) : (a ++ b).data = a.data ++ b.data := by
  cases a
  cases b
  rfl

theorem joinSep_head (sep : List Char) (x : List Char) (S : List (List Char)) :
    ∃ r, joinSep sep (x :: S) = x ++ r := by
  cases S with
  | nil => exact ⟨[], by simp [joinSep]⟩
  | cons y S1 => exact ⟨sep ++ joinSep sep (y :: S1), by simp [joinSep, List.append_assoc]⟩

theorem joinSep_split (sep : List Char) (P : List (List Char)) (x : List Char)
    (S : List (List Char)) (hP : P ≠ []) :
    ∃ a r, joinSep sep (P ++ x :: S) = a ++ (sep ++ (x ++ r)) := by
  induction P with
  | nil => exact absurd rfl hP
  | cons p P1 ih =>
    cases P1 with
    | nil =>
      obtain ⟨r, hr⟩ := joinSep_head sep x S
      refine ⟨p, r, ?_⟩
      rw [show ([p] ++ x :: S) = p :: x :: S from rfl]
      rw [show joinSep sep (p :: x :: S) = p ++ sep ++ joinSep sep (x :: S) from rfl, hr]
      simp [List.append_assoc]
    | cons p2 P2 =>
      obtain ⟨a, r, har⟩ := ih (by simp)
      refine ⟨p ++ sep ++ a, r, ?_⟩
      rw [show joinSep sep ((p :: p2 :: P2) ++ x :: S) =
        p ++ sep ++ joinSep sep ((p2 :: P2) ++ x :: S) from rfl, har]
      simp [List.append_assoc]

theorem joinLines_split (P : List String) (x : String) (S : List String) (hP : P ≠ []) :
    ∃ a r, (joinLines (P ++ x :: S)).data = a ++ '\n' :: (x.data ++ r) := by
  obtain ⟨a, r, h⟩ := joinSep_split ['\n'] (P.map String.data) x.data (S.map String.data)
    (by simpa using hP)
  refine ⟨a, r, ?_⟩
  show joinSep ['\n'] ((P ++ x :: S).map String.data) = _
  rw [List.map_append, List.map_cons, h]
  simp

theorem refLine_data (m : Nat) (u s : String) :
    (refLine (m, u, s)).data = urlPat m u ++ ('"' :: (s.data ++ ['"'])) := by
  show ("[" ++ natStr m ++ "]: " ++ u ++ " \"" ++ s ++ "\"").data = _
  simp only [strData_append]
  rw [show (natStr m).data = natChars m from rfl]
  unfold urlPat
  simp [List.append_assoc]

/-- A reference line occurring in a joined line list is recovered by the
URL scanner. -/
theorem scanUrls_joinLines {lines P S : List String} {m : Nat} {u s : String}
    (hsplit : lines = P ++ refLine (m, u, s) :: S) (hP : P ≠ [])
    (hu : goodUrl u = true) :
    u ∈ scanUrls (joinLines lines) := by
  obtain ⟨a, r, hdata⟩ := joinLines_split P (refLine (m, u, s)) S hP
  rw [refLine_data] at hdata
  rw [hsplit]
  have hdoc : (joinLines (P ++ refLine (m, u, s) :: S)).data =
      (a ++ ['\n']) ++ (urlPat m u ++ (('"' :: (s.data ++ ['"'])) ++ r)) := by
    rw [hdata]
    simp [List.append_assoc]
  exact scanUrls_complete hu hdoc (Or.inr ⟨a, rfl⟩)

/-! ### Every grouped item gets a reference entry -/

theorem renderItemsSeq_refs (its : List ContextItem) (n : Nat) (it : ContextItem)
    (h : it ∈ its) :
    ∃ m, (m, it.url, it.source ++ ": " ++ it.title) ∈ (renderItemsSeq its n).2.1 := by
  induction its generalizing n with
  | nil => exact absurd h (List.not_mem_nil _)
  | cons a rest ih =>
    rcases List.mem_cons.1 h with rfl | h2
    · exact ⟨n, by simp [renderItemsSeq]⟩
    · obtain ⟨m, hm⟩ := ih (n + 1) h2
      exact ⟨m, by simp only [renderItemsSeq]; exact List.mem_cons_of_mem _ hm⟩

theorem renderTopicsGen_refs (gs : List (String × List ContextItem)) (n : Nat)
    (it : ContextItem) (h : ∃ g ∈ gs, it ∈ g.2) :
    ∃ m, (m, it.url, it.source ++ ": " ++ it.title) ∈ (renderTopicsGen gs n).2.1 := by
  induction gs generalizing n with
  | nil =>
    obtain ⟨g, hg, _⟩ := h
    exact absurd hg (List.not_mem_nil _)
  | cons g0 rest ih =>
    obtain ⟨topic, its⟩ := g0
    obtain ⟨g, hg, hit⟩ := h
    rcases List.mem_cons.1 hg with rfl | h2
    · obtain ⟨m, hm⟩ := renderItemsSeq_refs its n it hit
      exact ⟨m, by simp only [renderTopicsGen]; exact List.mem_append_left _ hm⟩
    · obtain ⟨m, hm⟩ := ih (renderItemsSeq its n).2.2 ⟨g, h2, hit⟩
      exact ⟨m, by simp only [renderTopicsGen]; exact List.mem_append_right _ hm⟩

/-! ### Every item lands in some group of the type grouping -/

theorem dictAppend_mem_new (d : List (String × List ContextItem)) (k : String)
    (v : ContextItem) : ∃ g ∈ dictAppend d k v, v ∈ g.2 := by
  induction d with
  | nil => exact ⟨(k, [v]), by simp [dictAppend]⟩
  | cons p rest ih =>
    obtain ⟨k1, vs⟩ := p
    by_cases h : k1 = k
    · exact ⟨(k1, vs ++ [v]), by simp [dictAppend, h]⟩
    · obtain ⟨g, hg, hv⟩ := ih
      exact ⟨g, by simp only [dictAppend, h, if_false]; exact List.mem_cons_of_mem _ hg, hv⟩

theorem dictAppend_mem_old (d : List (String × List ContextItem)) (k : String)
    (v it : ContextItem) (h : ∃ g ∈ d, it ∈ g.2) :
    ∃ g ∈ dictAppend d k v, it ∈ g.2 := by
  induction d with
  | nil =>
    obtain ⟨g, hg, _⟩ := h
    exact absurd hg (List.not_mem_nil _)
  | cons p rest ih =>
    obtain ⟨k1, vs⟩ := p
    obtain ⟨g, hg, hit⟩ := h
    by_cases hk : k1 = k
    · rcases List.mem_cons.1 hg with rfl | h2
      · exact ⟨(k1, vs ++ [v]), by simp [dictAppend, hk],
          List.mem_append_left _ hit⟩
      · refine ⟨g, ?_, hit⟩
        simp only [dictAppend, hk]
        exact List.mem_cons_of_mem _ h2
    · rcases List.mem_cons.1 hg with rfl | h2
      · exact ⟨(k1, vs), by simp [dictAppend, hk], hit⟩
      · obtain ⟨g2, hg2, hit2⟩ := ih ⟨g, h2, hit⟩
        refine ⟨g2, ?_, hit2⟩
        simp only [dictAppend, hk, if_false]
        exact List.mem_cons_of_mem _ hg2

theorem typeGrouping_covers_aux (items : List ContextItem)
    (it : ContextItem) :
    ∀ acc : List (String × List ContextItem),
      ((∃ g ∈ acc, it ∈ g.2) ∨ it ∈ items) →
      ∃ g ∈ items.foldl (fun gs it2 => dictAppend gs (typeToTopic it2.item_type) it2) acc,
        it ∈ g.2 := by
  induction items with
  | nil =>
    intro acc h
    rcases h with h | h
    · exact h
    · exact absurd h (List.not_mem_nil _)
  | cons a rest ih =>
    intro acc h
    rw [List.foldl_cons]
    rcases h with h | h
    · exact ih _ (Or.inl (dictAppend_mem_old _ _ _ _ h))
    · rcases List.mem_cons.1 h with rfl | h2
      · exact ih _ (Or.inl (dictAppend_mem_new _ _ _))
      · exact ih _ (Or.inr h2)

theorem typeGrouping_covers (items : List ContextItem) (it : ContextItem)
    (h : it ∈ items) : ∃ g ∈ typeGrouping items, it ∈ g.2 :=
  typeGrouping_covers_aux items it [] (Or.inr h)

theorem groupByTopic_small (env : BuildEnv) (items : List ContextItem)
    (h : items.length ≤ 3) : groupByTopic env items = typeGrouping items := by
  simp [groupByTopic, h]

theorem joinLines_data_cons (x : String) (xs : List String) :
    ∃ r, (joinLines (x :: xs)).data = x.data ++ r :=
  joinSep_head ['\n'] x.data (xs.map String.data)

/-- The fully rendered fresh document, with the `lines` list exposed as an
explicit cons cell (definitional unfolding of `generateMarkdown`). -/
theorem generateMarkdown_eq (tid : String) (items : List ContextItem)
    (grouped : List (String × List ContextItem)) (today : String) :
    generateMarkdown tid items grouped today = joinLines
      (("# Context: " ++ ((items.find? (fun it => it.item_type == "ticket" &&
          strContains it.title tid)).map (·.title)).getD tid) ::
        ((((([""] ++ (renderTopicsGen grouped 1).1) ++
          ["---", "", "## Sources Consulted", "",
            "| Source | Items Found | Last Updated |",
            "|--------|-------------|--------------|"]) ++
          (sortPairs (countFold [] items)).map (tableRow today)) ++ [""]) ++
          (if (renderTopicsGen grouped 1).2.1.isEmpty then []
           else ["## References", ""] ++ (renderTopicsGen grouped 1).2.1.map refLine ++
             [""]))) := rfl

/-- A fresh build's document is never the empty string (it opens with
`# Context:`). -/
theorem generateMarkdown_ne_empty (tid : String) (items : List ContextItem)
    (grouped : List (String × List ContextItem)) (today : String) :
    generateMarkdown tid items grouped today ≠ "" := by
  intro h
  obtain ⟨r, hr⟩ := joinLines_data_cons
    ("# Context: " ++ ((items.find? (fun it => it.item_type == "ticket" &&
        strContains it.title tid)).map (·.title)).getD tid)
    ((((([""] ++ (renderTopicsGen grouped 1).1) ++
      ["---", "", "## Sources Consulted", "",
        "| Source | Items Found | Last Updated |",
        "|--------|-------------|--------------|"]) ++
      (sortPairs (countFold [] items)).map (tableRow today)) ++ [""]) ++
      (if (renderTopicsGen grouped 1).2.1.isEmpty then []
       else ["## References", ""] ++ (renderTopicsGen grouped 1).2.1.map refLine ++ [""]))
  rw [← generateMarkdown_eq, h] at hr
  simp [strData_append] at hr

/-- Every item of a grouped set has its (well-formed) URL recovered by the
URL scanner from the fresh document. -/
theorem generateMarkdown_mem_url (tid : String) (items : List ContextItem)
    (grouped : List (String × List ContextItem)) (today : String) (it : ContextItem)
    (hg : ∃ g ∈ grouped, it ∈ g.2) (hu : goodUrl it.url = true) :
    it.url ∈ scanUrls (generateMarkdown tid items grouped today) := by
  obtain ⟨m, hm⟩ := renderTopicsGen_refs grouped 1 it hg
  obtain ⟨R1, R2, hR⟩ := List.append_of_mem hm
  have hemp : (renderTopicsGen grouped 1).2.1.isEmpty = false :=
    List.isEmpty_eq_false.2 (by rw [hR]; simp)
  rw [generateMarkdown_eq]
  have hsplit : (("# Context: " ++ ((items.find? (fun it2 => it2.item_type == "ticket" &&
        strContains it2.title tid)).map (·.title)).getD tid) ::
      ((((([""] ++ (renderTopicsGen grouped 1).1) ++
        ["---", "", "## Sources Consulted", "",
          "| Source | Items Found | Last Updated |",
          "|--------|-------------|--------------|"]) ++
        (sortPairs (countFold [] items)).map (tableRow today)) ++ [""]) ++
        (if (renderTopicsGen grouped 1).2.1.isEmpty then []
         else ["## References", ""] ++ (renderTopicsGen grouped 1).2.1.map refLine ++
           [""]))) =
      (("# Context: " ++ ((items.find? (fun it2 => it2.item_type == "ticket" &&
        strContains it2.title tid)).map (·.title)).getD tid) ::
      ((((([""] ++ (renderTopicsGen grouped 1).1) ++
        ["---", "", "## Sources Consulted", "",
          "| Source | Items Found | Last Updated |",
          "|--------|-------------|--------------|"]) ++
        (sortPairs (countFold [] items)).map (tableRow today)) ++ [""]) ++
        (["## References", ""] ++ R1.map refLine))) ++
      refLine (m, it.url, it.source ++ ": " ++ it.title) :: (R2.map refLine ++ [""]) := by
    simp only [hemp, Bool.false_eq_true, if_false, hR, List.map_append, List.map_cons]
    simp [List.append_assoc]
  exact scanUrls_joinLines hsplit (by simp) hu

theorem alookup_append_none {β : Type} (d1 d2 : List (String × β)) (k : String)
    (h : alookup d1 k = none) : alookup (d1 ++ d2) k = alookup d2 k := by
  induction d1 with
  | nil => rfl
  | cons p rest ih =>
    obtain ⟨k1, v⟩ := p
    rw [List.cons_append, alookup_cons]
    rw [alookup_cons] at h
    by_cases hk : k1 = k
    · rw [if_pos hk] at h
      exact absurd h (by simp)
    · rw [if_neg hk] at h ⊢
      exact ih h

theorem contains_of_mem {l : List String} {x : String} (h : x ∈ l) :
    l.contains x = true := by
  induction l with
  | nil => exact absurd h (List.not_mem_nil _)
  | cons a rest ih =>
    rcases List.mem_cons.1 h with rfl | h2
    · simp [List.contains_cons]
    · simp only [List.contains_cons, ih h2, Bool.or_true]

/-! ### The fresh-build outcome of `build` -/

/-- The filename a fresh build (no prior record) produces. -/
def freshName (env : BuildEnv) (tid : String) (items : List ContextItem) : String :=
  pyUpper tid ++ "_" ++ joinUnderscore ((extractKeywords env items).take 4) ++ ".md"

/-- The document a fresh build writes when deduplication keeps the list. -/
def freshDoc (env : BuildEnv) (tid : String) (items : List ContextItem) : String :=
  generateMarkdown (pyUpper tid) items (groupByTopic env items) env.today

/-- The state a fresh build leaves behind. -/
def freshState (env : BuildEnv) (st : BuildState) (tid : String)
    (items : List ContextItem) : BuildState :=
  ⟨st.db ++ [(pyUpper tid, ⟨freshName env tid items, extractKeywords env items⟩)],
    fsWrite st.fs (freshName env tid items) (freshDoc env tid items),
    (dedupStr (items.map (·.source))).foldl
      (fun fh s => fhUpsert fh (pyUpper tid, s)) st.fetchHistory⟩

/-- The fresh-build path: no prior record, non-empty items kept intact by
deduplication. -/
theorem build_fresh (env : BuildEnv) (st : BuildState) (tid : String)
    (items : List ContextItem)
    (hdb : alookup st.db (pyUpper tid) = none)
    (hne : items ≠ [])
    (hded : deduplicateItems env items none = items) :
    build env st tid items =
      .ok (freshName env tid items, freshState env st tid items) := by
  have hne' : items.isEmpty = false := by
    cases items
    · exact absurd rfl hne
    · rfl
  simp [build, hne', hdb, hded, truthy, freshName, freshDoc, freshState]

/-! ### Claim C1 (amended): idempotence for well-formed URLs -/

/-- C1 (amended): starting from no prior record, for a non-empty item list
that deduplication keeps intact, whose URLs are well-formed absolute
`http(s)` URLs, and that the topic grouping fully retains (every item lands
in some topic group — automatic for at most three items and whenever the
grouping falls back to the type-based grouping), the first `build` returns
the fresh filename and state, and a second `build` with the identical item
list — under any AI environment — returns the same filename and leaves the
artifact and state byte-for-byte unchanged (every offered item is
recognised as already present).  Both side conditions are necessary: an
item whose URL the reference parser cannot recover, or an item a grouping
AI response omits, is absent from the rendered reference list and gets
re-appended (see the counterexample for the URL case). -/
theorem c1_amended (env1 env2 : BuildEnv) (st : BuildState) (tid : String)
    (items : List ContextItem)
    (hdb : alookup st.db (pyUpper tid) = none)
    (hne : items ≠ [])
    (hded : deduplicateItems env1 items none = items)
    (hgrp : ∀ it ∈ items, ∃ g ∈ groupByTopic env1 items, it ∈ g.2)
    (hurls : ∀ it ∈ items, goodUrl it.url = true) :
    build env1 st tid items =
      .ok (freshName env1 tid items, freshState env1 st tid items) ∧
    build env2 (freshState env1 st tid items) tid items =
      .ok (freshName env1 tid items, freshState env1 st tid items) := by
  refine ⟨build_fresh env1 st tid items hdb hne hded, ?_⟩
  have hdb2 : alookup (freshState env1 st tid items).db (pyUpper tid) =
      some ⟨freshName env1 tid items, extractKeywords env1 items⟩ := by
    show alookup (st.db ++ [(pyUpper tid,
      (⟨freshName env1 tid items, extractKeywords env1 items⟩ : FileRecord))])
      (pyUpper tid) = _
    rw [alookup_append_none _ _ _ hdb, alookup_cons]
    simp
  have hfs2 : alookup (freshState env1 st tid items).fs (freshName env1 tid items) =
      some (freshDoc env1 tid items) := alookup_fsWrite _ _ _
  have hc : freshDoc env1 tid items ≠ "" := generateMarkdown_ne_empty _ _ _ _
  have hmem : ∀ it ∈ items, it.url ∈ parseExistingUrls (freshDoc env1 tid items) := by
    intro it hit
    unfold parseExistingUrls
    apply List.mem_append_left
    apply List.mem_append_left
    apply List.mem_append_left
    show it.url ∈ scanUrls (generateMarkdown (pyUpper tid) items
      (groupByTopic env1 items) env1.today)
    exact generateMarkdown_mem_url _ _ _ _ it (hgrp it hit) (hurls it hit)
  have hall : items.filter
      (fun it => !itemInExisting it (parseExistingUrls (freshDoc env1 tid items))) = [] := by
    rw [List.filter_eq_nil_iff]
    intro it hit
    have hc1 : itemInExisting it (parseExistingUrls (freshDoc env1 tid items)) = true := by
      unfold itemInExisting
      rw [contains_of_mem (hmem it hit)]
      rfl
    simp [hc1]
  have hurlsne : (parseExistingUrls (freshDoc env1 tid items)).isEmpty = false := by
    obtain ⟨it0, hit0⟩ := List.exists_mem_of_ne_nil items hne
    exact List.isEmpty_eq_false.2 (List.ne_nil_of_mem (hmem it0 hit0))
  exact build_noop env2 (freshState env1 st tid items) tid items
    ⟨freshName env1 tid items, extractKeywords env1 items⟩ (freshDoc env1 tid items)
    hdb2 hfs2 hc hne hall hurlsne

/-- Witness instantiating `c1_amended`: two slack messages with distinct
well-formed URLs, fresh state, keyword/dedup/grouping oracles present on the
first call and absent on the second. -/
theorem c1_witness :
    (alookup Cex.st0.db (pyUpper "T-1") = none ∧ Cex.itemsAB ≠ [] ∧
      deduplicateItems Cex.envK Cex.itemsAB none = Cex.itemsAB ∧
      (∀ it ∈ Cex.itemsAB, ∃ g ∈ groupByTopic Cex.envK Cex.itemsAB, it ∈ g.2) ∧
      (∀ it ∈ Cex.itemsAB, goodUrl it.url = true)) ∧
    (build Cex.envK Cex.st0 "T-1" Cex.itemsAB =
        .ok (freshName Cex.envK "T-1" Cex.itemsAB,
          freshState Cex.envK Cex.st0 "T-1" Cex.itemsAB) ∧
      build Cex.envN (freshState Cex.envK Cex.st0 "T-1" Cex.itemsAB) "T-1" Cex.itemsAB =
        .ok (freshName Cex.envK "T-1" Cex.itemsAB,
          freshState Cex.envK Cex.st0 "T-1" Cex.itemsAB)) :=
  ⟨⟨rfl, by decide, by decide, by decide, by decide⟩,
    c1_amended Cex.envK Cex.envN Cex.st0 "T-1" Cex.itemsAB rfl (by decide)
      (by decide) (by decide) (by decide)⟩

/-! ### Reference-number pattern `\[(\d+)\]:` — completeness of `scanRN` -/

/-- The raw reference-number marker `[n]:`. -/
def rnPat (n : Nat) : List Char := '[' :: natChars n ++ [']', ':']

/-- `tryRN` fires on the marker wherever it stands. -/
theorem tryRN_pat (n : Nat) (t : List Char) :
    ∃ k, tryRN (rnPat n ++ t) = some (n, k) := by
  have hshape : rnPat n ++ t = '[' :: (natChars n ++ ']' :: ':' :: t) := by
    unfold rnPat
    simp
  rw [hshape]
  have hds := takeWhile_run_stop pyDigit (natChars n) ']' (':' :: t)
    (natChars_all_digit n) (by decide)
  simp only [tryRN, if_true, hds.1, hds.2,
    List.isEmpty_eq_false.2 (natChars_ne_nil n), Bool.false_eq_true, if_false,
    show (']' :: ':' :: t).take 2 = [']', ':'] from rfl, eq_self_iff_true]
  exact ⟨_, by rw [digitsVal_natChars]⟩

/-- Decomposition of a successful `tryRN` match. -/
theorem tryRN_some_shape {l : List Char} {v : Nat} {k : {k : Nat // 0 < k}}
    (h : tryRN l = some (v, k)) :
    ∃ ds tail, l = ('[' :: (ds ++ [']', ':'])) ++ tail ∧
      (∀ c ∈ ds, pyDigit c = true) ∧ ds ≠ [] ∧
      k.1 = 1 + ds.length + 2 := by
  cases l with
  | nil => exact absurd h (by simp [tryRN])
  | cons c rest =>
    simp only [tryRN, drop_takeWhile_length] at h
    split at h
    · split at h
      · exact absurd h (by simp)
      · split at h
        · rename_i hc hdsne htk
          injection h with h1
          have h1k := congrArg Prod.snd h1
          subst hc
          refine ⟨rest.takeWhile pyDigit, ((rest.dropWhile pyDigit).drop 2), ?_, ?_, ?_, ?_⟩
          · have e2 : rest.dropWhile pyDigit =
                [']', ':'] ++ ((rest.dropWhile pyDigit).drop 2) := by
              conv_lhs => rw [← List.take_append_drop 2 (rest.dropWhile pyDigit)]
              rw [htk]
            rw [List.cons_append]
            congr 1
            calc rest = rest.takeWhile pyDigit ++ rest.dropWhile pyDigit :=
                  (List.takeWhile_append_dropWhile pyDigit rest).symm
              _ = rest.takeWhile pyDigit ++
                    ([']', ':'] ++ ((rest.dropWhile pyDigit).drop 2)) := by
                  rw [← e2]
              _ = (rest.takeWhile pyDigit ++ [']', ':']) ++
                    ((rest.dropWhile pyDigit).drop 2) := by
                  simp [List.append_assoc]
          · exact fun c hc => List.mem_takeWhile_imp hc
          · simpa using hdsne
          · exact (congrArg Subtype.val h1k).symm
        · exact absurd h (by simp)
    · exact absurd h (by simp)

/-- A `tryRN` match contains `[` only at its very start. -/
theorem tryRN_no_inner_bracket {l p q : List Char} {v : Nat} {k : {k : Nat // 0 < k}}
    (h : tryRN l = some (v, k)) (hl : l = p ++ '[' :: q)
    (hp1 : 1 ≤ p.length) (hpk : p.length + 1 ≤ k.1) : False := by
  obtain ⟨ds, tail, hdec, hds, _hdsne, hk⟩ := tryRN_some_shape h
  have hlenm : ('[' :: (ds ++ [']', ':'])).length = k.1 := by
    simp [hk]
    omega
  have hm : ('[' :: (ds ++ [']', ':'])) = p ++ '[' :: (q.take (k.1 - p.length - 1)) := by
    have h1 : l.take k.1 = ('[' :: (ds ++ [']', ':'])) := by
      rw [hdec, ← hlenm, List.take_left]
    have h2 : l.take k.1 = p ++ '[' :: (q.take (k.1 - p.length - 1)) := by
      rw [hl, List.take_append_eq_append_take]
      obtain ⟨j, hj⟩ : ∃ j, k.1 - p.length = j + 1 := ⟨k.1 - p.length - 1, by omega⟩
      rw [List.take_of_length_le (by omega), hj, List.take_succ_cons]
      rw [show (j : Nat) = k.1 - p.length - 1 by omega]
      rw [show (k.1 - p.length - 1 + 1 - 1 : Nat) = k.1 - p.length - 1 by omega]
    rw [← h1, h2]
  cases p with
  | nil => simp at hp1
  | cons c p2 =>
    rw [List.cons_append] at hm
    injection hm with h1 h2
    have : ('[' : Char) ∈ ds ++ [']', ':'] := by
      rw [h2]
      exact List.mem_append_right _ (List.mem_cons_self _ _)
    rcases List.mem_append.1 this with h3 | h3
    · exact absurd (hds _ h3) (by decide)
    · simp at h3

/-- Completeness of the reference-number scanner: every marker occurrence
is collected. -/
theorem scanGenF_rn_mem (fuel : Nat) :
    ∀ (a : List Char) (n : Nat) (b : List Char),
      a.length < fuel →
      n ∈ scanGenF tryRN fuel (a ++ (rnPat n ++ b)) := by
  induction fuel with
  | zero =>
    intro a n b hlen
    omega
  | succ fuel ih =>
    intro a n b hlen
    cases a with
    | nil =>
      simp only [List.nil_append]
      obtain ⟨k, hk⟩ := tryRN_pat n b
      rw [scanGenF_cons_some tryRN fuel (by simp [rnPat]) hk]
      exact List.mem_cons_self _ _
    | cons c a1 =>
      cases hstep : tryRN ((c :: a1) ++ (rnPat n ++ b)) with
      | none =>
        rw [List.cons_append] at hstep ⊢
        rw [scanGenF_cons_none tryRN fuel hstep]
        exact ih a1 n b (by simp at hlen; omega)
      | some vk =>
        obtain ⟨v, k⟩ := vk
        have hkle : k.1 ≤ a1.length + 1 := by
          by_contra hgt
          push_neg at hgt
          have hl2 : (c :: a1) ++ (rnPat n ++ b) =
              (c :: a1) ++ '[' :: ((natChars n ++ [']', ':']) ++ b) := by
            simp [rnPat]
          exact tryRN_no_inner_bracket hstep hl2 (by simp) (by simp; omega)
        rw [scanGenF_cons_some tryRN fuel (by simp) hstep]
        apply List.mem_cons_of_mem
        have hdrop : ((c :: a1) ++ (rnPat n ++ b)).drop k.1 =
            ((c :: a1).drop k.1) ++ (rnPat n ++ b) :=
          List.drop_append_of_le_length (by simpa using hkle)
        rw [hdrop]
        apply ih ((c :: a1).drop k.1) n b
        have hk1 := k.2
        simp only [List.length_drop, List.length_cons]
        simp only [List.length_cons] at hlen
        omega

/-- Top-level completeness for `scanRN`. -/
theorem scanRN_complete {doc : String} {a : List Char} {n : Nat} {b : List Char}
    (hdoc : doc.data = a ++ (rnPat n ++ b)) :
    n ∈ scanRN doc := by
  unfold scanRN scanGen
  rw [hdoc]
  apply scanGenF_rn_mem _ a n b
  simp [rnPat]

theorem le_foldr_max {n : Nat} {l : List Nat} (h : n ∈ l) : n ≤ l.foldr max 0 := by
  induction l with
  | nil => exact absurd h (List.not_mem_nil _)
  | cons a rest ih =>
    rcases List.mem_cons.1 h with rfl | h2
    · exact le_max_left _ _
    · exact le_trans (ih h2) (le_max_right _ _)

/-- A marker occurrence forces the next reference number past it. -/
theorem nextRefNum_gt {doc : String} {a : List Char} {n : Nat} {b : List Char}
    (hdoc : doc.data = a ++ (rnPat n ++ b)) :
    n < nextRefNum doc := by
  have hmem : n ∈ scanRN doc := scanRN_complete hdoc
  have hne : (scanRN doc).isEmpty = false :=
    List.isEmpty_eq_false.2 (List.ne_nil_of_mem hmem)
  simp only [nextRefNum, hne, Bool.false_eq_true, if_false]
  have := le_foldr_max hmem
  omega

/-! ### `findSub` and whitespace-strip preservation of non-whitespace runs -/

theorem findSubAux_spec (pat : List Char) :
    ∀ (l : List Char) (i j : Nat), findSubAux pat l i = some j →
      ∃ p q, l = p ++ pat ++ q ∧ i + p.length = j := by
  intro l
  induction l with
  | nil =>
    intro i j h
    simp only [findSubAux] at h
    split at h
    · rename_i hpe
      injection h with h1
      refine ⟨[], [], ?_, by simpa using h1⟩
      simp [List.isEmpty_iff.1 hpe]
    · exact absurd h (by simp)
  | cons c cs ih =>
    intro i j h
    simp only [findSubAux] at h
    split at h
    · rename_i hlw
      obtain ⟨t, ht⟩ := leadsWith_iff.1 hlw
      injection h with h1
      exact ⟨[], t, by simpa using ht, by simpa using h1⟩
    · obtain ⟨p, q, hl, hj⟩ := ih (i + 1) j h
      exact ⟨c :: p, q, by rw [hl]; rfl, by simp only [List.length_cons]; omega⟩

theorem findSub_spec {pat l : List Char} {j : Nat} (h : findSub pat l = some j) :
    ∃ p q, l = p ++ pat ++ q ∧ p.length = j := by
  obtain ⟨p, q, hl, hj⟩ := findSubAux_spec pat l 0 j h
  exact ⟨p, q, hl, by omega⟩

theorem findSubAux_of_occurs (pat p q : List Char) :
    ∀ i, ∃ j, findSubAux pat (p ++ pat ++ q) i = some j ∧ j ≤ i + p.length := by
  induction p with
  | nil =>
    intro i
    cases hpq : pat ++ q with
    | nil =>
      have hpe : pat.isEmpty = true := by
        rcases List.append_eq_nil.1 hpq with ⟨rfl, _⟩
        rfl
      exact ⟨i, by simp [findSubAux, hpq, hpe], by omega⟩
    | cons c cs =>
      have hlw : leadsWith pat (c :: cs) = true := leadsWith_iff.2 ⟨q, hpq.symm⟩
      exact ⟨i, by simp [findSubAux, hpq, hlw], by omega⟩
  | cons a p1 ih =>
    intro i
    rw [show ((a :: p1) ++ pat ++ q) = a :: (p1 ++ pat ++ q) from rfl]
    by_cases hlw : leadsWith pat (a :: (p1 ++ pat ++ q)) = true
    · exact ⟨i, by simp only [findSubAux, hlw, if_true], by omega⟩
    · obtain ⟨j, hj, hle⟩ := ih (i + 1)
      refine ⟨j, ?_, by simp only [List.length_cons]; omega⟩
      simp only [findSubAux, hlw, if_false]
      exact hj

theorem findSub_of_occurs {pat l p q : List Char} (h : l = p ++ pat ++ q) :
    ∃ j, findSub pat l = some j ∧ j ≤ p.length := by
  obtain ⟨j, hj, hle⟩ := findSubAux_of_occurs pat p q 0
  exact ⟨j, by rw [h]; simpa using hj, by omega⟩

/-- Two suffix views of a list: the longer contains the shorter. -/
theorem drop_sub_drop (l : List Char) (m n : Nat) (h : m ≤ n) :
    ∃ e, l.drop m = e ++ l.drop n := by
  refine ⟨(l.drop m).take (n - m), ?_⟩
  conv_lhs => rw [← List.take_append_drop (n - m) (l.drop m)]
  rw [List.drop_drop]
  rw [show (m + (n - m) : Nat) = n by omega]

theorem dropWhile_sub (P : Char → Bool) (post : List Char) (c : Char) (t : List Char)
    (hpost : post = c :: t) (hc : P c = false) :
    ∀ pre : List Char, ∃ pre1, List.dropWhile P (pre ++ post) = pre1 ++ post := by
  intro pre
  induction pre with
  | nil =>
    refine ⟨[], ?_⟩
    rw [hpost]
    simp [List.dropWhile_cons, hc]
  | cons a p1 ih =>
    rw [List.cons_append, List.dropWhile_cons]
    by_cases ha : P a = true
    · rw [ha]
      simpa using ih
    · rw [Bool.not_eq_true] at ha
      rw [ha]
      exact ⟨a :: p1, rfl⟩

theorem dropTrail_sub (P : Char → Bool) (x q : List Char) (c : Char) (t : List Char)
    (hx : x.reverse = c :: t) (hc : P c = false) :
    ∃ q1, dropTrail P (x ++ q) = x ++ q1 := by
  unfold dropTrail
  rw [List.reverse_append]
  obtain ⟨pre1, hpre⟩ := dropWhile_sub P x.reverse c t hx hc q.reverse
  rw [hpre, List.reverse_append, List.reverse_reverse]
  exact ⟨pre1.reverse, rfl⟩

/-- `str.strip()` keeps every occurrence of a non-empty all-non-whitespace
pattern. -/
theorem pyStrip_keep {s : String} {p pat q : List Char} (hne : pat ≠ [])
    (hall : ∀ c ∈ pat, pyWs c = false) (h : s.data = p ++ pat ++ q) :
    ∃ p1 q1, (pyStrip s).data = p1 ++ pat ++ q1 := by
  obtain ⟨c0, t0, hpat⟩ := List.exists_cons_of_ne_nil hne
  have hc0 : pyWs c0 = false := hall c0 (by rw [hpat]; exact List.mem_cons_self _ _)
  have hrev : ∃ c1 t1, pat.reverse = c1 :: t1 ∧ pyWs c1 = false := by
    obtain ⟨c1, t1, h1⟩ := List.exists_cons_of_ne_nil
      (show pat.reverse ≠ [] by simpa using hne)
    refine ⟨c1, t1, h1, hall c1 ?_⟩
    have : c1 ∈ pat.reverse := by rw [h1]; exact List.mem_cons_self _ _
    simpa using this
  obtain ⟨c1, t1, h1, hc1⟩ := hrev
  have hps : (pyStrip s).data = dropTrail pyWs (List.dropWhile pyWs s.data) := rfl
  rw [hps]
  rw [h, List.append_assoc]
  obtain ⟨p1, hp1⟩ := dropWhile_sub pyWs (pat ++ q) c0 (t0 ++ q)
    (by rw [hpat]; rfl) hc0 p
  rw [hp1, ← List.append_assoc]
  obtain ⟨q1, hq1⟩ := dropTrail_sub pyWs (p1 ++ pat) q c1 (t1 ++ p1.reverse)
    (by rw [List.reverse_append, h1]; rfl) hc1
  exact ⟨p1, q1, hq1⟩

/-- `str.rstrip()` keeps every occurrence of such a pattern as well. -/
theorem pyRstrip_keep {s : String} {p pat q : List Char} (hne : pat ≠ [])
    (hall : ∀ c ∈ pat, pyWs c = false) (h : s.data = p ++ pat ++ q) :
    ∃ q1, (pyRstrip s).data = p ++ pat ++ q1 := by
  have hrev : ∃ c1 t1, pat.reverse = c1 :: t1 ∧ pyWs c1 = false := by
    obtain ⟨c1, t1, h1⟩ := List.exists_cons_of_ne_nil
      (show pat.reverse ≠ [] by simpa using hne)
    refine ⟨c1, t1, h1, hall c1 ?_⟩
    have : c1 ∈ pat.reverse := by rw [h1]; exact List.mem_cons_self _ _
    simpa using this
  obtain ⟨c1, t1, h1, hc1⟩ := hrev
  have hrs : (pyRstrip s).data = dropTrail pyWs s.data := rfl
  rw [hrs, h]
  obtain ⟨q1, hq1⟩ := dropTrail_sub pyWs (p ++ pat) q c1 (t1 ++ p.reverse)
    (by rw [List.reverse_append, h1]; rfl) hc1
  exact ⟨q1, hq1⟩

/-! ### Assigned reference numbers of the renderers are consecutive runs -/

theorem renderItemsSeq_nums (its : List ContextItem) (n : Nat) :
    (renderItemsSeq its n).2.1.map (·.1) = List.range' n its.length ∧
    (renderItemsSeq its n).2.2 = n + its.length := by
  induction its generalizing n with
  | nil => simp [renderItemsSeq, List.range']
  | cons a rest ih =>
    obtain ⟨h1, h2⟩ := ih (n + 1)
    constructor
    · simp only [renderItemsSeq, List.map_cons, h1, List.length_cons]
      rw [List.range']
    · simp only [renderItemsSeq, h2, List.length_cons]
      omega

theorem renderTopicsGen_nums (gs : List (String × List ContextItem)) (n : Nat) :
    (renderTopicsGen gs n).2.1.map (·.1) =
      List.range' n (renderTopicsGen gs n).2.1.length ∧
    (renderTopicsGen gs n).2.2 = n + (renderTopicsGen gs n).2.1.length := by
  induction gs generalizing n with
  | nil => simp [renderTopicsGen, List.range']
  | cons g rest ih =>
    obtain ⟨topic, its⟩ := g
    obtain ⟨o1, o2⟩ := renderItemsSeq_nums its n
    obtain ⟨m1, m2⟩ := ih (renderItemsSeq its n).2.2
    have hlen1 : (renderItemsSeq its n).2.1.length = its.length := by
      have := congrArg List.length o1
      simpa using this
    rw [o2] at m1 m2
    constructor
    · simp only [renderTopicsGen, List.map_append, o1, o2, m1, List.length_append, hlen1]
      have h3 := List.range'_append n its.length
        (renderTopicsGen rest (n + its.length)).2.1.length 1
      rw [show (its.length + (renderTopicsGen rest (n + its.length)).2.1.length : Nat) =
        (renderTopicsGen rest (n + its.length)).2.1.length + its.length by omega]
      simpa using h3
    · simp only [renderTopicsGen, o2, m2, List.length_append, hlen1]
      omega

theorem renderTopicsApp_nums (main : String) (gs : List (String × List ContextItem))
    (n : Nat) :
    (renderTopicsApp main gs n).2.1.map (·.1) =
      List.range' n (renderTopicsApp main gs n).2.1.length ∧
    (renderTopicsApp main gs n).2.2 = n + (renderTopicsApp main gs n).2.1.length := by
  induction gs generalizing n with
  | nil => simp [renderTopicsApp, List.range']
  | cons g rest ih =>
    obtain ⟨topic, its⟩ := g
    obtain ⟨o1, o2⟩ := renderItemsSeq_nums its n
    obtain ⟨m1, m2⟩ := ih (renderItemsSeq its n).2.2
    have hlen1 : (renderItemsSeq its n).2.1.length = its.length := by
      have := congrArg List.length o1
      simpa using this
    rw [o2] at m1 m2
    constructor
    · simp only [renderTopicsApp, List.map_append, o1, o2, m1, List.length_append, hlen1]
      have h3 := List.range'_append n its.length
        (renderTopicsApp main rest (n + its.length)).2.1.length 1
      rw [show (its.length + (renderTopicsApp main rest (n + its.length)).2.1.length : Nat) =
        (renderTopicsApp main rest (n + its.length)).2.1.length + its.length by omega]
      simpa using h3
    · simp only [renderTopicsApp, o2, m2, List.length_append, hlen1]
      omega

theorem range'_pairwise_lt (s n : Nat) : (List.range' s n).Pairwise (· < ·) := by
  induction n generalizing s with
  | zero => exact List.Pairwise.nil
  | succ n ih =>
    rw [List.range']
    refine List.Pairwise.cons ?_ (ih (s + 1))
    intro m hm
    have := (List.mem_range'_1.1 hm).1
    omega

/-- A dedicated element-occurrence form for joined line lists. -/
theorem joinSep_elem (sep : List Char) (P : List (List Char)) (x : List Char)
    (S : List (List Char)) :
    ∃ a b, joinSep sep (P ++ x :: S) = a ++ (x ++ b) := by
  cases P with
  | nil =>
    obtain ⟨r, hr⟩ := joinSep_head sep x S
    exact ⟨[], r, by simpa using hr⟩
  | cons p P1 =>
    obtain ⟨a, r, h⟩ := joinSep_split sep (p :: P1) x S (by simp)
    exact ⟨a ++ sep, r, by rw [h]; simp [List.append_assoc]⟩

theorem joinLines_elem (P : List String) (x : String) (S : List String) :
    ∃ a b, (joinLines (P ++ x :: S)).data = a ++ (x.data ++ b) := by
  obtain ⟨a, b, h⟩ := joinSep_elem ['\n'] (P.map String.data) x.data (S.map String.data)
  refine ⟨a, b, ?_⟩
  show joinSep ['\n'] ((P ++ x :: S).map String.data) = _
  rw [List.map_append, List.map_cons, h]

/-! ### Marker-pattern character facts and footer layout lemmas -/

theorem pyDigit_not_ws {c : Char} (h : pyDigit c = true) : pyWs c = false := by
  simp only [pyDigit, Bool.and_eq_true, decide_eq_true_eq] at h
  obtain ⟨h1, h2⟩ := h
  simp only [pyWs, Bool.or_eq_false_iff, decide_eq_false_iff_not]
  refine ⟨⟨⟨⟨⟨?_, ?_⟩, ?_⟩, ?_⟩, ?_⟩, ?_⟩ <;>
    · intro he
      subst he
      revert h1 h2
      decide

theorem rnPat_ne_nil (n : Nat) : rnPat n ≠ [] := by
  simp [rnPat]

theorem rnPat_not_ws (n : Nat) : ∀ c ∈ rnPat n, pyWs c = false := by
  intro c hc
  simp only [rnPat] at hc
  rcases List.mem_cons.1 hc with rfl | hc2
  · decide
  · rcases List.mem_append.1 hc2 with h3 | h3
    · exact pyDigit_not_ws (natChars_all_digit n c h3)
    · rcases List.mem_cons.1 h3 with rfl | h4
      · decide
      · rcases List.mem_cons.1 h4 with rfl | h5
        · decide
        · exact absurd h5 (List.not_mem_nil _)

/-- A reference line opens with the bare marker. -/
theorem refLine_rnPat (n : Nat) (u s : String) :
    ∃ t, (refLine (n, u, s)).data = rnPat n ++ t := by
  refine ⟨' ' :: (u.data ++ [' ']) ++ ('"' :: (s.data ++ ['"'])), ?_⟩
  rw [refLine_data]
  unfold urlPat rnPat
  simp [List.append_assoc]

theorem joinSep_append_ne (sep : List Char) (P : List (List Char)) (x : List Char)
    (S : List (List Char)) (hP : P ≠ []) :
    joinSep sep (P ++ x :: S) = joinSep sep P ++ sep ++ joinSep sep (x :: S) := by
  induction P with
  | nil => exact absurd rfl hP
  | cons p P1 ih =>
    cases P1 with
    | nil => rfl
    | cons p2 P2 =>
      rw [show joinSep sep ((p :: p2 :: P2) ++ x :: S) =
        p ++ sep ++ joinSep sep ((p2 :: P2) ++ x :: S) from rfl]
      rw [ih (by simp)]
      rw [show joinSep sep (p :: p2 :: P2) = p ++ sep ++ joinSep sep (p2 :: P2) from rfl]
      simp [List.append_assoc]

/-- Layout of the rebuilt footer: a separator block, then a references
header, then the joined reference tail. -/
theorem joinLines_footer_block (m0 : String) (MIDr : List String) (old : String)
    (NRL : List String) :
    ∃ v, (joinLines (("" :: "---" :: "" :: m0 :: MIDr) ++
        "## References" :: "" :: old :: NRL)).data =
      sepPat ++ (v ++ (hdrPat ++ joinSep ['\n'] ((old :: NRL).map String.data))) := by
  have hpre : joinSep ['\n'] (("" :: "---" :: "" :: m0 :: MIDr).map String.data) =
      sepPat ++ '\n' :: joinSep ['\n'] ((m0 :: MIDr).map String.data) := by
    rw [show (("" :: "---" :: "" :: m0 :: MIDr).map String.data) =
      [] :: "---".data :: [] :: (m0 :: MIDr).map String.data from rfl]
    rw [show joinSep ['\n'] ([] :: "---".data :: [] :: (m0 :: MIDr).map String.data) =
      [] ++ ['\n'] ++ joinSep ['\n'] ("---".data :: [] :: (m0 :: MIDr).map String.data)
      from rfl]
    rw [show joinSep ['\n'] ("---".data :: [] :: (m0 :: MIDr).map String.data) =
      "---".data ++ ['\n'] ++ joinSep ['\n'] ([] :: (m0 :: MIDr).map String.data) from rfl]
    rw [show joinSep ['\n'] ([] :: (m0 :: MIDr).map String.data) =
      [] ++ ['\n'] ++ joinSep ['\n'] ((m0 :: MIDr).map String.data) from rfl]
    simp [sepPat]
  have hx : joinSep ['\n'] ("## References".data :: List.map String.data ("" :: old :: NRL)) =
      "## References".data ++ ['\n', '\n'] ++
        joinSep ['\n'] ((old :: NRL).map String.data) := by
    rw [show (List.map String.data ("" :: old :: NRL)) =
      [] :: (old :: NRL).map String.data from rfl]
    rw [show joinSep ['\n'] ("## References".data :: [] :: (old :: NRL).map String.data) =
      "## References".data ++ ['\n'] ++
        joinSep ['\n'] ([] :: (old :: NRL).map String.data) from rfl]
    rw [show joinSep ['\n'] ([] :: (old :: NRL).map String.data) =
      [] ++ ['\n'] ++ joinSep ['\n'] ((old :: NRL).map String.data) from rfl]
    simp [List.append_assoc]
  refine ⟨'\n' :: joinSep ['\n'] ((m0 :: MIDr).map String.data) ++ ['\n'], ?_⟩
  show joinSep ['\n'] ((("" :: "---" :: "" :: m0 :: MIDr) ++
    "## References" :: "" :: old :: NRL).map String.data) = _
  rw [List.map_append]
  rw [show List.map String.data ("## References" :: "" :: old :: NRL) =
    "## References".data :: List.map String.data ("" :: old :: NRL) from rfl]
  rw [joinSep_append_ne ['\n'] _ _ _ (by simp)]
  rw [hpre, hx]
  rw [show hdrPat = "## References".data ++ ['\n', '\n'] from rfl]
  simp [List.append_assoc]

/-! ### The reference-numbering invariant -/

/-- `main_content` of `_append_to_existing` (everything before the first
`\n---\n`, right-stripped). -/
def mainContent (doc : String) : String :=
  pyRstrip ⟨doc.data.take ((findSub sepPat doc.data).getD doc.data.length)⟩

/-- The reference triples a single append assigns. -/
def newRefsOf (doc : String) (grouped : List (String × List ContextItem)) :
    List (Nat × String × String) :=
  (renderTopicsApp (mainContent doc) grouped (nextRefNum doc)).2.1

/-- The reference numbers a single append assigns. -/
def assignedNums (doc : String) (grouped : List (String × List ContextItem)) :
    List Nat :=
  (newRefsOf doc grouped).map (·.1)

/-- Document invariant: a separator exists, and (when any number was ever
assigned) a references header exists after a separator, with every assigned
number's `[n]:` marker in its tail. -/
def RefInv (doc : String) (A : List Nat) : Prop :=
  (∃ u v, doc.data = u ++ (sepPat ++ v)) ∧
  (A = [] ∨ ∃ u v w, doc.data = u ++ (sepPat ++ (v ++ (hdrPat ++ w))) ∧
    ∀ n ∈ A, ∃ p q, w = p ++ rnPat n ++ q)

theorem joinLines_sep_head (m0 : String) (REST : List String) :
    (joinLines ("" :: "---" :: "" :: m0 :: REST)).data =
      sepPat ++ '\n' :: joinSep ['\n'] ((m0 :: REST).map String.data) := by
  show joinSep ['\n'] (("" :: "---" :: "" :: m0 :: REST).map String.data) = _
  rw [show (("" :: "---" :: "" :: m0 :: REST).map String.data) =
    [] :: "---".data :: [] :: (m0 :: REST).map String.data from rfl]
  rw [show joinSep ['\n'] ([] :: "---".data :: [] :: (m0 :: REST).map String.data) =
    [] ++ ['\n'] ++ joinSep ['\n'] ("---".data :: [] :: (m0 :: REST).map String.data)
    from rfl]
  rw [show joinSep ['\n'] ("---".data :: [] :: (m0 :: REST).map String.data) =
    "---".data ++ ['\n'] ++ joinSep ['\n'] ([] :: (m0 :: REST).map String.data) from rfl]
  rw [show joinSep ['\n'] ([] :: (m0 :: REST).map String.data) =
    [] ++ ['\n'] ++ joinSep ['\n'] ((m0 :: REST).map String.data) from rfl]
  simp [sepPat]

/-- The rebuilt footer always starts with the separator. -/
theorem appendFooter_sep (F today : String) (new_items : List ContextItem)
    (refs : List (Nat × String × String)) :
    ∃ t, (appendFooter F today new_items refs).data = sepPat ++ t := by
  simp only [appendFooter]
  have hsh : (["", "---", "", "## Sources Consulted", "",
        "| Source | Items Found | Last Updated |",
        "|--------|-------------|--------------|"] ++
      (sortPairs (appendCounts F new_items)).map (tableRow today) ++ [""]) ++
      (match findSub hdrPat F.data with
        | some p => ["## References", "",
            pyStrip ⟨F.data.drop (p + hdrPat.length)⟩]
        | none => []) ++
      (if refs.isEmpty = true then []
       else (if (findSub hdrPat F.data).isNone = true then ["## References", ""] else []) ++
         refs.map refLine ++ [""]) =
      "" :: "---" :: "" :: "## Sources Consulted" ::
        ("" :: "| Source | Items Found | Last Updated |" ::
          "|--------|-------------|--------------|" ::
          (((sortPairs (appendCounts F new_items)).map (tableRow today) ++ [""]) ++
            ((match findSub hdrPat F.data with
              | some p => ["## References", "",
                  pyStrip ⟨F.data.drop (p + hdrPat.length)⟩]
              | none => []) ++
            (if refs.isEmpty = true then []
             else (if (findSub hdrPat F.data).isNone = true then ["## References", ""]
               else []) ++ refs.map refLine ++ [""])))) := by
    simp [List.append_assoc]
  rw [hsh, joinLines_sep_head]
  exact ⟨_, rfl⟩

/-- Footer layout when the old footer already has a references header. -/
theorem appendFooter_block_some (F today : String) (new_items : List ContextItem)
    (refs : List (Nat × String × String)) (p2 : Nat)
    (hfsec : findSub hdrPat F.data = some p2) :
    ∃ v, (appendFooter F today new_items refs).data =
      sepPat ++ (v ++ (hdrPat ++ joinSep ['\n']
        ((pyStrip ⟨F.data.drop (p2 + hdrPat.length)⟩ ::
          (if refs.isEmpty = true then [] else refs.map refLine ++ [""])).map
          String.data))) := by
  obtain ⟨v, hv⟩ := joinLines_footer_block "## Sources Consulted"
    ("" :: "| Source | Items Found | Last Updated |" ::
      "|--------|-------------|--------------|" ::
      ((sortPairs (appendCounts F new_items)).map (tableRow today) ++ [""]))
    (pyStrip ⟨F.data.drop (p2 + hdrPat.length)⟩)
    (if refs.isEmpty = true then [] else refs.map refLine ++ [""])
  refine ⟨v, ?_⟩
  simp only [appendFooter, hfsec, Option.isNone_some, Bool.false_eq_true, if_false,
    List.nil_append]
  have harg : (["", "---", "", "## Sources Consulted", "",
        "| Source | Items Found | Last Updated |",
        "|--------|-------------|--------------|"] ++
      (sortPairs (appendCounts F new_items)).map (tableRow today) ++ [""]) ++
      ["## References", "", pyStrip ⟨F.data.drop (p2 + hdrPat.length)⟩] ++
      (if refs.isEmpty = true then [] else refs.map refLine ++ [""]) =
      ("" :: "---" :: "" :: "## Sources Consulted" ::
        ("" :: "| Source | Items Found | Last Updated |" ::
          "|--------|-------------|--------------|" ::
          ((sortPairs (appendCounts F new_items)).map (tableRow today) ++ [""]))) ++
      "## References" :: "" :: pyStrip ⟨F.data.drop (p2 + hdrPat.length)⟩ ::
        (if refs.isEmpty = true then [] else refs.map refLine ++ [""]) := by
    simp [List.append_assoc]
  rw [harg]
  exact hv

/-- Footer layout when the old footer has no references header and there are
new references. -/
theorem appendFooter_block_none (F today : String) (new_items : List ContextItem)
    (r1 : Nat × String × String) (rr : List (Nat × String × String))
    (hfsec : findSub hdrPat F.data = none) :
    ∃ v, (appendFooter F today new_items (r1 :: rr)).data =
      sepPat ++ (v ++ (hdrPat ++ joinSep ['\n']
        ((refLine r1 :: (rr.map refLine ++ [""])).map String.data))) := by
  obtain ⟨v, hv⟩ := joinLines_footer_block "## Sources Consulted"
    ("" :: "| Source | Items Found | Last Updated |" ::
      "|--------|-------------|--------------|" ::
      ((sortPairs (appendCounts F new_items)).map (tableRow today) ++ [""]))
    (refLine r1) (rr.map refLine ++ [""])
  refine ⟨v, ?_⟩
  simp only [appendFooter, hfsec, Option.isNone_none, List.isEmpty_cons,
    Bool.false_eq_true, if_false, if_true, List.nil_append, List.append_nil]
  have harg : (["", "---", "", "## Sources Consulted", "",
        "| Source | Items Found | Last Updated |",
        "|--------|-------------|--------------|"] ++
      (sortPairs (appendCounts F new_items)).map (tableRow today) ++ [""]) ++
      (["## References", ""] ++ (r1 :: rr).map refLine ++ [""]) =
      ("" :: "---" :: "" :: "## Sources Consulted" ::
        ("" :: "| Source | Items Found | Last Updated |" ::
          "|--------|-------------|--------------|" ::
          ((sortPairs (appendCounts F new_items)).map (tableRow today) ++ [""]))) ++
      "## References" :: "" :: refLine r1 :: (rr.map refLine ++ [""]) := by
    simp [List.append_assoc]
  rw [harg]
  exact hv

theorem refLine_fst_rnPat (r : Nat × String × String) :
    ∃ t, (refLine r).data = rnPat r.1 ++ t := refLine_rnPat r.1 r.2.1 r.2.2

theorem joinSep_head_pat {x : List Char} {S : List (List Char)} {pat p q : List Char}
    (hx : x = p ++ pat ++ q) : ∃ a b, joinSep ['\n'] (x :: S) = a ++ pat ++ b := by
  obtain ⟨r, hr⟩ := joinSep_head ['\n'] x S
  exact ⟨p, q ++ r, by rw [hr, hx]; simp [List.append_assoc]⟩

theorem joinSep_elem_pat {L : List (List Char)} {x pat t : List Char}
    (P S : List (List Char)) (hL : L = P ++ x :: S) (hx : x = pat ++ t) :
    ∃ a b, joinSep ['\n'] L = a ++ pat ++ b := by
  obtain ⟨a, b, h⟩ := joinSep_elem ['\n'] P x S
  exact ⟨a, t ++ b, by rw [hL, h, hx]; simp [List.append_assoc]⟩

/-- One append step: the invariant is preserved, the newly assigned numbers
are the consecutive run starting at `nextRefNum`, and every previously
assigned number is strictly below that start. -/
theorem appendToExisting_inv (doc tid : String) (new_items : List ContextItem)
    (grouped : List (String × List ContextItem)) (today : String) (A : List Nat)
    (hinv : RefInv doc A) :
    RefInv (appendToExisting doc tid new_items grouped today)
      (A ++ assignedNums doc grouped) ∧
    assignedNums doc grouped =
      List.range' (nextRefNum doc) (assignedNums doc grouped).length ∧
    (∀ n ∈ A, n < nextRefNum doc) := by
  have hnums : assignedNums doc grouped =
      List.range' (nextRefNum doc) (assignedNums doc grouped).length := by
    obtain ⟨h1, _⟩ := renderTopicsApp_nums (mainContent doc) grouped (nextRefNum doc)
    unfold assignedNums newRefsOf
    rw [h1, List.length_range']
  have hgtA : ∀ n ∈ A, n < nextRefNum doc := by
    intro n hn
    rcases hinv.2 with hA | ⟨u1, v1, w1, hdec, hpats⟩
    · rw [hA] at hn
      exact absurd hn (List.not_mem_nil _)
    · obtain ⟨p, q, hw⟩ := hpats n hn
      have hdoc2 : doc.data = (u1 ++ sepPat ++ v1 ++ hdrPat ++ p) ++ (rnPat n ++ q) := by
        rw [hdec, hw]
        simp [List.append_assoc]
      exact nextRefNum_gt hdoc2
  refine ⟨?_, hnums, hgtA⟩
  -- layout facts for the step
  obtain ⟨u0, v0, h0⟩ := hinv.1
  have h0' : doc.data = u0 ++ sepPat ++ v0 := by
    rw [h0]
    simp [List.append_assoc]
  obtain ⟨j, hj, hjle⟩ := findSub_of_occurs h0'
  obtain ⟨p0, q0, hp0, hp0len⟩ := findSub_spec hj
  have hfootdata : doc.data.drop ((findSub sepPat doc.data).getD doc.data.length) =
      sepPat ++ q0 := by
    rw [hj]
    show doc.data.drop j = _
    rw [hp0, List.append_assoc, ← hp0len, List.drop_left]
  have hFne : (⟨doc.data.drop ((findSub sepPat doc.data).getD doc.data.length)⟩ :
      String) ≠ "" := by
    intro hcon
    have h2 := congrArg String.data hcon
    rw [show (⟨doc.data.drop ((findSub sepPat doc.data).getD doc.data.length)⟩ :
      String).data = doc.data.drop ((findSub sepPat doc.data).getD doc.data.length)
      from rfl] at h2
    rw [hfootdata] at h2
    simp [sepPat] at h2
  have happ : appendToExisting doc tid new_items grouped today =
      mainContent doc ++
        joinLines (renderTopicsApp (mainContent doc) grouped (nextRefNum doc)).1 ++
        appendFooter ⟨doc.data.drop ((findSub sepPat doc.data).getD doc.data.length)⟩
          today new_items (newRefsOf doc grouped) := by
    simp only [appendToExisting, mainContent, newRefsOf]
    rw [if_neg hFne]
  have hdocd : (appendToExisting doc tid new_items grouped today).data =
      ((mainContent doc).data ++
        (joinLines (renderTopicsApp (mainContent doc) grouped (nextRefNum doc)).1).data) ++
        (appendFooter ⟨doc.data.drop ((findSub sepPat doc.data).getD doc.data.length)⟩
          today new_items (newRefsOf doc grouped)).data := by
    rw [happ]
    simp only [strData_append]
  -- first conjunct of the invariant
  obtain ⟨t0, ht0⟩ := appendFooter_sep
    ⟨doc.data.drop ((findSub sepPat doc.data).getD doc.data.length)⟩
    today new_items (newRefsOf doc grouped)
  refine ⟨⟨(mainContent doc).data ++
      (joinLines (renderTopicsApp (mainContent doc) grouped (nextRefNum doc)).1).data,
    t0, by rw [hdocd, ht0]⟩, ?_⟩
  -- second conjunct
  -- `A nonempty forces a references header in the old footer`
  have hAhdr : A ≠ [] → ∃ p2, findSub hdrPat
      (doc.data.drop ((findSub sepPat doc.data).getD doc.data.length)) = some p2 := by
    intro hAne
    rcases hinv.2 with hA | ⟨u1, v1, w1, hdec, hpats⟩
    · exact absurd hA hAne
    · have h1' : doc.data = u1 ++ sepPat ++ (v1 ++ (hdrPat ++ w1)) := by
        rw [hdec]
        simp [List.append_assoc]
      obtain ⟨j2, hj2, hj2le⟩ := findSub_of_occurs h1'
      have hj2j : j2 = j := by
        have := hj2.symm.trans hj
        exact Option.some.inj this
      have hjle1 : j ≤ u1.length := by omega
      have hFd : doc.data.drop ((findSub sepPat doc.data).getD doc.data.length) =
          u1.drop j ++ (sepPat ++ (v1 ++ (hdrPat ++ w1))) := by
        rw [hj]
        show doc.data.drop j = _
        rw [hdec]
        exact List.drop_append_of_le_length hjle1
      have hFd' : doc.data.drop ((findSub sepPat doc.data).getD doc.data.length) =
          (u1.drop j ++ sepPat ++ v1) ++ hdrPat ++ w1 := by
        rw [hFd]
        simp [List.append_assoc]
      obtain ⟨p2, hp2, _⟩ := findSub_of_occurs hFd'
      exact ⟨p2, hp2⟩
  cases hsec : findSub hdrPat
      (doc.data.drop ((findSub sepPat doc.data).getD doc.data.length)) with
  | some p2 =>
    -- the kept old-references text still holds every old marker
    have hkeep : ∀ n ∈ A, ∃ p q,
        (pyStrip ⟨(doc.data.drop ((findSub sepPat doc.data).getD doc.data.length)).drop
          (p2 + hdrPat.length)⟩).data = p ++ rnPat n ++ q := by
      intro n hn
      have hAne : A ≠ [] := List.ne_nil_of_mem hn
      rcases hinv.2 with hA | ⟨u1, v1, w1, hdec, hpats⟩
      · exact absurd hA hAne
      · have h1' : doc.data = u1 ++ sepPat ++ (v1 ++ (hdrPat ++ w1)) := by
          rw [hdec]
          simp [List.append_assoc]
        obtain ⟨j2, hj2, hj2le⟩ := findSub_of_occurs h1'
        have hj2j : j2 = j := Option.some.inj (hj2.symm.trans hj)
        have hjle1 : j ≤ u1.length := by omega
        have hFd : doc.data.drop ((findSub sepPat doc.data).getD doc.data.length) =
            u1.drop j ++ (sepPat ++ (v1 ++ (hdrPat ++ w1))) := by
          rw [hj]
          show doc.data.drop j = _
          rw [hdec]
          exact List.drop_append_of_le_length hjle1
        have hFd' : doc.data.drop ((findSub sepPat doc.data).getD doc.data.length) =
            (u1.drop j ++ sepPat ++ v1) ++ hdrPat ++ w1 := by
          rw [hFd]
          simp [List.append_assoc]
        obtain ⟨p2x, hp2x, hp2xle⟩ := findSub_of_occurs hFd'
        have hp2x2 : p2x = p2 := Option.some.inj (hp2x.symm.trans hsec)
        obtain ⟨p3, q3, hF2, hp3len⟩ := findSub_spec hsec
        have hq3 : (doc.data.drop ((findSub sepPat doc.data).getD doc.data.length)).drop
            (p2 + hdrPat.length) = q3 := by
          rw [show (doc.data.drop ((findSub sepPat doc.data).getD doc.data.length)) =
            (p3 ++ hdrPat) ++ q3 by rw [hF2]]
          rw [show p2 + hdrPat.length = (p3 ++ hdrPat).length by
            simp [List.length_append, hp3len]]
          exact List.drop_left _ _
        have hw1d : (doc.data.drop ((findSub sepPat doc.data).getD doc.data.length)).drop
            ((u1.drop j ++ sepPat ++ v1).length + hdrPat.length) = w1 := by
          rw [show (doc.data.drop ((findSub sepPat doc.data).getD doc.data.length)) =
            ((u1.drop j ++ sepPat ++ v1) ++ hdrPat) ++ w1 by rw [hFd']]
          rw [show (u1.drop j ++ sepPat ++ v1).length + hdrPat.length =
            ((u1.drop j ++ sepPat ++ v1) ++ hdrPat).length by
              simp only [List.length_append]]
          exact List.drop_left _ _
        obtain ⟨e, he⟩ := drop_sub_drop
          (doc.data.drop ((findSub sepPat doc.data).getD doc.data.length))
          (p2 + hdrPat.length) ((u1.drop j ++ sepPat ++ v1).length + hdrPat.length)
          (by omega)
        rw [hq3, hw1d] at he
        obtain ⟨p, q, hw⟩ := hpats n hn
        have hq3w : (⟨(doc.data.drop ((findSub sepPat doc.data).getD
            doc.data.length)).drop (p2 + hdrPat.length)⟩ : String).data =
            (e ++ p) ++ rnPat n ++ q := by
          show (doc.data.drop ((findSub sepPat doc.data).getD doc.data.length)).drop
            (p2 + hdrPat.length) = _
          rw [hq3, he, hw]
          simp [List.append_assoc]
        obtain ⟨p4, q4, h4⟩ := pyStrip_keep (rnPat_ne_nil n) (rnPat_not_ws n) hq3w
        exact ⟨p4, q4, h4⟩
    obtain ⟨v2, hblock⟩ := appendFooter_block_some
      ⟨doc.data.drop ((findSub sepPat doc.data).getD doc.data.length)⟩
      today new_items (newRefsOf doc grouped) p2 hsec
    refine Or.inr ⟨(mainContent doc).data ++
      (joinLines (renderTopicsApp (mainContent doc) grouped (nextRefNum doc)).1).data,
      v2, _, by rw [hdocd, hblock], ?_⟩
    intro n hn
    rcases List.mem_append.1 hn with hnA | hnAs
    · exact joinSep_head_pat (hkeep n hnA).choose_spec.choose_spec
    · obtain ⟨r, hr, hrn⟩ := List.mem_map.1 hnAs
      have hrne : (newRefsOf doc grouped).isEmpty = false :=
        List.isEmpty_eq_false.2 (List.ne_nil_of_mem hr)
      obtain ⟨R1, R2, hR⟩ := List.append_of_mem hr
      obtain ⟨t, ht⟩ := refLine_fst_rnPat r
      have hxeq : (refLine r).data = rnPat n ++ t := by rw [ht, hrn]
      refine joinSep_elem_pat
        ((pyStrip ⟨(doc.data.drop ((findSub sepPat doc.data).getD
          doc.data.length)).drop (p2 + hdrPat.length)⟩).data ::
          (R1.map refLine).map String.data)
        (((R2.map refLine ++ [""]).map String.data)) ?_ hxeq
      rw [hrne]
      simp only [Bool.false_eq_true, if_false, hR]
      simp [List.append_assoc]
  | none =>
    have hAe : A = [] := by
      by_cases hA : A = []
      · exact hA
      · obtain ⟨p2, hp2⟩ := hAhdr hA
        rw [hsec] at hp2
        exact absurd hp2 (by simp)
    cases hrefs : newRefsOf doc grouped with
    | nil =>
      left
      simp [hAe, assignedNums, hrefs]
    | cons r1 rr =>
      obtain ⟨v2, hblock⟩ := appendFooter_block_none
        ⟨doc.data.drop ((findSub sepPat doc.data).getD doc.data.length)⟩
        today new_items r1 rr hsec
      rw [← hrefs] at hblock
      refine Or.inr ⟨(mainContent doc).data ++
        (joinLines (renderTopicsApp (mainContent doc) grouped (nextRefNum doc)).1).data,
        v2, _, by rw [hdocd, hblock], ?_⟩
      intro n hn
      rcases List.mem_append.1 hn with hnA | hnAs
      · rw [hAe] at hnA
        exact absurd hnA (List.not_mem_nil _)
      · obtain ⟨r, hr, hrn⟩ := List.mem_map.1 hnAs
        rw [hrefs] at hr
        obtain ⟨t, ht⟩ := refLine_fst_rnPat r
        rcases List.mem_cons.1 hr with rfl | hr2
        · exact joinSep_head_pat (show (refLine r).data = [] ++ rnPat n ++ t by
            rw [ht, hrn]; rfl)
        · obtain ⟨R1, R2, hR⟩ := List.append_of_mem hr2
          have hxeq : (refLine r).data = rnPat n ++ t := by rw [ht, hrn]
          refine joinSep_elem_pat
            ((refLine r1).data :: (R1.map refLine).map String.data)
            ((R2.map refLine ++ [""]).map String.data) ?_ hxeq
          rw [hR]
          simp [List.append_assoc]

theorem joinLines_sep_mid (P : List String) (s0 : String) (S : List String)
    (hP : P ≠ []) :
    ∃ a b, (joinLines (P ++ "---" :: s0 :: S)).data = a ++ sepPat ++ b := by
  refine ⟨joinSep ['\n'] (P.map String.data),
    joinSep ['\n'] ((s0 :: S).map String.data), ?_⟩
  show joinSep ['\n'] ((P ++ "---" :: s0 :: S).map String.data) = _
  rw [List.map_append]
  rw [show List.map String.data ("---" :: s0 :: S) =
    "---".data :: (s0 :: S).map String.data from rfl]
  rw [joinSep_append_ne ['\n'] _ _ _ (by simpa using hP)]
  rw [show joinSep ['\n'] ("---".data :: (s0 :: S).map String.data) =
    "---".data ++ ['\n'] ++ joinSep ['\n'] ((s0 :: S).map String.data) from rfl]
  simp [sepPat, List.append_assoc]

theorem joinLines_doc_block (P : List String) (s0 : String) (M : List String)
    (x : String) (NRL : List String) (hP : P ≠ []) :
    ∃ a b, (joinLines (P ++ "---" :: s0 ::
        (M ++ "## References" :: "" :: x :: NRL))).data =
      a ++ (sepPat ++ (b ++ (hdrPat ++
        joinSep ['\n'] ((x :: NRL).map String.data)))) := by
  refine ⟨joinSep ['\n'] (P.map String.data),
    joinSep ['\n'] ((s0 :: M).map String.data) ++ ['\n'], ?_⟩
  show joinSep ['\n'] ((P ++ "---" :: s0 ::
    (M ++ "## References" :: "" :: x :: NRL)).map String.data) = _
  rw [List.map_append]
  rw [show List.map String.data ("---" :: s0 :: (M ++ "## References" :: "" :: x :: NRL)) =
    "---".data :: (s0 :: (M ++ "## References" :: "" :: x :: NRL)).map String.data
    from rfl]
  rw [joinSep_append_ne ['\n'] _ _ _ (by simpa using hP)]
  rw [show joinSep ['\n'] ("---".data ::
      (s0 :: (M ++ "## References" :: "" :: x :: NRL)).map String.data) =
    "---".data ++ ['\n'] ++
      joinSep ['\n'] ((s0 :: (M ++ "## References" :: "" :: x :: NRL)).map String.data)
    from rfl]
  rw [show ((s0 :: (M ++ "## References" :: "" :: x :: NRL)).map String.data) =
    ((s0 :: M).map String.data) ++
      ("## References".data :: List.map String.data ("" :: x :: NRL)) by simp]
  rw [joinSep_append_ne ['\n'] _ _ _ (by simp)]
  rw [show joinSep ['\n'] ("## References".data :: List.map String.data ("" :: x :: NRL)) =
    "## References".data ++ ['\n'] ++
      joinSep ['\n'] (List.map String.data ("" :: x :: NRL)) from rfl]
  rw [show (List.map String.data ("" :: x :: NRL)) =
    [] :: (x :: NRL).map String.data from rfl]
  rw [show joinSep ['\n'] ([] :: (x :: NRL).map String.data) =
    [] ++ ['\n'] ++ joinSep ['\n'] ((x :: NRL).map String.data) from rfl]
  rw [show hdrPat = "## References".data ++ ['\n', '\n'] from rfl]
  simp [sepPat, List.append_assoc]

/-- The freshly generated document satisfies the invariant for its assigned
numbers. -/
theorem generateMarkdown_inv (tid : String) (items : List ContextItem)
    (grouped : List (String × List ContextItem)) (today : String) :
    RefInv (generateMarkdown tid items grouped today)
      ((renderTopicsGen grouped 1).2.1.map (·.1)) := by
  constructor
  · rw [generateMarkdown_eq]
    obtain ⟨a, b, h⟩ := joinLines_sep_mid
      (("# Context: " ++ ((items.find? (fun it => it.item_type == "ticket" &&
          strContains it.title tid)).map (·.title)).getD tid) ::
        ([""] ++ (renderTopicsGen grouped 1).1)) ""
      ("## Sources Consulted" :: "" ::
        "| Source | Items Found | Last Updated |" ::
        "|--------|-------------|--------------|" ::
        ((sortPairs (countFold [] items)).map (tableRow today) ++ [""] ++
          (if (renderTopicsGen grouped 1).2.1.isEmpty then []
           else ["## References", ""] ++ (renderTopicsGen grouped 1).2.1.map refLine ++
             [""]))) (by simp)
    refine ⟨a, b, ?_⟩
    rw [show (("# Context: " ++ ((items.find? (fun it => it.item_type == "ticket" &&
          strContains it.title tid)).map (·.title)).getD tid) ::
        ((((([""] ++ (renderTopicsGen grouped 1).1) ++
          ["---", "", "## Sources Consulted", "",
            "| Source | Items Found | Last Updated |",
            "|--------|-------------|--------------|"]) ++
          (sortPairs (countFold [] items)).map (tableRow today)) ++ [""]) ++
          (if (renderTopicsGen grouped 1).2.1.isEmpty then []
           else ["## References", ""] ++ (renderTopicsGen grouped 1).2.1.map refLine ++
             [""]))) =
      (("# Context: " ++ ((items.find? (fun it => it.item_type == "ticket" &&
          strContains it.title tid)).map (·.title)).getD tid) ::
        ([""] ++ (renderTopicsGen grouped 1).1)) ++ "---" :: "" ::
        ("## Sources Consulted" :: "" ::
          "| Source | Items Found | Last Updated |" ::
          "|--------|-------------|--------------|" ::
          ((sortPairs (countFold [] items)).map (tableRow today) ++ [""] ++
            (if (renderTopicsGen grouped 1).2.1.isEmpty then []
             else ["## References", ""] ++
               (renderTopicsGen grouped 1).2.1.map refLine ++ [""]))) by
      simp [List.append_assoc]]
    rw [h]
    simp [List.append_assoc]
  · cases hrefs : (renderTopicsGen grouped 1).2.1 with
    | nil =>
      left
      rfl
    | cons r1 rr =>
      right
      have hemp : (renderTopicsGen grouped 1).2.1.isEmpty = false := by
        rw [hrefs]
        rfl
      obtain ⟨a, b, h⟩ := joinLines_doc_block
        (("# Context: " ++ ((items.find? (fun it => it.item_type == "ticket" &&
            strContains it.title tid)).map (·.title)).getD tid) ::
          ([""] ++ (renderTopicsGen grouped 1).1)) ""
        ("## Sources Consulted" :: "" ::
          "| Source | Items Found | Last Updated |" ::
          "|--------|-------------|--------------|" ::
          ((sortPairs (countFold [] items)).map (tableRow today) ++ [""]))
        (refLine r1) (rr.map refLine ++ [""]) (by simp)
      refine ⟨a, b, joinSep ['\n'] ((refLine r1 :: (rr.map refLine ++ [""])).map
        String.data), ?_, ?_⟩
      · rw [generateMarkdown_eq]
        rw [show (("# Context: " ++ ((items.find? (fun it => it.item_type == "ticket" &&
              strContains it.title tid)).map (·.title)).getD tid) ::
            ((((([""] ++ (renderTopicsGen grouped 1).1) ++
              ["---", "", "## Sources Consulted", "",
                "| Source | Items Found | Last Updated |",
                "|--------|-------------|--------------|"]) ++
              (sortPairs (countFold [] items)).map (tableRow today)) ++ [""]) ++
              (if (renderTopicsGen grouped 1).2.1.isEmpty then []
               else ["## References", ""] ++
                 (renderTopicsGen grouped 1).2.1.map refLine ++ [""]))) =
          (("# Context: " ++ ((items.find? (fun it => it.item_type == "ticket" &&
              strContains it.title tid)).map (·.title)).getD tid) ::
            ([""] ++ (renderTopicsGen grouped 1).1)) ++ "---" :: "" ::
            (("## Sources Consulted" :: "" ::
              "| Source | Items Found | Last Updated |" ::
              "|--------|-------------|--------------|" ::
              ((sortPairs (countFold [] items)).map (tableRow today) ++ [""])) ++
              "## References" :: "" :: refLine r1 :: (rr.map refLine ++ [""])) by
          simp only [hemp, Bool.false_eq_true, if_false, hrefs, List.map_cons]
          simp [List.append_assoc]]
        exact h
      · intro n hn
        obtain ⟨r, hr, hrn⟩ := List.mem_map.1 hn
        obtain ⟨t, ht⟩ := refLine_fst_rnPat r
        rcases List.mem_cons.1 hr with rfl | hr2
        · exact joinSep_head_pat (show (refLine r).data = [] ++ rnPat n ++ t by
            rw [ht, hrn]; rfl)
        · obtain ⟨R1, R2, hR⟩ := List.append_of_mem hr2
          have hxeq : (refLine r).data = rnPat n ++ t := by rw [ht, hrn]
          refine joinSep_elem_pat
            ((refLine r1).data :: (R1.map refLine).map String.data)
            ((R2.map refLine ++ [""]).map String.data) ?_ hxeq
          rw [hR]
          simp [List.append_assoc]

/-! ### Claim C4: reference-number monotonicity across builds -/

/-- The per-append assigned reference-number lists along a trace; each step
carries `(ticket_id, new_items, grouped, today)` exactly as `build` hands
them to `_append_to_existing`. -/
def traceAssigned (doc0 : String) :
    List (String × List ContextItem × List (String × List ContextItem) × String) →
      List (List Nat)
  | [] => []
  | a :: rest => assignedNums doc0 a.2.2.1 ::
      traceAssigned (appendToExisting doc0 a.1 a.2.1 a.2.2.1 a.2.2.2) rest

theorem traceAssigned_pairwise (steps : List (String × List ContextItem ×
    List (String × List ContextItem) × String)) :
    ∀ (doc : String) (A : List Nat), RefInv doc A → A.Pairwise (· < ·) →
      (A ++ (traceAssigned doc steps).flatten).Pairwise (· < ·) := by
  induction steps with
  | nil =>
    intro doc A _ hpw
    simpa [traceAssigned] using hpw
  | cons a rest ih =>
    intro doc A hinv hpw
    obtain ⟨hinv2, hrange, hgtA⟩ :=
      appendToExisting_inv doc a.1 a.2.1 a.2.2.1 a.2.2.2 A hinv
    have hpw2 : (A ++ assignedNums doc a.2.2.1).Pairwise (· < ·) := by
      rw [List.pairwise_append]
      refine ⟨hpw, ?_, ?_⟩
      · rw [hrange]
        exact range'_pairwise_lt _ _
      · intro m hm n hn
        have h1 := hgtA m hm
        have h2 : nextRefNum doc ≤ n := by
          rw [hrange] at hn
          exact (List.mem_range'_1.1 hn).1
        omega
    have h3 := ih (appendToExisting doc a.1 a.2.1 a.2.2.1 a.2.2.2)
      (A ++ assignedNums doc a.2.2.1) hinv2 hpw2
    simpa [traceAssigned, List.append_assoc] using h3

/-- C4: across an initial `_generate_markdown` build followed by any
sequence of `_append_to_existing` builds — whatever items and grouping each
step brings — the reference numbers assigned to items strictly increase
within and across builds and no number is ever assigned twice (the full
assignment trace is pairwise `<`); the initial build numbers from 1
consecutively, and every append assigns the consecutive run starting at
`next_ref_num` of the existing document — one past the maximum `\[(\d+)\]:`
marker parsed from it (or 1 if none parse), by the definition of
`nextRefNum` unfolded in `assignedNums`. -/
theorem c4 (tid0 today0 : String) (items0 : List ContextItem)
    (grouped0 : List (String × List ContextItem))
    (steps : List (String × List ContextItem ×
      List (String × List ContextItem) × String)) :
    ((((renderTopicsGen grouped0 1).2.1.map (·.1)) ++
      (traceAssigned (generateMarkdown tid0 items0 grouped0 today0)
        steps).flatten).Pairwise (· < ·)) ∧
    ((renderTopicsGen grouped0 1).2.1.map (·.1) =
      List.range' 1 ((renderTopicsGen grouped0 1).2.1.map (·.1)).length) ∧
    (∀ doc grouped, assignedNums doc grouped =
      List.range' (nextRefNum doc) (assignedNums doc grouped).length) := by
  refine ⟨?_, ?_, ?_⟩
  · refine traceAssigned_pairwise steps (generateMarkdown tid0 items0 grouped0 today0)
      ((renderTopicsGen grouped0 1).2.1.map (·.1))
      (generateMarkdown_inv tid0 items0 grouped0 today0) ?_
    obtain ⟨h1, _⟩ := renderTopicsGen_nums grouped0 1
    rw [h1]
    exact range'_pairwise_lt _ _
  · obtain ⟨h1, _⟩ := renderTopicsGen_nums grouped0 1
    rw [h1, List.length_range']
  · intro doc grouped
    obtain ⟨h1, _⟩ := renderTopicsApp_nums (mainContent doc) grouped (nextRefNum doc)
    unfold assignedNums newRefsOf
    rw [h1, List.length_range']

end Rove
